import Mathlib

/-!
# Raft3D: the replicated state machine of `fsm/fsm.go`

A shallow embedding of the finite state machine that the Raft log drives
(`FSM.Apply`, `FSM.Snapshot`, `fsmSnapshot.Persist`, `FSM.Restore`) together with
the records of `models/`.

Conventions of the embedding:

* a Go `map[string]V` is a finite map from `String` to `V` (`GoMap V`); two maps
  are equal when they hold the same entries, whatever the insertion order;
* a Go `int` is an integer of the 64-bit range (`GoInt`); the one arithmetic
  operation of the package, the subtraction of the Done transition, wraps at
  64 bits (`GoInt.sub`);
* a Go `string` is a `String`, a text of Unicode characters: the strings of
  the records and the keys of the maps are built by `encoding/json`, which
  reads bytes that are not UTF-8 as U+FFFD;
* `encoding/json` is a library the package calls; it is a parameter (`Json`) of
  every function that calls it, so every theorem holds for every behaviour of
  the library unless it states an assumption on it. The snapshot stream of the
  library is written out as `Encode` and `Decode`; `Json.withSnapshotStream`
  and the library of the concrete examples, `demoJson`, use them;
* the maps of an `*FSM` are reference values: `Store` holds the map objects,
  and an `FSMRef` or an `fsmSnapshot` the three references an `*FSM` or an
  `*fsmSnapshot` keeps to them;
* a map field may hold nil, which `Restore` assigns for a member the stream
  leaves out: `Maps` keeps the three fields as they are, `Maps.Apply` is `Apply`
  on them, and an assignment to an entry of a nil map is a run-time panic. A nil
  map has no entries and is read as the empty map; `FSM` keeps the entries of
  the three maps, and `Apply` on it is `Maps.Apply` on maps that are not nil
  (`Apply_ofTables`, `Apply_returns`).
-/

namespace Raft3d

/-! ## Bytes, integers, maps -/

/-- Go `[]byte`; a byte is kept as its numeric value. -/
abbrev Bytes := List Nat

/-- The bytes of an ASCII string constant, `[]byte("...")`. -/
def bytesOf (s : String) : Bytes := s.toList.map Char.toNat

/-- Go `bytes.HasPrefix(data, []byte(tag))`. -/
def hasTag (data : Bytes) (tag : String) : Bool := (bytesOf tag).isPrefixOf data

/-- Go `data[len(tag):]`. -/
def afterTag (data : Bytes) (tag : String) : Bytes := data.drop (bytesOf tag).length

/-- The least value of a Go `int` on a 64-bit platform. -/
def minInt : Int := -9223372036854775808

/-- The greatest value of a Go `int` on a 64-bit platform. -/
def maxInt : Int := 9223372036854775807

/-- The value a 64-bit two's-complement register holds for the exact result `x`. -/
def wrapInt (x : Int) : Int := (x + 9223372036854775808) % 18446744073709551616 - 9223372036854775808

/-- Go `int` on a 64-bit platform: the integers from `minInt` to `maxInt`. -/
abbrev GoInt := { x : Int // minInt ≤ x ∧ x ≤ maxInt }

/-- The Go `int` that holds the exact result `x`, wrapped at 64 bits. -/
def GoInt.ofInt (x : Int) : GoInt :=
  ⟨wrapInt x, by unfold wrapInt minInt maxInt; omega⟩

instance (n : Nat) : OfNat GoInt n := ⟨GoInt.ofInt n⟩

/-- Go `a - b` on `int`: the exact difference, wrapped at 64 bits. -/
def GoInt.sub (a b : GoInt) : GoInt := GoInt.ofInt (a.val - b.val)

/-- Go `map[string]V`. -/
abbrev GoMap (V : Type) := Finmap (fun _ : String => V)

/-! ## models -/

/-- Modelled from the spec: the declaration of `models.Printer` is not among the
sources; the fields are those of the spec's data model (`{id, company, model}`),
under the names `main.go` reads them by. -/
structure Printer where
  ID : String
  Company : String
  Model : String
deriving DecidableEq, Repr

/-- The record `models.Filament`; `FilamentType` is a Go string type. -/
structure Filament where
  ID : String
  Type_ : String
  Color : String
  TotalWeightInGrams : GoInt
  RemainingWeightInGrams : GoInt
deriving DecidableEq, Repr

/-- Go `type PrintJobStatus string`: a status is any string. -/
abbrev PrintJobStatus := String

/-- The constant `models.Queued`. -/
def Queued : PrintJobStatus := "Queued"

/-- The constant `models.Running`. -/
def Running : PrintJobStatus := "Running"

/-- The constant `models.Done`. -/
def Done : PrintJobStatus := "Done"

/-- The constant `models.Canceled`. -/
def Canceled : PrintJobStatus := "Canceled"

/-- The record `models.PrintJob`. -/
structure PrintJob where
  ID : String
  PrinterID : String
  FilamentID : String
  File : String
  PrintWeightInGrams : GoInt
  Status : PrintJobStatus
deriving DecidableEq, Repr

/-- The zero value of `models.Filament`, which a Go map read yields for an absent key. -/
def zeroFilament : Filament := ⟨"", "", "", 0, 0⟩

/-! ## fsm -/

/-- The anonymous command struct of the `statusupdate:` case. -/
structure StatusUpdate where
  JobID : String
  NewStatus : PrintJobStatus
deriving DecidableEq, Repr

/-- The contents of the three tables of an `FSM`. The same three fields make up
the anonymous struct that `Persist` encodes and `Restore` decodes. -/
structure FSM where
  printers : GoMap Printer
  filaments : GoMap Filament
  printJobs : GoMap PrintJob
deriving DecidableEq

/-- The three map fields of an `*FSM` as Go values: `none` is the nil map, which
a map field holds before `make` and which `Restore` assigns for a member that
the stream leaves out or gives as `null`. -/
structure Maps where
  printers : Option (GoMap Printer)
  filaments : Option (GoMap Filament)
  printJobs : Option (GoMap PrintJob)
deriving DecidableEq

/-- The entries of a map value: a nil map has none, and Go reads it as it reads
the empty map. -/
def entriesOf {V : Type} (m : Option (GoMap V)) : GoMap V := m.getD ∅

/-- The contents of the three tables. -/
def Maps.tables (s : Maps) : FSM :=
  ⟨entriesOf s.printers, entriesOf s.filaments, entriesOf s.printJobs⟩

/-- Three maps that are not nil, with the given contents. -/
def Maps.ofTables (f : FSM) : Maps := ⟨some f.printers, some f.filaments, some f.printJobs⟩

/-- The calls the package makes into `encoding/json`, one per target type.
`Except.error` carries the library's error. The snapshot is encoded from, and
decoded to, three map values, each of which may be nil. -/
structure Json where
  unmarshalPrinter : Bytes → Except String Printer
  unmarshalFilament : Bytes → Except String Filament
  unmarshalStatusUpdate : Bytes → Except String StatusUpdate
  unmarshalPrintJob : Bytes → Except String PrintJob
  encodeSnapshot : Maps → Except String Bytes
  decodeSnapshot : Bytes → Except String Maps

/-- The errors `Apply` builds with `fmt.Errorf`, one constructor per format string. -/
inductive ApplyError where
  | unmarshal (err : String)
  | jobNotFound (jobID : String)
  | invalidTransition (current : PrintJobStatus) (target : PrintJobStatus)
  | insufficientFilament (jobID : String)
  | invalidStatus (status : PrintJobStatus)
deriving DecidableEq, Repr

/-- The text of the error, as the format strings of `Apply` give it. -/
def ApplyError.message : ApplyError → String
  | .unmarshal err => "FSM: unmarshal error: " ++ err
  | .jobNotFound jobID => "FSM: job " ++ jobID ++ " not found"
  | .invalidTransition current target => "FSM: invalid transition from " ++ current ++ " to " ++ target
  | .insufficientFilament jobID => "FSM: insufficient filament for job " ++ jobID
  | .invalidStatus status => "FSM: invalid status " ++ status

/-- Go `NewFSM`: three empty maps. -/
def NewFSM : FSM := ⟨∅, ∅, ∅⟩

/-- The last two statements of the `statusupdate:` case: `pj.Status = cmd.NewStatus;
f.printJobs[cmd.JobID] = pj; return nil`. -/
def storeStatus (f : FSM) (cmd : StatusUpdate) (pj : PrintJob) : FSM × Option ApplyError :=
  ({ f with printJobs := f.printJobs.insert cmd.JobID { pj with Status := cmd.NewStatus } }, none)

/-- The body of the `statusupdate:` case after a successful unmarshal: the job
lookup and the transition switch. -/
def applyStatusUpdate (f : FSM) (cmd : StatusUpdate) : FSM × Option ApplyError :=
  match f.printJobs.lookup cmd.JobID with
  | none => (f, some (.jobNotFound cmd.JobID))
  | some pj =>
    if cmd.NewStatus = Running then
      if pj.Status ≠ Queued then (f, some (.invalidTransition pj.Status Running))
      else storeStatus f cmd pj
    else if cmd.NewStatus = Done then
      if pj.Status ≠ Running then (f, some (.invalidTransition pj.Status Done))
      else
        let filament := (f.filaments.lookup pj.FilamentID).getD zeroFilament
        if filament.RemainingWeightInGrams.val < pj.PrintWeightInGrams.val then
          (f, some (.insufficientFilament cmd.JobID))
        else
          let filament := { filament with
            RemainingWeightInGrams := filament.RemainingWeightInGrams.sub pj.PrintWeightInGrams }
          storeStatus { f with filaments := f.filaments.insert pj.FilamentID filament } cmd pj
    else if cmd.NewStatus = Canceled then
      if ¬ (pj.Status = Queued ∨ pj.Status = Running) then
        (f, some (.invalidTransition pj.Status Canceled))
      else storeStatus f cmd pj
    else (f, some (.invalidStatus cmd.NewStatus))

/-- The body of the `printjob:` case after a successful unmarshal. -/
def applyPrintJob (f : FSM) (pj : PrintJob) : FSM × Option ApplyError :=
  if pj.PrinterID ∉ f.printers then (f, none)
  else if pj.FilamentID ∉ f.filaments then (f, none)
  else
    let pj := if pj.Status = "" then { pj with Status := Queued } else pj
    ({ f with printJobs := f.printJobs.insert pj.ID pj }, none)

/-- Go `FSM.Apply` on maps that are not nil: the new contents of the tables and
the returned value (`none` is Go `nil`). The argument is `logEntry.Data`.
`Maps.Apply` is the same function on maps that may be nil. -/
def Apply (js : Json) (f : FSM) (data : Bytes) : FSM × Option ApplyError :=
  if hasTag data "printer:" then
    match js.unmarshalPrinter (afterTag data "printer:") with
    | .error _ => (f, none)
    | .ok p => ({ f with printers := f.printers.insert p.ID p }, none)
  else if hasTag data "filament:" then
    match js.unmarshalFilament (afterTag data "filament:") with
    | .error _ => (f, none)
    | .ok fl => ({ f with filaments := f.filaments.insert fl.ID fl }, none)
  else if hasTag data "statusupdate:" then
    match js.unmarshalStatusUpdate (afterTag data "statusupdate:") with
    | .error err => (f, some (.unmarshal err))
    | .ok cmd => applyStatusUpdate f cmd
  else if hasTag data "printjob:" then
    match js.unmarshalPrintJob (afterTag data "printjob:") with
    | .error _ => (f, none)
    | .ok pj => applyPrintJob f pj
  else (f, none)

/-- The tables after a sequence of log entries, applied in order. -/
def applyAll (js : Json) (f : FSM) : List Bytes → FSM
  | [] => f
  | data :: rest => applyAll js (Apply js f data).1 rest

/-! ### Apply on maps that may be nil -/

/-- Go `m[key] = v`. The outer `none` is the run-time panic "assignment to entry
in nil map"; otherwise the map with the entry stored. -/
def assign {V : Type} (m : Option (GoMap V)) (key : String) (v : V) :
    Option (Option (GoMap V)) :=
  match m with
  | none => none
  | some entries => some (some (entries.insert key v))

/-- The last two statements of the `statusupdate:` case, on maps that may be nil. -/
def Maps.storeStatus (s : Maps) (cmd : StatusUpdate) (pj : PrintJob) :
    Option (Maps × Option ApplyError) :=
  match assign s.printJobs cmd.JobID { pj with Status := cmd.NewStatus } with
  | none => none
  | some printJobs => some ({ s with printJobs := printJobs }, none)

/-- The body of the `statusupdate:` case after a successful unmarshal, on maps
that may be nil. -/
def Maps.applyStatusUpdate (s : Maps) (cmd : StatusUpdate) : Option (Maps × Option ApplyError) :=
  match (entriesOf s.printJobs).lookup cmd.JobID with
  | none => some (s, some (.jobNotFound cmd.JobID))
  | some pj =>
    if cmd.NewStatus = Running then
      if pj.Status ≠ Queued then some (s, some (.invalidTransition pj.Status Running))
      else Maps.storeStatus s cmd pj
    else if cmd.NewStatus = Done then
      if pj.Status ≠ Running then some (s, some (.invalidTransition pj.Status Done))
      else
        let filament := ((entriesOf s.filaments).lookup pj.FilamentID).getD zeroFilament
        if filament.RemainingWeightInGrams.val < pj.PrintWeightInGrams.val then
          some (s, some (.insufficientFilament cmd.JobID))
        else
          let filament := { filament with
            RemainingWeightInGrams := filament.RemainingWeightInGrams.sub pj.PrintWeightInGrams }
          match assign s.filaments pj.FilamentID filament with
          | none => none
          | some filaments => Maps.storeStatus { s with filaments := filaments } cmd pj
    else if cmd.NewStatus = Canceled then
      if ¬ (pj.Status = Queued ∨ pj.Status = Running) then
        some (s, some (.invalidTransition pj.Status Canceled))
      else Maps.storeStatus s cmd pj
    else some (s, some (.invalidStatus cmd.NewStatus))

/-- The body of the `printjob:` case after a successful unmarshal, on maps that
may be nil. -/
def Maps.applyPrintJob (s : Maps) (pj : PrintJob) : Option (Maps × Option ApplyError) :=
  if pj.PrinterID ∉ entriesOf s.printers then some (s, none)
  else if pj.FilamentID ∉ entriesOf s.filaments then some (s, none)
  else
    let pj := if pj.Status = "" then { pj with Status := Queued } else pj
    match assign s.printJobs pj.ID pj with
    | none => none
    | some printJobs => some ({ s with printJobs := printJobs }, none)

/-- Go `FSM.Apply` on maps that may be nil: `none` when the call panics on a
write to a nil map, otherwise the maps afterwards and the returned value. On
maps that are not nil it returns what `Apply` gives (`Apply_ofTables`). -/
def Maps.Apply (js : Json) (s : Maps) (data : Bytes) : Option (Maps × Option ApplyError) :=
  if hasTag data "printer:" then
    match js.unmarshalPrinter (afterTag data "printer:") with
    | .error _ => some (s, none)
    | .ok p =>
      match assign s.printers p.ID p with
      | none => none
      | some printers => some ({ s with printers := printers }, none)
  else if hasTag data "filament:" then
    match js.unmarshalFilament (afterTag data "filament:") with
    | .error _ => some (s, none)
    | .ok fl =>
      match assign s.filaments fl.ID fl with
      | none => none
      | some filaments => some ({ s with filaments := filaments }, none)
  else if hasTag data "statusupdate:" then
    match js.unmarshalStatusUpdate (afterTag data "statusupdate:") with
    | .error err => some (s, some (.unmarshal err))
    | .ok cmd => Maps.applyStatusUpdate s cmd
  else if hasTag data "printjob:" then
    match js.unmarshalPrintJob (afterTag data "printjob:") with
    | .error _ => some (s, none)
    | .ok pj => Maps.applyPrintJob s pj
  else some (s, none)

/-! ### The maps as reference values -/

/-- The map objects allocated so far, one list per value type; a map reference
is an index into its list, or `none`, the nil map. A reference that is not
allocated reads as the empty map, as a Go `nil` map does. -/
structure Store where
  printers : List (GoMap Printer)
  filaments : List (GoMap Filament)
  printJobs : List (GoMap PrintJob)

/-- The three map references in the fields of an `*FSM`. -/
structure FSMRef where
  printers : Option Nat
  filaments : Option Nat
  printJobs : Option Nat
deriving DecidableEq, Repr

/-- Go `fsmSnapshot`: three map references. -/
structure fsmSnapshot where
  printers : Option Nat
  filaments : Option Nat
  printJobs : Option Nat
deriving DecidableEq, Repr

/-- The map values behind three references. -/
def Store.maps (st : Store) (printers filaments printJobs : Option Nat) : Maps :=
  ⟨printers.map (fun n => st.printers.getD n ∅), filaments.map (fun n => st.filaments.getD n ∅),
   printJobs.map (fun n => st.printJobs.getD n ∅)⟩

/-- The contents of the maps behind three references. -/
def Store.read (st : Store) (printers filaments printJobs : Option Nat) : FSM :=
  (st.maps printers filaments printJobs).tables

/-- The tables of an `*FSM`. -/
def Store.tables (st : Store) (f : FSMRef) : FSM := st.read f.printers f.filaments f.printJobs

/-- The list of map objects after the object behind a reference took new
contents; nothing is behind a nil reference. -/
def setAt {V : Type} (objects : List (GoMap V)) (ref : Option Nat) (entries : GoMap V) :
    List (GoMap V) :=
  match ref with
  | none => objects
  | some n => objects.set n entries

/-- The store after the map objects behind the references of `f` took new contents. -/
def Store.write (st : Store) (f : FSMRef) (t : FSM) : Store :=
  ⟨setAt st.printers f.printers t.printers, setAt st.filaments f.filaments t.filaments,
   setAt st.printJobs f.printJobs t.printJobs⟩

/-- Three new map objects with the given contents, and the references to them. -/
def Store.alloc (st : Store) (t : FSM) : Store × FSMRef :=
  (⟨st.printers ++ [t.printers], st.filaments ++ [t.filaments], st.printJobs ++ [t.printJobs]⟩,
   ⟨some st.printers.length, some st.filaments.length, some st.printJobs.length⟩)

/-- The list of map objects with a new object for a map that is not nil, and
the reference to the map. -/
def allocAt {V : Type} (objects : List (GoMap V)) (m : Option (GoMap V)) :
    List (GoMap V) × Option Nat :=
  match m with
  | none => (objects, none)
  | some entries => (objects ++ [entries], some objects.length)

/-- New map objects for the maps of `s` that are not nil, and the references to
the three maps. -/
def Store.allocMaps (st : Store) (s : Maps) : Store × FSMRef :=
  (⟨(allocAt st.printers s.printers).1, (allocAt st.filaments s.filaments).1,
    (allocAt st.printJobs s.printJobs).1⟩,
   ⟨(allocAt st.printers s.printers).2, (allocAt st.filaments s.filaments).2,
    (allocAt st.printJobs s.printJobs).2⟩)

/-- Go `NewFSM` in a store: `make` allocates the three maps. -/
def Store.NewFSM (st : Store) : Store × FSMRef := st.alloc Raft3d.NewFSM

/-- Go `FSM.Apply` in a store: the assignments `f.printers[..] = ..` and the like
change the map objects in place; the fields of `f` keep their references. The
second component is the returned value, or `none` when the call panics on a
write to a nil map, which it does before it has changed any map object. -/
def Store.Apply (js : Json) (st : Store) (f : FSMRef) (data : Bytes) :
    Store × Option (Option ApplyError) :=
  match Maps.Apply js (st.maps f.printers f.filaments f.printJobs) data with
  | none => (st, none)
  | some r => (st.write f r.1.tables, some r.2)

/-- Go `FSM.Snapshot`: the snapshot takes the three fields of `f`, which are
references; the error result is always nil. -/
def Store.Snapshot (f : FSMRef) : fsmSnapshot := ⟨f.printers, f.filaments, f.printJobs⟩

/-- Go `fsmSnapshot.Persist`: the bytes the encoder writes to the sink, for the
contents the maps of the snapshot have when `Persist` runs. The sink takes the
bytes and closes without an error of its own. -/
def Store.Persist (js : Json) (st : Store) (s : fsmSnapshot) : Except String Bytes :=
  match js.encodeSnapshot (st.maps s.printers s.filaments s.printJobs) with
  | .error err => .error ("failed to persist snapshot: " ++ err)
  | .ok bytes => .ok bytes

/-- Go `FSM.Restore`: on a decoded stream the fields of `f` take the maps the
decoder built, a nil map for a member the stream leaves out; on an error
nothing is assigned. The last component is the returned error (`none` is Go
`nil`). -/
def Store.Restore (js : Json) (st : Store) (f : FSMRef) (stream : Bytes) :
    Store × FSMRef × Option String :=
  match js.decodeSnapshot stream with
  | .error err => (st, f, some ("failed to decode snapshot: " ++ err))
  | .ok snapshot => ((st.allocMaps snapshot).1, (st.allocMaps snapshot).2, none)

/-! ### The snapshot stream

`Persist` writes the snapshot with `json.NewEncoder(sink).Encode` and `Restore`
reads it with `json.NewDecoder(rc).Decode`. What these two calls do on the
snapshot struct is written out here: the writer in full, the reader for the
streams the writer produces and for such streams with members left out or
`null`. A stream the reader does not cover (white space between the tokens,
members of a record in another order, members with other names) is reported as
an error. -/

/-- Go `utf8.AppendRune`: the UTF-8 bytes of a character. -/
def EncodeRune (c : Char) : Bytes :=
  if c.toNat < 128 then [c.toNat]
  else if c.toNat < 2048 then [192 + c.toNat / 64, 128 + c.toNat % 64]
  else if c.toNat < 65536 then
    [224 + c.toNat / 4096, 128 + c.toNat / 64 % 64, 128 + c.toNat % 64]
  else
    [240 + c.toNat / 262144, 128 + c.toNat / 4096 % 64, 128 + c.toNat / 64 % 64,
      128 + c.toNat % 64]

/-- The UTF-8 bytes of a text. -/
def utf8 (text : List Char) : Bytes := text.flatMap EncodeRune

/-- Go `utf8.DecodeRune`: the code point of the first character of the input and
the number of bytes it takes; `(65533, 1)` (`RuneError`) when the input does not
start with the UTF-8 bytes of a character. -/
def DecodeRune : Bytes → Nat × Nat
  | [] => (65533, 0)
  | b0 :: rest =>
    if b0 < 128 then (b0, 1)
    else if 194 ≤ b0 ∧ b0 < 224 then
      match rest with
      | b1 :: _ =>
        if 128 ≤ b1 ∧ b1 < 192 then ((b0 - 192) * 64 + (b1 - 128), 2) else (65533, 1)
      | [] => (65533, 1)
    else if 224 ≤ b0 ∧ b0 < 240 then
      match rest with
      | b1 :: b2 :: _ =>
        if (if b0 = 224 then 160 else 128) ≤ b1 ∧ b1 < (if b0 = 237 then 160 else 192) ∧
            128 ≤ b2 ∧ b2 < 192 then
          (((b0 - 224) * 64 + (b1 - 128)) * 64 + (b2 - 128), 3)
        else (65533, 1)
      | _ => (65533, 1)
    else if 240 ≤ b0 ∧ b0 < 245 then
      match rest with
      | b1 :: b2 :: b3 :: _ =>
        if (if b0 = 240 then 144 else 128) ≤ b1 ∧ b1 < (if b0 = 244 then 144 else 192) ∧
            128 ≤ b2 ∧ b2 < 192 ∧ 128 ≤ b3 ∧ b3 < 192 then
          ((((b0 - 240) * 64 + (b1 - 128)) * 64 + (b2 - 128)) * 64 + (b3 - 128), 4)
        else (65533, 1)
      | _ => (65533, 1)
    else (65533, 1)

/-- The characters of a byte stream, as the decoder reads them: a byte that
starts no character is read as U+FFFD. At most `fuel` characters are read. -/
def decodeRunes : Nat → Bytes → List Char
  | 0, _ => []
  | _ + 1, [] => []
  | fuel + 1, b :: rest =>
    Char.ofNat (DecodeRune (b :: rest)).1 ::
      decodeRunes fuel ((b :: rest).drop (DecodeRune (b :: rest)).2)

/-- The two hexadecimal digits that `appendString` writes after `\u00`. -/
def hex (n : Nat) : List Char := [Nat.digitChar (n / 16), Nat.digitChar (n % 16)]

/-- One character of a string as `appendString` of `encoding/json` writes it, with
HTML escaping on, as it is for an `Encoder`: the quotation mark, the backslash
and the control characters are escaped, `<`, `>`, `&`, U+2028 and U+2029 are
written as `\u` escapes, every other character is written as it is. (Backspace
and form feed are written `\b` and `\f` since Go 1.22 and `\u0008` and `\u000c`
before; `readRune` reads both.) -/
def escapeRune (c : Char) : List Char :=
  if c.toNat = 34 then "\\\"".toList
  else if c.toNat = 92 then "\\\\".toList
  else if c.toNat = 8 then "\\b".toList
  else if c.toNat = 12 then "\\f".toList
  else if c.toNat = 10 then "\\n".toList
  else if c.toNat = 13 then "\\r".toList
  else if c.toNat = 9 then "\\t".toList
  else if c.toNat < 32 ∨ c.toNat = 60 ∨ c.toNat = 62 ∨ c.toNat = 38 then
    "\\u00".toList ++ hex c.toNat
  else if c.toNat = 8232 then "\\u2028".toList
  else if c.toNat = 8233 then "\\u2029".toList
  else [c]

/-- Go `appendString`: a string as a JSON string. -/
def appendString (s : String) : List Char :=
  Char.ofNat 34 :: (s.toList.flatMap escapeRune ++ [Char.ofNat 34])

/-- The value of a hexadecimal digit, in either case. -/
def hexValue (c : Char) : Option Nat :=
  if 48 ≤ c.toNat ∧ c.toNat ≤ 57 then some (c.toNat - 48)
  else if 97 ≤ c.toNat ∧ c.toNat ≤ 102 then some (c.toNat - 87)
  else if 65 ≤ c.toNat ∧ c.toNat ≤ 70 then some (c.toNat - 55)
  else none

/-- Go `getu4`: the number that `\uXXXX` at the start of the input stands for. -/
def getu4 : List Char → Option (Nat × List Char)
  | b :: u :: h3 :: h2 :: h1 :: h0 :: rest =>
    if b.toNat = 92 ∧ u.toNat = 117 then
      match hexValue h3, hexValue h2, hexValue h1, hexValue h0 with
      | some d3, some d2, some d1, some d0 => some (((d3 * 16 + d2) * 16 + d1) * 16 + d0, rest)
      | _, _, _, _ => none
    else none
  | _ => none

/-- One character of a JSON string, as `unquote` reads it, and the input after
it: an escape, a pair of surrogate escapes, or a character that is not a control
character. A surrogate escape with no partner is read as U+FFFD. -/
def readRune : List Char → Option (Char × List Char)
  | [] => none
  | c :: rest =>
    if c.toNat = 92 then
      match rest with
      | [] => none
      | e :: after =>
        if e.toNat = 34 then some (Char.ofNat 34, after)
        else if e.toNat = 92 then some (Char.ofNat 92, after)
        else if e.toNat = 47 then some (Char.ofNat 47, after)
        else if e.toNat = 98 then some (Char.ofNat 8, after)
        else if e.toNat = 102 then some (Char.ofNat 12, after)
        else if e.toNat = 110 then some (Char.ofNat 10, after)
        else if e.toNat = 114 then some (Char.ofNat 13, after)
        else if e.toNat = 116 then some (Char.ofNat 9, after)
        else if e.toNat = 117 then
          match getu4 (c :: rest) with
          | none => none
          | some (n, after) =>
            if 55296 ≤ n ∧ n < 57344 then
              match getu4 after with
              | some (low, afterPair) =>
                if n < 56320 ∧ 56320 ≤ low ∧ low < 57344 then
                  some (Char.ofNat ((n - 55296) * 1024 + (low - 56320) + 65536), afterPair)
                else some (Char.ofNat 65533, after)
              | none => some (Char.ofNat 65533, after)
            else some (Char.ofNat n, after)
        else none
    else if c.toNat < 32 then none
    else some (c, rest)

/-- The characters of a JSON string up to its closing quotation mark, and the
input after the mark. -/
def unquoteBody : Nat → List Char → Option (List Char × List Char)
  | 0, _ => none
  | _ + 1, [] => none
  | fuel + 1, c :: rest =>
    if c.toNat = 34 then some ([], rest)
    else
      match readRune (c :: rest) with
      | none => none
      | some (r, after) =>
        match unquoteBody fuel after with
        | none => none
        | some (rs, afterString) => some (r :: rs, afterString)

/-- Go `unquote`: the string that a JSON string at the start of the input stands
for, and the input after it. -/
def unquote (fuel : Nat) : List Char → Option (String × List Char)
  | [] => none
  | c :: rest =>
    if c.toNat = 34 then
      match unquoteBody fuel rest with
      | none => none
      | some (rs, after) => some (String.mk rs, after)
    else none

/-- Go `strconv.AppendInt(dst, i, 10)`: an integer in decimal. -/
def AppendInt (i : Int) : List Char :=
  if i < 0 then Char.ofNat 45 :: Nat.toDigits 10 i.natAbs else Nat.toDigits 10 i.natAbs

/-- The number that a run of decimal digits at the start of the input stands
for, after the digits read before, and the input after the run. -/
def readDigits : List Char → Nat → Nat × List Char
  | [], n => (n, [])
  | c :: rest, n =>
    if 48 ≤ c.toNat ∧ c.toNat ≤ 57 then readDigits rest (n * 10 + (c.toNat - 48))
    else (n, c :: rest)

/-- The number that decimal digits at the start of the input stand for, and the
input after them; a number with a leading zero is refused, as the JSON grammar
refuses it. -/
def readNat : List Char → Option (Nat × List Char)
  | [] => none
  | d :: more =>
    if 48 ≤ d.toNat ∧ d.toNat ≤ 57 ∧
        ¬ (d.toNat = 48 ∧ ∃ e ∈ more.head?, 48 ≤ e.toNat ∧ e.toNat ≤ 57) then
      some (readDigits (d :: more) 0)
    else none

/-- A JSON number at the start of the input, read into a Go `int`, and the
input after it: an optional minus sign and decimal digits; a number outside the
range of an `int` is refused, as `strconv.ParseInt` refuses it. -/
def readInt : List Char → Option (GoInt × List Char)
  | [] => none
  | c :: rest =>
    match (if c.toNat = 45 then (readNat rest).map fun r => (-(r.1 : Int), r.2)
      else (readNat (c :: rest)).map fun r => ((r.1 : Int), r.2)) with
    | none => none
    | some (v, after) => if h : minInt ≤ v ∧ v ≤ maxInt then some (⟨v, h⟩, after) else none

/-- The input after a literal text, when the input starts with it. -/
def expect (literal input : List Char) : Option (List Char) :=
  if literal.isPrefixOf input then some (input.drop literal.length) else none

/-- The JSON object `Encode` writes for a `models.Printer`. Modelled from the
spec: the member names `id`, `company` and `model` are those of the spec's data
model, the declaration of `models.Printer` not being among the sources. -/
def encodePrinter (p : Printer) : List Char :=
  "\x7b\"id\":".toList ++ appendString p.ID ++ ",\"company\":".toList ++
    appendString p.Company ++ ",\"model\":".toList ++ appendString p.Model ++ "\x7d".toList

/-- The JSON object `Encode` writes for a `models.Filament`. -/
def encodeFilament (fl : Filament) : List Char :=
  "\x7b\"id\":".toList ++ appendString fl.ID ++ ",\"type\":".toList ++
    appendString fl.Type_ ++ ",\"color\":".toList ++ appendString fl.Color ++
    ",\"total_weight_in_grams\":".toList ++ AppendInt fl.TotalWeightInGrams.val ++
    ",\"remaining_weight_in_grams\":".toList ++ AppendInt fl.RemainingWeightInGrams.val ++
    "\x7d".toList

/-- The JSON object `Encode` writes for a `models.PrintJob`; `status` has
`omitempty` and is left out when it is the empty string. -/
def encodePrintJob (pj : PrintJob) : List Char :=
  "\x7b\"id\":".toList ++ appendString pj.ID ++ ",\"printer_id\":".toList ++
    appendString pj.PrinterID ++ ",\"filament_id\":".toList ++ appendString pj.FilamentID ++
    ",\"file\":".toList ++ appendString pj.File ++
    ",\"print_weight_in_grams\":".toList ++ AppendInt pj.PrintWeightInGrams.val ++
    (if pj.Status = "" then [] else ",\"status\":".toList ++ appendString pj.Status) ++
    "\x7d".toList

/-- A `models.Printer` read from the object `encodePrinter` writes. -/
def decodePrinter (fuel : Nat) (input : List Char) : Option (Printer × List Char) :=
  match expect "\x7b\"id\":".toList input with
  | none => none
  | some afterKey =>
  match unquote fuel afterKey with
  | none => none
  | some (id, afterID) =>
  match expect ",\"company\":".toList afterID with
  | none => none
  | some afterKey =>
  match unquote fuel afterKey with
  | none => none
  | some (company, afterCompany) =>
  match expect ",\"model\":".toList afterCompany with
  | none => none
  | some afterKey =>
  match unquote fuel afterKey with
  | none => none
  | some (model, afterModel) =>
  match expect "\x7d".toList afterModel with
  | none => none
  | some after => some (⟨id, company, model⟩, after)

/-- A `models.Filament` read from the object `encodeFilament` writes. -/
def decodeFilament (fuel : Nat) (input : List Char) : Option (Filament × List Char) :=
  match expect "\x7b\"id\":".toList input with
  | none => none
  | some afterKey =>
  match unquote fuel afterKey with
  | none => none
  | some (id, afterID) =>
  match expect ",\"type\":".toList afterID with
  | none => none
  | some afterKey =>
  match unquote fuel afterKey with
  | none => none
  | some (type, afterType) =>
  match expect ",\"color\":".toList afterType with
  | none => none
  | some afterKey =>
  match unquote fuel afterKey with
  | none => none
  | some (color, afterColor) =>
  match expect ",\"total_weight_in_grams\":".toList afterColor with
  | none => none
  | some afterKey =>
  match readInt afterKey with
  | none => none
  | some (total, afterTotal) =>
  match expect ",\"remaining_weight_in_grams\":".toList afterTotal with
  | none => none
  | some afterKey =>
  match readInt afterKey with
  | none => none
  | some (remaining, afterRemaining) =>
  match expect "\x7d".toList afterRemaining with
  | none => none
  | some after => some (⟨id, type, color, total, remaining⟩, after)

/-- A `models.PrintJob` read from the object `encodePrintJob` writes; the
status of an object with no member `status` is the empty string. -/
def decodePrintJob (fuel : Nat) (input : List Char) : Option (PrintJob × List Char) :=
  match expect "\x7b\"id\":".toList input with
  | none => none
  | some afterKey =>
  match unquote fuel afterKey with
  | none => none
  | some (id, afterID) =>
  match expect ",\"printer_id\":".toList afterID with
  | none => none
  | some afterKey =>
  match unquote fuel afterKey with
  | none => none
  | some (printerID, afterPrinter) =>
  match expect ",\"filament_id\":".toList afterPrinter with
  | none => none
  | some afterKey =>
  match unquote fuel afterKey with
  | none => none
  | some (filamentID, afterFilament) =>
  match expect ",\"file\":".toList afterFilament with
  | none => none
  | some afterKey =>
  match unquote fuel afterKey with
  | none => none
  | some (file, afterFile) =>
  match expect ",\"print_weight_in_grams\":".toList afterFile with
  | none => none
  | some afterKey =>
  match readInt afterKey with
  | none => none
  | some (weight, afterWeight) =>
  match expect "\x7d".toList afterWeight with
  | some after => some (⟨id, printerID, filamentID, file, weight, ""⟩, after)
  | none =>
  match expect ",\"status\":".toList afterWeight with
  | none => none
  | some afterKey =>
  match unquote fuel afterKey with
  | none => none
  | some (status, afterStatus) =>
  match expect "\x7d".toList afterStatus with
  | none => none
  | some after => some (⟨id, printerID, filamentID, file, weight, status⟩, after)

/-- The order in which `Encode` writes the keys of a map: ascending by code
points, which is the order of their UTF-8 bytes. -/
def keyLE (a b : String) : Prop := a.toList.map Char.toNat ≤ b.toList.map Char.toNat

instance : DecidableRel keyLE := fun a b =>
  inferInstanceAs (Decidable (a.toList.map Char.toNat ≤ b.toList.map Char.toNat))

instance : IsAntisymm String keyLE :=
  ⟨fun _ _ hab hba =>
    String.ext (List.map_injective_iff.2
      (fun c d h => (Char.ofNat_toNat c).symm.trans ((congrArg Char.ofNat h).trans (Char.ofNat_toNat d)))
      (le_antisymm hab hba))⟩

instance : IsTotal String keyLE :=
  ⟨fun a b => le_total (a.toList.map Char.toNat) (b.toList.map Char.toNat)⟩

instance : IsTrans String keyLE := ⟨fun _ _ _ hab hbc => le_trans hab hbc⟩

/-- The keys of a map in the order in which `Encode` writes them. -/
def sortedKeys {V : Type} (m : GoMap V) : List String :=
  Quotient.liftOn m.keys.val (List.insertionSort keyLE) fun a b h =>
    List.eq_of_perm_of_sorted
      (((List.perm_insertionSort keyLE a).trans h).trans (List.perm_insertionSort keyLE b).symm)
      (List.sorted_insertionSort keyLE a) (List.sorted_insertionSort keyLE b)

/-- The entries of a map in the order in which `Encode` writes them. -/
def sortedEntries {V : Type} (m : GoMap V) : List (String × V) :=
  (sortedKeys m).filterMap fun key => (m.lookup key).map fun v => (key, v)

/-- The members of the JSON object of a map: `key:value`, with commas between. -/
def encodeEntries {V : Type} (encode : V → List Char) : List (String × V) → List Char
  | [] => []
  | [e] => appendString e.1 ++ Char.ofNat 58 :: encode e.2
  | e :: next :: more =>
    appendString e.1 ++ Char.ofNat 58 :: encode e.2 ++
      Char.ofNat 44 :: encodeEntries encode (next :: more)

/-- What `Encode` writes for a map: `null` for the nil map, otherwise the object
of its entries. -/
def encodeMap {V : Type} (encode : V → List Char) : Option (GoMap V) → List Char
  | none => "null".toList
  | some m => Char.ofNat 123 :: (encodeEntries encode (sortedEntries m) ++ [Char.ofNat 125])

/-- The members of a JSON object up to its closing brace, stored one after the
other into the map `m`, and the input after the brace. -/
def decodeEntries {V : Type} (decode : Nat → List Char → Option (V × List Char)) :
    Nat → List Char → GoMap V → Option (GoMap V × List Char)
  | 0, _, _ => none
  | fuel + 1, input, m =>
    match unquote fuel input with
    | none => none
    | some (key, afterKey) =>
      match afterKey with
      | [] => none
      | colon :: afterColon =>
        if colon.toNat = 58 then
          match decode fuel afterColon with
          | none => none
          | some (v, afterValue) =>
            match afterValue with
            | [] => none
            | c :: after =>
              if c.toNat = 44 then decodeEntries decode fuel after (m.insert key v)
              else if c.toNat = 125 then some (m.insert key v, after)
              else none
        else none

/-- What `Decode` does with a JSON value for a map field that holds `current`:
`null` sets the field to nil; an object makes a map when the field is nil and
stores the members in it. -/
def decodeMap {V : Type} (decode : Nat → List Char → Option (V × List Char)) (fuel : Nat)
    (current : Option (GoMap V)) (input : List Char) : Option (Option (GoMap V) × List Char) :=
  match expect "null".toList input with
  | some after => some (none, after)
  | none =>
    match input with
    | [] => none
    | c :: rest =>
      if c.toNat = 123 then
        match rest with
        | [] => none
        | d :: after =>
          if d.toNat = 125 then some (some (current.getD ∅), after)
          else
            match decodeEntries decode fuel rest (current.getD ∅) with
            | none => none
            | some (m, afterMap) => some (some m, afterMap)
      else none

/-- The text `Encode` writes in `Persist`: one object with the members
`Printers`, `Filaments` and `PrintJobs`, and a line feed after it. -/
def encodeMaps (s : Maps) : List Char :=
  "\x7b\"Printers\":".toList ++ encodeMap encodePrinter s.printers ++
    ",\"Filaments\":".toList ++ encodeMap encodeFilament s.filaments ++
    ",\"PrintJobs\":".toList ++ encodeMap encodePrintJob s.printJobs ++ "\x7d\n".toList

/-- The members of the snapshot object up to its closing brace, each decoded
into its field of `s`. -/
def decodeMembers : Nat → List Char → Maps → Option Maps
  | 0, _, _ => none
  | fuel + 1, input, s =>
    match unquote fuel input with
    | none => none
    | some (key, afterKey) =>
      match afterKey with
      | [] => none
      | colon :: afterColon =>
        if colon.toNat = 58 then
          match
            (if key = "Printers" then
              (decodeMap decodePrinter fuel s.printers afterColon).map fun r =>
                ({ s with printers := r.1 }, r.2)
            else if key = "Filaments" then
              (decodeMap decodeFilament fuel s.filaments afterColon).map fun r =>
                ({ s with filaments := r.1 }, r.2)
            else if key = "PrintJobs" then
              (decodeMap decodePrintJob fuel s.printJobs afterColon).map fun r =>
                ({ s with printJobs := r.1 }, r.2)
            else none) with
          | none => none
          | some (s₁, afterValue) =>
            match afterValue with
            | [] => none
            | c :: after =>
              if c.toNat = 44 then decodeMembers fuel after s₁
              else if c.toNat = 125 then some s₁
              else none
        else none

/-- The snapshot struct that `Decode` fills in `Restore` from a text: the three
fields are nil before, and a field whose member the object leaves out stays
nil. What follows the object is not read. -/
def decodeMaps (text : List Char) : Option Maps :=
  match text with
  | [] => none
  | c :: rest =>
    if c.toNat = 123 then
      match rest with
      | [] => none
      | d :: _ =>
        if d.toNat = 125 then some ⟨none, none, none⟩
        else decodeMembers text.length rest ⟨none, none, none⟩
    else none

/-- The bytes `json.NewEncoder(sink).Encode` writes for the snapshot struct. -/
def Encode (s : Maps) : Bytes := utf8 (encodeMaps s)

/-- The snapshot struct `json.NewDecoder(rc).Decode` fills from a stream, or
the error it returns. -/
def Decode (stream : Bytes) : Except String Maps :=
  match decodeMaps (decodeRunes stream.length stream) with
  | some s => .ok s
  | none => .error "invalid character"

/-- The library with the snapshot stream written out: the snapshot is encoded by
`Encode` and decoded by `Decode`; the four `Unmarshal` calls are those of `js`. -/
def Json.withSnapshotStream (js : Json) : Json :=
  { js with encodeSnapshot := fun s => .ok (Encode s), decodeSnapshot := Decode }

/-! ### Read accessors -/

/-- The values a loop `for _, v := range m` visits: every entry of the map
once, in an order Go does not specify. The slice the loop appends them to is
kept up to its order. -/
def rangeValues {V : Type} (m : GoMap V) : Multiset V := m.entries.map Sigma.snd

/-- Go `FSM.GetAllPrinters`: the tables afterwards and the returned slice. -/
def GetAllPrinters (f : FSM) : FSM × Multiset Printer := (f, rangeValues f.printers)

/-- Go `FSM.GetAllPrintJobs`: the tables afterwards and the returned slice. -/
def GetAllPrintJobs (f : FSM) : FSM × Multiset PrintJob := (f, rangeValues f.printJobs)

/-- Go `FSM.GetAllFilaments`: the tables afterwards and the returned slice. -/
def GetAllFilaments (f : FSM) : FSM × Multiset Filament := (f, rangeValues f.filaments)

/-- Go `FSM.GetFilamentByID`: the tables afterwards and the returned filament or error. -/
def GetFilamentByID (f : FSM) (id : String) : FSM × Except String Filament :=
  match f.filaments.lookup id with
  | none => (f, .error "filament not found")
  | some fl => (f, .ok fl)

/-! ### Log entries -/

deriving instance DecidableEq for Except

/-- The entry is a create-printer command whose payload decodes to `p`. -/
def IsPrinter (js : Json) (data : Bytes) (p : Printer) : Prop :=
  hasTag data "printer:" = true ∧ js.unmarshalPrinter (afterTag data "printer:") = .ok p

instance (js : Json) (data : Bytes) (p : Printer) : Decidable (IsPrinter js data p) := by
  unfold IsPrinter; infer_instance

/-- The entry is a create-filament command whose payload decodes to `fl`. -/
def IsFilament (js : Json) (data : Bytes) (fl : Filament) : Prop :=
  hasTag data "filament:" = true ∧ js.unmarshalFilament (afterTag data "filament:") = .ok fl

instance (js : Json) (data : Bytes) (fl : Filament) : Decidable (IsFilament js data fl) := by
  unfold IsFilament; infer_instance

/-- The entry is an update-job-status command whose payload decodes to `cmd`. -/
def IsStatusUpdate (js : Json) (data : Bytes) (cmd : StatusUpdate) : Prop :=
  hasTag data "statusupdate:" = true ∧
    js.unmarshalStatusUpdate (afterTag data "statusupdate:") = .ok cmd

instance (js : Json) (data : Bytes) (cmd : StatusUpdate) :
    Decidable (IsStatusUpdate js data cmd) := by
  unfold IsStatusUpdate; infer_instance

/-- The entry is a create-print-job command whose payload decodes to `pj`. -/
def IsPrintJob (js : Json) (data : Bytes) (pj : PrintJob) : Prop :=
  hasTag data "printjob:" = true ∧ js.unmarshalPrintJob (afterTag data "printjob:") = .ok pj

instance (js : Json) (data : Bytes) (pj : PrintJob) : Decidable (IsPrintJob js data pj) := by
  unfold IsPrintJob; infer_instance

/-- The pairs (current, requested) of the transition graph. -/
def LegalTransition (current requested : PrintJobStatus) : Prop :=
  (current = Queued ∧ requested = Running) ∨ (current = Running ∧ requested = Done) ∨
    (current = Queued ∧ requested = Canceled) ∨ (current = Running ∧ requested = Canceled)

instance (current requested : PrintJobStatus) : Decidable (LegalTransition current requested) := by
  unfold LegalTransition; infer_instance

/-- The stock invariant of one filament. -/
def Filament.InStock (fl : Filament) : Prop :=
  0 ≤ fl.RemainingWeightInGrams.val ∧ fl.RemainingWeightInGrams.val ≤ fl.TotalWeightInGrams.val

/-- The stock invariant of the filament table. -/
def StockInvariant (f : FSM) : Prop :=
  ∀ id fl, f.filaments.lookup id = some fl → fl.InStock

instance (fl : Filament) : Decidable fl.InStock := by
  unfold Filament.InStock; infer_instance

/-- The filament a create-filament entry carries, if the entry is one. -/
def filamentOf (js : Json) (data : Bytes) : Option Filament :=
  if hasTag data "filament:" then (js.unmarshalFilament (afterTag data "filament:")).toOption
  else none

/-- The job a create-print-job entry carries, if the entry is one. -/
def printJobOf (js : Json) (data : Bytes) : Option PrintJob :=
  if hasTag data "printjob:" then (js.unmarshalPrintJob (afterTag data "printjob:")).toOption
  else none

/-- The command an update-job-status entry carries, if the entry is one. -/
def statusUpdateOf (js : Json) (data : Bytes) : Option StatusUpdate :=
  if hasTag data "statusupdate:" then
    (js.unmarshalStatusUpdate (afterTag data "statusupdate:")).toOption
  else none

/-- The entry keeps stock sound: a filament it carries has between nothing and
its total weight left, and a job it carries has a print weight that is not
negative. -/
def StockSound (js : Json) (data : Bytes) : Prop :=
  (∀ fl ∈ filamentOf js data, fl.InStock) ∧
    (∀ pj ∈ printJobOf js data, 0 ≤ pj.PrintWeightInGrams.val)

instance (js : Json) (data : Bytes) : Decidable (StockSound js data) := by
  unfold StockSound; infer_instance

/-- Every stored job has a print weight that is not negative. -/
def WeightsNonNegative (f : FSM) : Prop :=
  ∀ id pj, f.printJobs.lookup id = some pj → 0 ≤ pj.PrintWeightInGrams.val

/-- The entry has none of the four tags. -/
def UnknownTag (data : Bytes) : Prop :=
  hasTag data "printer:" = false ∧ hasTag data "filament:" = false ∧
    hasTag data "statusupdate:" = false ∧ hasTag data "printjob:" = false

instance (data : Bytes) : Decidable (UnknownTag data) := by
  unfold UnknownTag; infer_instance

/-- The entry has the tag of one of the three creation commands and a payload
that `json.Unmarshal` rejects. -/
def MalformedCreation (js : Json) (data : Bytes) : Prop :=
  (hasTag data "printer:" = true ∧
      (js.unmarshalPrinter (afterTag data "printer:")).toOption = none) ∨
    (hasTag data "filament:" = true ∧
      (js.unmarshalFilament (afterTag data "filament:")).toOption = none) ∨
    (hasTag data "printjob:" = true ∧
      (js.unmarshalPrintJob (afterTag data "printjob:")).toOption = none)

instance (js : Json) (data : Bytes) : Decidable (MalformedCreation js data) := by
  unfold MalformedCreation; infer_instance

/-- The entry has the tag of the update-job-status command and a payload that
`json.Unmarshal` rejects. -/
def MalformedStatusUpdate (js : Json) (data : Bytes) : Prop :=
  hasTag data "statusupdate:" = true ∧
    (js.unmarshalStatusUpdate (afterTag data "statusupdate:")).toOption = none

instance (js : Json) (data : Bytes) : Decidable (MalformedStatusUpdate js data) := by
  unfold MalformedStatusUpdate; infer_instance

/-- The entry passes the checks the handlers of `main.go` make before they
submit: a filament it carries has a positive total weight, all of it left
(`createFilament`); a job it carries has a positive print weight and status
Queued (`createPrintJob`); a status command it carries asks for Running, Done
or Canceled (`updatePrintJobStatus`). -/
def GatewayShaped (js : Json) (data : Bytes) : Prop :=
  (∀ fl ∈ filamentOf js data,
      0 < fl.TotalWeightInGrams.val ∧ fl.RemainingWeightInGrams = fl.TotalWeightInGrams) ∧
    (∀ pj ∈ printJobOf js data, 0 < pj.PrintWeightInGrams.val ∧ pj.Status = Queued) ∧
    (∀ cmd ∈ statusUpdateOf js data,
      cmd.NewStatus = Running ∨ cmd.NewStatus = Done ∨ cmd.NewStatus = Canceled)

instance (js : Json) (data : Bytes) : Decidable (GatewayShaped js data) := by
  unfold GatewayShaped; infer_instance

/-- Every stored job names a stored printer and a stored filament. -/
def RefIntegrity (f : FSM) : Prop :=
  ∀ id pj, f.printJobs.lookup id = some pj →
    pj.PrinterID ∈ f.printers ∧ pj.FilamentID ∈ f.filaments

/-- Every key of a table of `f` is a key of the same table of `g`. -/
def KeysKept (f g : FSM) : Prop :=
  (∀ id, id ∈ f.printers → id ∈ g.printers) ∧ (∀ id, id ∈ f.filaments → id ∈ g.filaments) ∧
    (∀ id, id ∈ f.printJobs → id ∈ g.printJobs)

/-- The print weight a job, if there is one, adds to what was deducted from the
filament `filamentID`: its own when it names the filament and is Done. -/
def doneShare (filamentID : String) : Option PrintJob → Int
  | some pj =>
    if pj.FilamentID = filamentID ∧ pj.Status = Done then pj.PrintWeightInGrams.val else 0
  | none => 0

/-- The sum of the print weights of the jobs of a job table that name the
filament `filamentID` and are Done. -/
def doneWeight (jobs : GoMap PrintJob) (filamentID : String) : Int :=
  ((rangeValues jobs).map (fun pj => doneShare filamentID (some pj))).sum

/-- The ids of the filaments the create-filament entries of a log carry. -/
def createdFilaments (js : Json) (entries : List Bytes) : List String :=
  (entries.filterMap (filamentOf js)).map (fun fl => fl.ID)

/-- The ids of the jobs the create-print-job entries of a log carry. -/
def createdJobs (js : Json) (entries : List Bytes) : List String :=
  (entries.filterMap (printJobOf js)).map (fun pj => pj.ID)

/-- The entry keeps stock countable: a filament it carries has all of its total
weight left; a job it carries has a status that is unset or Queued. -/
def ConservingEntry (js : Json) (data : Bytes) : Prop :=
  (∀ fl ∈ filamentOf js data, fl.RemainingWeightInGrams = fl.TotalWeightInGrams) ∧
    (∀ pj ∈ printJobOf js data, pj.Status = "" ∨ pj.Status = Queued)

instance (js : Json) (data : Bytes) : Decidable (ConservingEntry js data) := by
  unfold ConservingEntry; infer_instance

/-- Every filament is stored under its id and has left its total weight less
the print weights of the Done jobs that name it, as a 64-bit register holds
that difference. -/
def Conserved (f : FSM) : Prop :=
  ∀ id fl, f.filaments.lookup id = some fl →
    fl.ID = id ∧
      fl.RemainingWeightInGrams.val =
        wrapInt (fl.TotalWeightInGrams.val - doneWeight f.printJobs id)

/-! ### Concrete log entries

The entries the handlers of `main.go` submit: a tag followed by the text
`json.Marshal` writes for the record. -/

/-- The JSON text of a string that needs no escaping. -/
def quoted (s : String) : String := "\"" ++ s ++ "\""

/-- One member of a JSON object. -/
def member (key value : String) : String := quoted key ++ ":" ++ value

/-- The JSON object with the given members. -/
def object (members : List String) : String := "\x7b" ++ ",".intercalate members ++ "\x7d"

/-- The text `json.Marshal(p)` writes in `createPrinter`. -/
def printerText (p : Printer) : String :=
  object [member "id" (quoted p.ID), member "company" (quoted p.Company),
    member "model" (quoted p.Model)]

/-- The text `json.Marshal(fl)` writes in `createFilament`. -/
def filamentText (fl : Filament) : String :=
  object [member "id" (quoted fl.ID), member "type" (quoted fl.Type_),
    member "color" (quoted fl.Color),
    member "total_weight_in_grams" (toString fl.TotalWeightInGrams.val),
    member "remaining_weight_in_grams" (toString fl.RemainingWeightInGrams.val)]

/-- The text `json.Marshal(pj)` writes in `createPrintJob`; `status` has `omitempty`. -/
def printJobText (pj : PrintJob) : String :=
  object ([member "id" (quoted pj.ID), member "printer_id" (quoted pj.PrinterID),
    member "filament_id" (quoted pj.FilamentID), member "file" (quoted pj.File),
    member "print_weight_in_grams" (toString pj.PrintWeightInGrams.val)] ++
    (if pj.Status = "" then [] else [member "status" (quoted pj.Status)]))

/-- The text `json.Marshal(cmd)` writes in `updatePrintJobStatus`. -/
def statusUpdateText (cmd : StatusUpdate) : String :=
  object [member "job_id" (quoted cmd.JobID), member "new_status" (quoted cmd.NewStatus)]

/-- The log entry of `createPrinter`. -/
def printerEntry (p : Printer) : Bytes := bytesOf ("printer:" ++ printerText p)

/-- The log entry of `createFilament`. -/
def filamentEntry (fl : Filament) : Bytes := bytesOf ("filament:" ++ filamentText fl)

/-- The log entry of `createPrintJob`. -/
def printJobEntry (pj : PrintJob) : Bytes := bytesOf ("printjob:" ++ printJobText pj)

/-- The log entry of `updatePrintJobStatus`. -/
def statusUpdateEntry (jobID : String) (newStatus : PrintJobStatus) : Bytes :=
  bytesOf ("statusupdate:" ++ statusUpdateText ⟨jobID, newStatus⟩)

/-- The first record of a list whose text is the payload; a payload that is the
text of none is malformed. -/
def decodeAmong {α : Type} (text : α → String) (known : List α) (payload : Bytes) :
    Except String α :=
  match known.find? (fun a => bytesOf (text a) == payload) with
  | some a => .ok a
  | none => .error "invalid character"

/-- A behaviour of `encoding/json` fixed on finitely many records: the text of a
listed record decodes to the record, every other payload is malformed. The
snapshot is encoded by `Encode` and decoded by `Decode`. -/
def Json.ofRecords (ps : List Printer) (fs : List Filament) (us : List StatusUpdate)
    (pjs : List PrintJob) : Json where
  unmarshalPrinter := decodeAmong printerText ps
  unmarshalFilament := decodeAmong filamentText fs
  unmarshalStatusUpdate := decodeAmong statusUpdateText us
  unmarshalPrintJob := decodeAmong printJobText pjs
  encodeSnapshot := fun s => .ok (Encode s)
  decodeSnapshot := Decode

/-- Printer `P1`. -/
def P1 : Printer := ⟨"P1", "Prusa", "MK4"⟩

/-- Filament `F1` of the spec's scenario: 1000 g, all of it left. -/
def F1 : Filament := ⟨"F1", "PLA", "red", 1000, 1000⟩

/-- A filament payload with more left than the spool holds. -/
def F2 : Filament := ⟨"F2", "PETG", "blue", 1, 5⟩

/-- A filament with the greatest weight a Go `int` holds. -/
def F3 : Filament := ⟨"F3", "ABS", "black", 9223372036854775807, 9223372036854775807⟩

/-- Job `J1` of the spec's scenario: 400 g of `F1`. -/
def J1 : PrintJob := ⟨"J1", "P1", "F1", "a.gcode", 400, "Queued"⟩

/-- Job `J2` of the spec's scenario: 700 g of `F1`. -/
def J2 : PrintJob := ⟨"J2", "P1", "F1", "b.gcode", 700, "Queued"⟩

/-- A job on `F3` with print weight -1. -/
def J3 : PrintJob := ⟨"J3", "P1", "F3", "c.gcode", GoInt.ofInt (-1), "Queued"⟩

/-- A job on `F1` with print weight -5. -/
def J4 : PrintJob := ⟨"J4", "P1", "F1", "d.gcode", GoInt.ofInt (-5), "Queued"⟩

/-- The tables that hold the given records under their ids. -/
def tablesOf (ps : List Printer) (fs : List Filament) (pjs : List PrintJob) : FSM :=
  ⟨ps.foldl (fun m p => m.insert p.ID p) ∅, fs.foldl (fun m fl => m.insert fl.ID fl) ∅,
   pjs.foldl (fun m pj => m.insert pj.ID pj) ∅⟩

/-- The text `Encode` writes in `Persist` for tables that hold the given
records, listed by ascending id: one object with the members `Printers`,
`Filaments` and `PrintJobs`, and a line feed after it. -/
def snapshotText (ps : List Printer) (fs : List Filament) (pjs : List PrintJob) : String :=
  object [member "Printers" (object (ps.map fun p => member p.ID (printerText p))),
    member "Filaments" (object (fs.map fun fl => member fl.ID (filamentText fl))),
    member "PrintJobs" (object (pjs.map fun pj => member pj.ID (printJobText pj)))] ++ "\n"

/-- A stream with the members `Printers` and `Filaments` and no member
`PrintJobs`. -/
def noJobsText : String :=
  object [member "Printers" (object [member "P1" (printerText P1)]),
    member "Filaments" (object [member "F1" (filamentText F1)])]

/-- The library on the records above. -/
def demoJson : Json :=
  Json.ofRecords [P1] [F1, F2, F3]
    [⟨"J1", Running⟩, ⟨"J1", Done⟩, ⟨"J1", Canceled⟩, ⟨"J2", Running⟩, ⟨"J2", Done⟩,
     ⟨"J3", Running⟩, ⟨"J3", Done⟩, ⟨"J4", Running⟩, ⟨"J4", Done⟩]
    [J1, J2, J3, J4]

/-- The store before anything is allocated. -/
def Store.empty : Store := ⟨[], [], []⟩

/-- The store after a sequence of log entries, applied in order to the FSM `f`. -/
def Store.applyAll (js : Json) (st : Store) (f : FSMRef) : List Bytes → Store
  | [] => st
  | data :: rest => Store.applyAll js (Store.Apply js st f data).1 f rest

/-- The spec's scenario up to the point where `J1` is Done and `J2` is Running. -/
def scenario : FSM :=
  applyAll demoJson NewFSM
    [filamentEntry F1, printerEntry P1, printJobEntry J1, statusUpdateEntry "J1" Running,
     statusUpdateEntry "J1" Done, printJobEntry J2, statusUpdateEntry "J2" Running]

/-- A state in which job `J3`, of weight -1, runs on the full spool `F3`. -/
def overflowing : FSM :=
  applyAll demoJson NewFSM
    [filamentEntry F3, printerEntry P1, printJobEntry J3, statusUpdateEntry "J3" Running]

/-! ## Theorems -/

/-! ### Dispatch on the tag -/

/-- An entry that carries one tag carries no other tag, when neither tag starts
with the other. -/
theorem hasTag_exclusive {data : Bytes} {tag other : String} (h : hasTag data tag = true)
    (h₁ : (bytesOf tag).isPrefixOf (bytesOf other) = false)
    (h₂ : (bytesOf other).isPrefixOf (bytesOf tag) = false) : hasTag data other = false := by
  unfold hasTag at *
  by_contra hc
  rw [Bool.not_eq_false] at hc
  rw [List.isPrefixOf_iff_prefix] at h hc
  rcases List.prefix_or_prefix_of_prefix h hc with hp | hp
  · rw [← List.isPrefixOf_iff_prefix, h₁] at hp; exact Bool.false_ne_true hp
  · rw [← List.isPrefixOf_iff_prefix, h₂] at hp; exact Bool.false_ne_true hp

/-- `Apply` on a create-printer command. -/
theorem Apply_printer {js : Json} {data : Bytes} {p : Printer} (h : IsPrinter js data p)
    (f : FSM) : Apply js f data = ({ f with printers := f.printers.insert p.ID p }, none) := by
  simp only [Apply, h.1, h.2, if_true]

/-- `Apply` on a create-filament command. -/
theorem Apply_filament {js : Json} {data : Bytes} {fl : Filament} (h : IsFilament js data fl)
    (f : FSM) : Apply js f data = ({ f with filaments := f.filaments.insert fl.ID fl }, none) := by
  have h₁ : hasTag data "printer:" = false := hasTag_exclusive h.1 (by decide) (by decide)
  simp only [Apply, h₁, h.1, h.2, Bool.false_eq_true, if_false, if_true]

/-- `Apply` on an update-job-status command. -/
theorem Apply_statusUpdate {js : Json} {data : Bytes} {cmd : StatusUpdate}
    (h : IsStatusUpdate js data cmd) (f : FSM) : Apply js f data = applyStatusUpdate f cmd := by
  have h₁ : hasTag data "printer:" = false := hasTag_exclusive h.1 (by decide) (by decide)
  have h₂ : hasTag data "filament:" = false := hasTag_exclusive h.1 (by decide) (by decide)
  simp only [Apply, h₁, h₂, h.1, h.2, Bool.false_eq_true, if_false, if_true]

/-- `Apply` on a create-print-job command. -/
theorem Apply_printJob {js : Json} {data : Bytes} {pj : PrintJob} (h : IsPrintJob js data pj)
    (f : FSM) : Apply js f data = applyPrintJob f pj := by
  have h₁ : hasTag data "printer:" = false := hasTag_exclusive h.1 (by decide) (by decide)
  have h₂ : hasTag data "filament:" = false := hasTag_exclusive h.1 (by decide) (by decide)
  have h₃ : hasTag data "statusupdate:" = false := hasTag_exclusive h.1 (by decide) (by decide)
  simp only [Apply, h₁, h₂, h₃, h.1, h.2, Bool.false_eq_true, if_false, if_true]

/-- The four status constants are pairwise different. -/
theorem status_distinct :
    Queued ≠ Running ∧ Queued ≠ Done ∧ Queued ≠ Canceled ∧ Running ≠ Done ∧
      Running ≠ Canceled ∧ Done ≠ Canceled := by decide

/-- A difference that fits a Go `int` is not changed by the wrap. -/
theorem GoInt.sub_val (a b : GoInt) (hlo : minInt ≤ a.val - b.val) (hhi : a.val - b.val ≤ maxInt) :
    (a.sub b).val = a.val - b.val := by
  unfold minInt at hlo
  unfold maxInt at hhi
  show wrapInt (a.val - b.val) = a.val - b.val
  unfold wrapInt
  omega

/-- The transition to Done on a Running job whose filament is stored and suffices. -/
theorem applyStatusUpdate_done {f : FSM} {jobID : String} {pj : PrintJob} {fl : Filament}
    (hjob : f.printJobs.lookup jobID = some pj) (hrun : pj.Status = Running)
    (hfil : f.filaments.lookup pj.FilamentID = some fl)
    (hge : pj.PrintWeightInGrams.val ≤ fl.RemainingWeightInGrams.val) :
    applyStatusUpdate f ⟨jobID, Done⟩ =
      ({ f with
          filaments := f.filaments.insert pj.FilamentID
            { fl with RemainingWeightInGrams := fl.RemainingWeightInGrams.sub pj.PrintWeightInGrams }
          printJobs := f.printJobs.insert jobID { pj with Status := Done } }, none) := by
  have hd : Done ≠ Running := fun h => status_distinct.2.2.2.1 h.symm
  simp only [applyStatusUpdate, hjob, hd, if_false, hrun, ne_eq, not_true_eq_false, hfil,
    Option.getD_some, not_lt.mpr hge, storeStatus, if_true]

/-- C1, as amended: when job J is Running, the filament stored under
J.filament_id has at least J.print_weight left, and the difference does not
exceed the greatest Go int, the command (J, Done) returns nil, the filament
record afterwards is the one before with remaining weight lowered by
J.print_weight (a value that is not negative), and J is Done in the same
resulting state. -/
theorem done_deducts_filament (js : Json) (f : FSM) (data : Bytes) (jobID : String)
    (pj : PrintJob) (fl : Filament)
    (hcmd : IsStatusUpdate js data ⟨jobID, Done⟩)
    (hjob : f.printJobs.lookup jobID = some pj) (hrun : pj.Status = Running)
    (hfil : f.filaments.lookup pj.FilamentID = some fl)
    (hge : pj.PrintWeightInGrams.val ≤ fl.RemainingWeightInGrams.val)
    (hfit : fl.RemainingWeightInGrams.val - pj.PrintWeightInGrams.val ≤ maxInt) :
    (Apply js f data).2 = none ∧
    (∃ fl', (Apply js f data).1.filaments.lookup pj.FilamentID = some fl' ∧
      fl' = { fl with RemainingWeightInGrams := fl'.RemainingWeightInGrams } ∧
      fl'.RemainingWeightInGrams.val =
        fl.RemainingWeightInGrams.val - pj.PrintWeightInGrams.val ∧
      0 ≤ fl'.RemainingWeightInGrams.val) ∧
    (Apply js f data).1.printJobs.lookup jobID = some { pj with Status := Done } := by
  have hlo : minInt ≤ fl.RemainingWeightInGrams.val - pj.PrintWeightInGrams.val := by
    unfold minInt; omega
  rw [Apply_statusUpdate hcmd, applyStatusUpdate_done hjob hrun hfil hge]
  refine ⟨rfl, ⟨_, Finmap.lookup_insert _, rfl, ?_, ?_⟩, Finmap.lookup_insert _⟩
  · exact GoInt.sub_val _ _ hlo hfit
  · show 0 ≤ (fl.RemainingWeightInGrams.sub pj.PrintWeightInGrams).val
    rw [GoInt.sub_val _ _ hlo hfit]; omega

/-- The amended C1 at the spec's scenario: `J2` needs 700 g, `F1` in a state
where 1000 g are left. -/
theorem done_deducts_filament_witness :
    (Apply demoJson
        (applyAll demoJson NewFSM [filamentEntry F1, printerEntry P1, printJobEntry J2,
          statusUpdateEntry "J2" Running])
        (statusUpdateEntry "J2" Done)).2 = none ∧
    (∃ fl', (Apply demoJson
        (applyAll demoJson NewFSM [filamentEntry F1, printerEntry P1, printJobEntry J2,
          statusUpdateEntry "J2" Running])
        (statusUpdateEntry "J2" Done)).1.filaments.lookup "F1" = some fl' ∧
      fl' = { F1 with RemainingWeightInGrams := fl'.RemainingWeightInGrams } ∧
      fl'.RemainingWeightInGrams.val = 1000 - 700 ∧
      0 ≤ fl'.RemainingWeightInGrams.val) ∧
    (Apply demoJson
        (applyAll demoJson NewFSM [filamentEntry F1, printerEntry P1, printJobEntry J2,
          statusUpdateEntry "J2" Running])
        (statusUpdateEntry "J2" Done)).1.printJobs.lookup "J2" =
      some { J2 with Status := Done } :=
  done_deducts_filament demoJson _ (statusUpdateEntry "J2" Done) "J2"
    { J2 with Status := Running } F1 (by decide) (by decide) (by decide) (by decide)
    (by decide) (by decide)

/-- C1 as stated fails: `J3` is Running with print weight -1 on `F3`, which has
9223372036854775807 g left; the guard of the Done case passes, `Apply` returns
nil, and the subtraction wraps to -9223372036854775808, which is negative and is
not the remaining weight before minus the print weight. -/
theorem done_deducts_filament_counterexample :
    IsStatusUpdate demoJson (statusUpdateEntry "J3" Done) ⟨"J3", Done⟩ ∧
    overflowing.printJobs.lookup "J3" = some { J3 with Status := Running } ∧
    overflowing.filaments.lookup "F3" = some F3 ∧
    J3.PrintWeightInGrams.val ≤ F3.RemainingWeightInGrams.val ∧
    (Apply demoJson overflowing (statusUpdateEntry "J3" Done)).2 = none ∧
    ∃ fl', (Apply demoJson overflowing (statusUpdateEntry "J3" Done)).1.filaments.lookup "F3"
        = some fl' ∧
      fl'.RemainingWeightInGrams.val = -9223372036854775808 ∧
      fl'.RemainingWeightInGrams.val < 0 ∧
      fl'.RemainingWeightInGrams.val ≠
        F3.RemainingWeightInGrams.val - J3.PrintWeightInGrams.val := by
  refine ⟨by decide, by decide, by decide, by decide, by decide,
    { F3 with RemainingWeightInGrams := GoInt.ofInt (-9223372036854775808) },
    by decide, by decide, by decide, by decide⟩

/-- C2: when job J is Running and the filament stored under J.filament_id has
less than J.print_weight left, the command (J, Done) returns the
insufficient-filament error and the resulting state is the prior state; the
filament record and the job record, with its status Running, are the ones
before. -/
theorem done_insufficient_filament (js : Json) (f : FSM) (data : Bytes) (jobID : String)
    (pj : PrintJob) (fl : Filament)
    (hcmd : IsStatusUpdate js data ⟨jobID, Done⟩)
    (hjob : f.printJobs.lookup jobID = some pj) (hrun : pj.Status = Running)
    (hfil : f.filaments.lookup pj.FilamentID = some fl)
    (hlt : fl.RemainingWeightInGrams.val < pj.PrintWeightInGrams.val) :
    Apply js f data = (f, some (.insufficientFilament jobID)) ∧
    (Apply js f data).1.filaments.lookup pj.FilamentID = some fl ∧
    (Apply js f data).1.printJobs.lookup jobID = some pj := by
  have hd : Done ≠ Running := fun h => status_distinct.2.2.2.1 h.symm
  have h : Apply js f data = (f, some (.insufficientFilament jobID)) := by
    rw [Apply_statusUpdate hcmd]
    simp only [applyStatusUpdate, hjob, hd, if_false, hrun, ne_eq, not_true_eq_false, hfil,
      Option.getD_some, hlt, if_true]
  rw [h]
  exact ⟨rfl, hfil, hjob⟩

/-- C2 at the spec's scenario: `F1` has 600 g left, `J2` is Running and needs 700 g. -/
theorem done_insufficient_filament_witness :
    Apply demoJson scenario (statusUpdateEntry "J2" Done) =
        (scenario, some (.insufficientFilament "J2")) ∧
    (Apply demoJson scenario (statusUpdateEntry "J2" Done)).1.filaments.lookup "F1" =
        some { F1 with RemainingWeightInGrams := 600 } ∧
    (Apply demoJson scenario (statusUpdateEntry "J2" Done)).1.printJobs.lookup "J2" =
        some { J2 with Status := Running } :=
  done_insufficient_filament demoJson scenario (statusUpdateEntry "J2" Done) "J2"
    { J2 with Status := Running } { F1 with RemainingWeightInGrams := 600 }
    (by decide) (by decide) (by decide) (by decide) (by decide)

/-- C3: for an existing job with current status c and a requested status r, when
(c, r) is not an edge of the transition graph the command returns an error, an
invalid-transition or an invalid-status one, and the three tables are the ones
before. -/
theorem illegal_transition_rejected (js : Json) (f : FSM) (data : Bytes) (cmd : StatusUpdate)
    (pj : PrintJob) (hcmd : IsStatusUpdate js data cmd)
    (hjob : f.printJobs.lookup cmd.JobID = some pj)
    (hill : ¬ LegalTransition pj.Status cmd.NewStatus) :
    ∃ e, Apply js f data = (f, some e) ∧
      (e = .invalidTransition pj.Status cmd.NewStatus ∨ e = .invalidStatus cmd.NewStatus) := by
  rw [Apply_statusUpdate hcmd]
  unfold LegalTransition at hill
  simp only [not_or, not_and] at hill
  obtain ⟨h₁, h₂, h₃, h₄⟩ := hill
  simp only [applyStatusUpdate, hjob]
  by_cases hr : cmd.NewStatus = Running
  · have hq : pj.Status ≠ Queued := fun h => h₁ h hr
    simp only [hr, if_true, ne_eq, hq, not_false_eq_true]
    exact ⟨_, rfl, Or.inl rfl⟩
  · by_cases hd : cmd.NewStatus = Done
    · have hq : pj.Status ≠ Running := fun h => h₂ h hd
      simp only [hr, if_false, hd, if_true, ne_eq, hq, not_false_eq_true]
      exact ⟨_, rfl, Or.inl rfl⟩
    · by_cases hc : cmd.NewStatus = Canceled
      · have hq : ¬ (pj.Status = Queued ∨ pj.Status = Running) := by
          rintro (h | h)
          · exact h₃ h hc
          · exact h₄ h hc
        simp only [hr, if_false, hd, hc, if_true, hq, not_false_eq_true]
        exact ⟨_, rfl, Or.inl rfl⟩
      · simp only [hr, hd, hc, if_false]
        exact ⟨_, rfl, Or.inr rfl⟩

/-- C3 at the request Queued to Done: `J1` is Queued and the command asks for Done. -/
theorem illegal_transition_rejected_witness :
    ∃ e, Apply demoJson
        (applyAll demoJson NewFSM [filamentEntry F1, printerEntry P1, printJobEntry J1])
        (statusUpdateEntry "J1" Done) =
      (applyAll demoJson NewFSM [filamentEntry F1, printerEntry P1, printJobEntry J1], some e) ∧
      (e = .invalidTransition Queued Done ∨ e = .invalidStatus Done) :=
  illegal_transition_rejected demoJson
    (applyAll demoJson NewFSM [filamentEntry F1, printerEntry P1, printJobEntry J1])
    (statusUpdateEntry "J1" Done) ⟨"J1", Done⟩ J1 (by decide) (by decide) (by decide)

/-- C4: the command (J, Running) on a Queued job and the command (J, Canceled)
on a Queued or Running job return nil, store J with the requested status and
its other fields as before, and leave the filament table, the printer table and
every other job as they were. -/
theorem plain_transition_frame (js : Json) (f : FSM) (data : Bytes) (jobID : String)
    (r : PrintJobStatus) (pj : PrintJob)
    (hcmd : IsStatusUpdate js data ⟨jobID, r⟩)
    (hjob : f.printJobs.lookup jobID = some pj)
    (hedge : (r = Running ∧ pj.Status = Queued) ∨
      (r = Canceled ∧ (pj.Status = Queued ∨ pj.Status = Running))) :
    (Apply js f data).2 = none ∧
    (Apply js f data).1.printJobs.lookup jobID = some { pj with Status := r } ∧
    (Apply js f data).1.filaments = f.filaments ∧
    (Apply js f data).1.printers = f.printers ∧
    ∀ other, other ≠ jobID →
      (Apply js f data).1.printJobs.lookup other = f.printJobs.lookup other := by
  have hstep : Apply js f data =
      ({ f with printJobs := f.printJobs.insert jobID { pj with Status := r } }, none) := by
    rw [Apply_statusUpdate hcmd]
    rcases hedge with ⟨hr, hq⟩ | ⟨hr, hq⟩
    · subst hr
      simp only [applyStatusUpdate, hjob, if_true, hq, ne_eq, not_true_eq_false, if_false,
        storeStatus]
    · subst hr
      have h₁ : Canceled ≠ Running := fun h => status_distinct.2.2.2.2.1 h.symm
      have h₂ : Canceled ≠ Done := fun h => status_distinct.2.2.2.2.2 h.symm
      simp only [applyStatusUpdate, hjob, h₁, h₂, if_false, if_true, hq, not_true_eq_false,
        storeStatus]
  rw [hstep]
  exact ⟨rfl, Finmap.lookup_insert _, rfl, rfl, fun other hne => Finmap.lookup_insert_of_ne _ hne⟩

/-- C4 at the first transition of the spec's scenario: `J1` goes from Queued to Running. -/
theorem plain_transition_frame_witness :
    (Apply demoJson
        (applyAll demoJson NewFSM [filamentEntry F1, printerEntry P1, printJobEntry J1])
        (statusUpdateEntry "J1" Running)).2 = none ∧
    (Apply demoJson
        (applyAll demoJson NewFSM [filamentEntry F1, printerEntry P1, printJobEntry J1])
        (statusUpdateEntry "J1" Running)).1.printJobs.lookup "J1" =
      some { J1 with Status := Running } ∧
    (Apply demoJson
        (applyAll demoJson NewFSM [filamentEntry F1, printerEntry P1, printJobEntry J1])
        (statusUpdateEntry "J1" Running)).1.filaments =
      (applyAll demoJson NewFSM [filamentEntry F1, printerEntry P1, printJobEntry J1]).filaments ∧
    (Apply demoJson
        (applyAll demoJson NewFSM [filamentEntry F1, printerEntry P1, printJobEntry J1])
        (statusUpdateEntry "J1" Running)).1.printers =
      (applyAll demoJson NewFSM [filamentEntry F1, printerEntry P1, printJobEntry J1]).printers ∧
    ∀ other, other ≠ "J1" →
      (Apply demoJson
          (applyAll demoJson NewFSM [filamentEntry F1, printerEntry P1, printJobEntry J1])
          (statusUpdateEntry "J1" Running)).1.printJobs.lookup other =
        (applyAll demoJson NewFSM
          [filamentEntry F1, printerEntry P1, printJobEntry J1]).printJobs.lookup other :=
  plain_transition_frame demoJson
    (applyAll demoJson NewFSM [filamentEntry F1, printerEntry P1, printJobEntry J1])
    (statusUpdateEntry "J1" Running) "J1" Running J1 (by decide) (by decide)
    (Or.inl ⟨rfl, rfl⟩)

/-! ### The shape of one step -/

/-- The filament the Done case reads for a job: the stored one, or the zero value. -/
theorem filamentOf_iff {js : Json} {data : Bytes} {fl : Filament} :
    IsFilament js data fl ↔ filamentOf js data = some fl := by
  unfold IsFilament filamentOf
  by_cases h : hasTag data "filament:" = true
  · cases hu : js.unmarshalFilament (afterTag data "filament:") <;>
      simp [h, hu, Except.toOption]
  · simp [h]

/-- A create-print-job entry is one that carries a job. -/
theorem printJobOf_iff {js : Json} {data : Bytes} {pj : PrintJob} :
    IsPrintJob js data pj ↔ printJobOf js data = some pj := by
  unfold IsPrintJob printJobOf
  by_cases h : hasTag data "printjob:" = true
  · cases hu : js.unmarshalPrintJob (afterTag data "printjob:") <;>
      simp [h, hu, Except.toOption]
  · simp [h]

/-- Every call of `Apply` is of one of five shapes: the tables stay as they
are, or the entry is one of the four commands and was decoded. -/
theorem Apply_cases (js : Json) (f : FSM) (data : Bytes) :
    (Apply js f data).1 = f ∨
    (∃ p, IsPrinter js data p ∧
      Apply js f data = ({ f with printers := f.printers.insert p.ID p }, none)) ∨
    (∃ fl, IsFilament js data fl ∧
      Apply js f data = ({ f with filaments := f.filaments.insert fl.ID fl }, none)) ∨
    (∃ cmd, IsStatusUpdate js data cmd ∧ Apply js f data = applyStatusUpdate f cmd) ∨
    (∃ pj, IsPrintJob js data pj ∧ Apply js f data = applyPrintJob f pj) := by
  cases h₁ : hasTag data "printer:" with
  | true =>
    cases hu : js.unmarshalPrinter (afterTag data "printer:") with
    | error e => left; simp [Apply, h₁, hu]
    | ok p => right; left; exact ⟨p, ⟨h₁, hu⟩, Apply_printer ⟨h₁, hu⟩ f⟩
  | false =>
    cases h₂ : hasTag data "filament:" with
    | true =>
      cases hu : js.unmarshalFilament (afterTag data "filament:") with
      | error e => left; simp [Apply, h₁, h₂, hu]
      | ok fl => right; right; left; exact ⟨fl, ⟨h₂, hu⟩, Apply_filament ⟨h₂, hu⟩ f⟩
    | false =>
      cases h₃ : hasTag data "statusupdate:" with
      | true =>
        cases hu : js.unmarshalStatusUpdate (afterTag data "statusupdate:") with
        | error e => left; simp [Apply, h₁, h₂, h₃, hu]
        | ok cmd =>
          right; right; right; left
          exact ⟨cmd, ⟨h₃, hu⟩, Apply_statusUpdate ⟨h₃, hu⟩ f⟩
      | false =>
        cases h₄ : hasTag data "printjob:" with
        | true =>
          cases hu : js.unmarshalPrintJob (afterTag data "printjob:") with
          | error e => left; simp [Apply, h₁, h₂, h₃, h₄, hu]
          | ok pj =>
            right; right; right; right
            exact ⟨pj, ⟨h₄, hu⟩, Apply_printJob ⟨h₄, hu⟩ f⟩
        | false => left; simp [Apply, h₁, h₂, h₃, h₄]

/-- The three outcomes of the transition switch: an error with the tables as
they are, a status written alone (Running or Canceled), or the Done
transition, which also writes the filament. -/
theorem applyStatusUpdate_cases (f : FSM) (cmd : StatusUpdate) :
    (∃ e, applyStatusUpdate f cmd = (f, some e)) ∨
    (∃ pj, f.printJobs.lookup cmd.JobID = some pj ∧
      ((cmd.NewStatus = Running ∧ pj.Status = Queued) ∨
        (cmd.NewStatus = Canceled ∧ (pj.Status = Queued ∨ pj.Status = Running))) ∧
      applyStatusUpdate f cmd =
        ({ f with printJobs :=
            f.printJobs.insert cmd.JobID { pj with Status := cmd.NewStatus } }, none)) ∨
    (∃ pj, f.printJobs.lookup cmd.JobID = some pj ∧ cmd.NewStatus = Done ∧
      pj.Status = Running ∧
      pj.PrintWeightInGrams.val ≤
        ((f.filaments.lookup pj.FilamentID).getD zeroFilament).RemainingWeightInGrams.val ∧
      applyStatusUpdate f cmd =
        ({ f with
            filaments := f.filaments.insert pj.FilamentID
              { (f.filaments.lookup pj.FilamentID).getD zeroFilament with
                RemainingWeightInGrams :=
                  ((f.filaments.lookup pj.FilamentID).getD zeroFilament).RemainingWeightInGrams.sub
                    pj.PrintWeightInGrams }
            printJobs := f.printJobs.insert cmd.JobID { pj with Status := cmd.NewStatus } },
          none)) := by
  obtain ⟨qr, qd, qc, rd, rc, dc⟩ := status_distinct
  cases hjob : f.printJobs.lookup cmd.JobID with
  | none => left; exact ⟨.jobNotFound cmd.JobID, by simp [applyStatusUpdate, hjob]⟩
  | some pj =>
    by_cases hr : cmd.NewStatus = Running
    · by_cases hq : pj.Status = Queued
      · right; left
        refine ⟨pj, rfl, Or.inl ⟨hr, hq⟩, ?_⟩
        simp [applyStatusUpdate, hjob, hr, hq, storeStatus]
      · left
        exact ⟨.invalidTransition pj.Status Running, by simp [applyStatusUpdate, hjob, hr, hq]⟩
    · by_cases hd : cmd.NewStatus = Done
      · by_cases hq : pj.Status = Running
        · by_cases hw : ((f.filaments.lookup pj.FilamentID).getD
              zeroFilament).RemainingWeightInGrams.val < pj.PrintWeightInGrams.val
          · left
            exact ⟨.insufficientFilament cmd.JobID,
              by simp [applyStatusUpdate, hjob, hd, hq, hw, rd.symm]⟩
          · right; right
            refine ⟨pj, rfl, hd, hq, not_lt.mp hw, ?_⟩
            simp [applyStatusUpdate, hjob, hd, hq, hw, rd.symm, storeStatus]
        · left
          exact ⟨.invalidTransition pj.Status Done,
            by simp [applyStatusUpdate, hjob, hd, hq, rd.symm]⟩
      · by_cases hc : cmd.NewStatus = Canceled
        · by_cases hq : pj.Status = Queued ∨ pj.Status = Running
          · right; left
            refine ⟨pj, rfl, Or.inr ⟨hc, hq⟩, ?_⟩
            simp [applyStatusUpdate, hjob, hc, hq, rc.symm, dc.symm, storeStatus]
          · left
            exact ⟨.invalidTransition pj.Status Canceled,
              by simp [applyStatusUpdate, hjob, hc, hq, rc.symm, dc.symm]⟩
        · left
          exact ⟨.invalidStatus cmd.NewStatus, by simp [applyStatusUpdate, hjob, hr, hd, hc]⟩

/-- The two outcomes of a create-print-job command: dropped, or the job stored
under its id with its fields as decoded, the status defaulted when unset. -/
theorem applyPrintJob_cases (f : FSM) (pj : PrintJob) :
    applyPrintJob f pj = (f, none) ∨
    (pj.PrinterID ∈ f.printers ∧ pj.FilamentID ∈ f.filaments ∧
      applyPrintJob f pj =
        ({ f with printJobs := f.printJobs.insert pj.ID { pj with
            Status := (if pj.Status = "" then Queued else pj.Status) } }, none)) := by
  unfold applyPrintJob
  by_cases hp : pj.PrinterID ∈ f.printers
  · by_cases hf : pj.FilamentID ∈ f.filaments
    · right
      refine ⟨hp, hf, ?_⟩
      by_cases hs : pj.Status = ""
      · simp [hp, hf, hs]
      · simp [hp, hf, hs]
    · left; simp [hp, hf]
  · left; simp [hp]

/-! ### The stock invariant -/

/-- The filament the Done case reads keeps the stock invariant when the table does. -/
theorem getD_inStock {f : FSM} (hinv : StockInvariant f) (id : String) :
    ((f.filaments.lookup id).getD zeroFilament).InStock := by
  cases h : f.filaments.lookup id with
  | none => simp only [Option.getD_none]; decide
  | some fl => simp only [Option.getD_some]; exact hinv id fl h

/-- A filament table with one more sound entry keeps the stock invariant. -/
theorem stockInvariant_insert {f : FSM} (hinv : StockInvariant f) (key : String) (fl : Filament)
    (hfl : fl.InStock) (printers : GoMap Printer) (printJobs : GoMap PrintJob) :
    StockInvariant ⟨printers, f.filaments.insert key fl, printJobs⟩ := by
  intro id x hx
  by_cases hk : id = key
  · subst hk
    rw [show (FSM.mk printers (f.filaments.insert id fl) printJobs).filaments =
      f.filaments.insert id fl from rfl, Finmap.lookup_insert] at hx
    cases hx; exact hfl
  · rw [show (FSM.mk printers (f.filaments.insert key fl) printJobs).filaments =
      f.filaments.insert key fl from rfl, Finmap.lookup_insert_of_ne _ hk] at hx
    exact hinv id x hx

/-- A job table with one more job of a weight that is not negative has only such jobs. -/
theorem weightsNonNegative_insert {f : FSM} (hw : WeightsNonNegative f) (key : String)
    (pj : PrintJob) (hpj : 0 ≤ pj.PrintWeightInGrams.val) (printers : GoMap Printer)
    (filaments : GoMap Filament) :
    WeightsNonNegative ⟨printers, filaments, f.printJobs.insert key pj⟩ := by
  intro id x hx
  by_cases hk : id = key
  · subst hk
    rw [show (FSM.mk printers filaments (f.printJobs.insert id pj)).printJobs =
      f.printJobs.insert id pj from rfl, Finmap.lookup_insert] at hx
    cases hx; exact hpj
  · rw [show (FSM.mk printers filaments (f.printJobs.insert key pj)).printJobs =
      f.printJobs.insert key pj from rfl, Finmap.lookup_insert_of_ne _ hk] at hx
    exact hw id x hx

/-- One step on a sound entry keeps the stock invariant and the sign of the weights. -/
theorem stock_step (js : Json) (f : FSM) (data : Bytes) (hs : StockSound js data)
    (hinv : StockInvariant f) (hw : WeightsNonNegative f) :
    StockInvariant (Apply js f data).1 ∧ WeightsNonNegative (Apply js f data).1 := by
  rcases Apply_cases js f data with h | ⟨p, _, h⟩ | ⟨fl, hfl, h⟩ | ⟨cmd, _, h⟩ | ⟨pj, hpj, h⟩
  · rw [h]; exact ⟨hinv, hw⟩
  · rw [h]; exact ⟨hinv, hw⟩
  · rw [h]
    exact ⟨stockInvariant_insert hinv _ _ (hs.1 fl (filamentOf_iff.mp hfl)) _ _, hw⟩
  · rw [h]
    rcases applyStatusUpdate_cases f cmd with ⟨e, he⟩ | ⟨pj, hjob, _, he⟩ | ⟨pj, hjob, _, _, hge, he⟩
    · rw [he]; exact ⟨hinv, hw⟩
    · rw [he]
      exact ⟨hinv, weightsNonNegative_insert hw _ { pj with Status := cmd.NewStatus }
        (hw _ pj hjob) _ _⟩
    · rw [he]
      have hpos : 0 ≤ pj.PrintWeightInGrams.val := hw _ pj hjob
      have hfil := getD_inStock hinv pj.FilamentID
      have hsub := GoInt.sub_val
        ((f.filaments.lookup pj.FilamentID).getD zeroFilament).RemainingWeightInGrams
        pj.PrintWeightInGrams (by unfold minInt; omega)
        (by have := ((f.filaments.lookup pj.FilamentID).getD
              zeroFilament).RemainingWeightInGrams.property.2
            omega)
      refine ⟨?_, weightsNonNegative_insert hw _ { pj with Status := cmd.NewStatus } hpos _ _⟩
      refine stockInvariant_insert hinv _ _ ?_ _ _
      unfold Filament.InStock at hfil ⊢
      dsimp only
      rw [hsub]
      constructor <;> omega
  · rw [h]
    rcases applyPrintJob_cases f pj with he | ⟨_, _, he⟩
    · rw [he]; exact ⟨hinv, hw⟩
    · rw [he]
      exact ⟨hinv, weightsNonNegative_insert hw _ { pj with
        Status := (if pj.Status = "" then Queued else pj.Status) }
        (hs.2 pj (printJobOf_iff.mp hpj)) _ _⟩

/-- Sound entries keep the stock invariant along a whole log. -/
theorem stock_run (js : Json) (entries : List Bytes) :
    ∀ f : FSM, (∀ data ∈ entries, StockSound js data) → StockInvariant f →
      WeightsNonNegative f →
      StockInvariant (applyAll js f entries) ∧ WeightsNonNegative (applyAll js f entries) := by
  induction entries with
  | nil => intro f _ hinv hw; exact ⟨hinv, hw⟩
  | cons data rest ih =>
    intro f hs hinv hw
    have hstep := stock_step js f data (hs data (List.mem_cons_self _ _)) hinv hw
    exact ih _ (fun d hd => hs d (List.mem_cons_of_mem _ hd)) hstep.1 hstep.2

/-- C5, as amended: in every state reached from the empty FSM by Apply calls on
log entries in which every create-filament payload has between nothing and its
total weight left and every create-print-job payload has a print weight that
is not negative, every filament in the table satisfies
0 <= remaining_weight_grams <= total_weight_grams. -/
theorem stock_invariant_of_sound_entries (js : Json) (entries : List Bytes)
    (hs : ∀ data ∈ entries, StockSound js data) :
    StockInvariant (applyAll js NewFSM entries) := by
  refine (stock_run js entries NewFSM hs ?_ ?_).1
  · intro id fl h
    rw [show NewFSM.filaments = ∅ from rfl, Finmap.lookup_empty] at h
    cases h
  · intro id pj h
    rw [show NewFSM.printJobs = ∅ from rfl, Finmap.lookup_empty] at h
    cases h

/-- The amended C5 on the log of the spec's scenario. -/
theorem stock_invariant_of_sound_entries_witness :
    StockInvariant (applyAll demoJson NewFSM
      [filamentEntry F1, printerEntry P1, printJobEntry J1, statusUpdateEntry "J1" Running,
        statusUpdateEntry "J1" Done, printJobEntry J2, statusUpdateEntry "J2" Running]) :=
  stock_invariant_of_sound_entries demoJson
    [filamentEntry F1, printerEntry P1, printJobEntry J1, statusUpdateEntry "J1" Running,
      statusUpdateEntry "J1" Done, printJobEntry J2, statusUpdateEntry "J2" Running]
    (by decide)

/-- C5 as stated fails on two logs. A create-filament entry is stored as it is:
`F2` has total 1 and remaining 5. And a Done transition of a job with print
weight -5 raises what is left of `F1` from 1000 to 1005, above its total. -/
theorem stock_invariant_counterexample :
    ¬ StockInvariant (applyAll demoJson NewFSM [filamentEntry F2]) ∧
    ¬ StockInvariant (applyAll demoJson NewFSM
      [filamentEntry F1, printerEntry P1, printJobEntry J4, statusUpdateEntry "J4" Running,
        statusUpdateEntry "J4" Done]) := by
  constructor
  · intro h
    exact absurd (h "F2" F2 (by decide)) (by decide)
  · intro h
    exact absurd (h "F1" { F1 with RemainingWeightInGrams := 1005 } (by decide)) (by decide)

/-! ### Job status along the transition graph -/

/-- One step that does not create a job under `jobID` keeps the job stored
there, with the status it had or with one an edge of the graph leads to, and
with its other fields as they were. -/
theorem status_step (js : Json) (f : FSM) (data : Bytes) (jobID : String) (pj : PrintJob)
    (hjob : f.printJobs.lookup jobID = some pj)
    (hnew : ∀ created ∈ printJobOf js data, created.ID ≠ jobID) :
    ∃ s, (Apply js f data).1.printJobs.lookup jobID = some { pj with Status := s } ∧
      (s = pj.Status ∨ LegalTransition pj.Status s) := by
  rcases Apply_cases js f data with h | ⟨p, _, h⟩ | ⟨fl, _, h⟩ | ⟨cmd, _, h⟩ | ⟨pj₀, hpj₀, h⟩
  · rw [h]; exact ⟨pj.Status, hjob, Or.inl rfl⟩
  · rw [h]; exact ⟨pj.Status, hjob, Or.inl rfl⟩
  · rw [h]; exact ⟨pj.Status, hjob, Or.inl rfl⟩
  · rw [h]
    rcases applyStatusUpdate_cases f cmd with ⟨e, he⟩ | ⟨x, hx, hedge, he⟩ |
      ⟨x, hx, hd, hrun, _, he⟩
    · rw [he]; exact ⟨pj.Status, hjob, Or.inl rfl⟩
    · rw [he]
      by_cases hk : jobID = cmd.JobID
      · subst hk
        rw [hjob] at hx; cases hx
        refine ⟨cmd.NewStatus, Finmap.lookup_insert _, Or.inr ?_⟩
        unfold LegalTransition
        rcases hedge with ⟨hr, hq⟩ | ⟨hr, hq | hq⟩
        · exact Or.inl ⟨hq, hr⟩
        · exact Or.inr (Or.inr (Or.inl ⟨hq, hr⟩))
        · exact Or.inr (Or.inr (Or.inr ⟨hq, hr⟩))
      · exact ⟨pj.Status, by
          show Finmap.lookup jobID (Finmap.insert cmd.JobID _ f.printJobs) = _
          rw [Finmap.lookup_insert_of_ne _ hk]; exact hjob, Or.inl rfl⟩
    · rw [he]
      by_cases hk : jobID = cmd.JobID
      · subst hk
        rw [hjob] at hx; cases hx
        refine ⟨cmd.NewStatus, Finmap.lookup_insert _, Or.inr ?_⟩
        exact Or.inr (Or.inl ⟨hrun, hd⟩)
      · exact ⟨pj.Status, by
          show Finmap.lookup jobID (Finmap.insert cmd.JobID _ f.printJobs) = _
          rw [Finmap.lookup_insert_of_ne _ hk]; exact hjob, Or.inl rfl⟩
  · rw [h]
    have hk : jobID ≠ pj₀.ID := fun e => hnew pj₀ (printJobOf_iff.mp hpj₀) e.symm
    rcases applyPrintJob_cases f pj₀ with he | ⟨_, _, he⟩
    · rw [he]; exact ⟨pj.Status, hjob, Or.inl rfl⟩
    · rw [he]
      exact ⟨pj.Status, by
        show Finmap.lookup jobID (Finmap.insert pj₀.ID _ f.printJobs) = _
        rw [Finmap.lookup_insert_of_ne _ hk]; exact hjob, Or.inl rfl⟩

/-- Along a log that creates no job under `jobID`, the job stored there stays
Done once Done, Canceled once Canceled, and past Queued once it has left it. -/
theorem status_run (js : Json) (jobID : String) (entries : List Bytes) :
    ∀ (f : FSM) (pj : PrintJob), f.printJobs.lookup jobID = some pj →
      (∀ data ∈ entries, ∀ created ∈ printJobOf js data, created.ID ≠ jobID) →
      ∃ s, (applyAll js f entries).printJobs.lookup jobID = some { pj with Status := s } ∧
        (pj.Status = Done → s = Done) ∧ (pj.Status = Canceled → s = Canceled) ∧
        (pj.Status = Running ∨ pj.Status = Done ∨ pj.Status = Canceled →
          s = Running ∨ s = Done ∨ s = Canceled) := by
  obtain ⟨qr, qd, qc, rd, rc, dc⟩ := status_distinct
  induction entries with
  | nil => intro f pj hjob _; exact ⟨pj.Status, hjob, id, id, id⟩
  | cons data rest ih =>
    intro f pj hjob hnew
    obtain ⟨s, hs, hedge⟩ :=
      status_step js f data jobID pj hjob (hnew data (List.mem_cons_self _ _))
    obtain ⟨t, ht, h₁, h₂, h₃⟩ :=
      ih (Apply js f data).1 { pj with Status := s } hs
        (fun d hd => hnew d (List.mem_cons_of_mem _ hd))
    refine ⟨t, ht, ?_, ?_, ?_⟩
    · intro hd
      apply h₁
      rcases hedge with h | h
      · exact h.trans hd
      · unfold LegalTransition at h
        rw [hd] at h
        rcases h with ⟨h, _⟩ | ⟨h, _⟩ | ⟨h, _⟩ | ⟨h, _⟩
        · exact absurd h.symm qd
        · exact absurd h.symm rd
        · exact absurd h.symm qd
        · exact absurd h.symm rd
    · intro hc
      apply h₂
      rcases hedge with h | h
      · exact h.trans hc
      · unfold LegalTransition at h
        rw [hc] at h
        rcases h with ⟨h, _⟩ | ⟨h, _⟩ | ⟨h, _⟩ | ⟨h, _⟩
        · exact absurd h.symm qc
        · exact absurd h.symm rc
        · exact absurd h.symm qc
        · exact absurd h.symm rc
    · intro hadv
      apply h₃
      rcases hedge with h | h
      · show s = Running ∨ s = Done ∨ s = Canceled
        rw [h]; exact hadv
      · show s = Running ∨ s = Done ∨ s = Canceled
        unfold LegalTransition at h
        rcases h with ⟨_, h⟩ | ⟨_, h⟩ | ⟨_, h⟩ | ⟨_, h⟩
        · exact Or.inl h
        · exact Or.inr (Or.inl h)
        · exact Or.inr (Or.inr h)
        · exact Or.inr (Or.inr h)

/-- C6, as amended: along every sequence of Apply calls that contains no
create-print-job command for the id, a job that is stored under the id keeps
its fields other than the status, has status Done in every later state once it
is Done, has status Canceled in every later state once it is Canceled, and is
not Queued in any later state once it is Running. -/
theorem status_monotonic (js : Json) (f : FSM) (entries : List Bytes) (jobID : String)
    (pj : PrintJob) (hjob : f.printJobs.lookup jobID = some pj)
    (hnew : ∀ data ∈ entries, ∀ created ∈ printJobOf js data, created.ID ≠ jobID) :
    ∃ s, (applyAll js f entries).printJobs.lookup jobID = some { pj with Status := s } ∧
      (pj.Status = Done → s = Done) ∧ (pj.Status = Canceled → s = Canceled) ∧
      (pj.Status = Running → s ≠ Queued) := by
  obtain ⟨qr, qd, qc, rd, rc, dc⟩ := status_distinct
  obtain ⟨s, hs, h₁, h₂, h₃⟩ := status_run js jobID entries f pj hjob hnew
  refine ⟨s, hs, h₁, h₂, fun hrun hq => ?_⟩
  rcases h₃ (Or.inl hrun) with h | h | h
  · exact qr (hq.symm.trans h)
  · exact qd (hq.symm.trans h)
  · exact qc (hq.symm.trans h)

/-- The amended C6 on the spec's scenario: `J1` is Done, and after the entries
for `J2` that follow (none creates `J1`) it still is. -/
theorem status_monotonic_witness :
    ∃ s, (applyAll demoJson
        (applyAll demoJson NewFSM [filamentEntry F1, printerEntry P1, printJobEntry J1,
          statusUpdateEntry "J1" Running, statusUpdateEntry "J1" Done])
        [printJobEntry J2, statusUpdateEntry "J2" Running, statusUpdateEntry "J1" Running,
          statusUpdateEntry "J1" Canceled]).printJobs.lookup "J1" =
        some { ({ J1 with Status := Done } : PrintJob) with Status := s } ∧
      (Done = Done → s = Done) ∧ (Done = Canceled → s = Canceled) ∧
      (Done = Running → s ≠ Queued) :=
  status_monotonic demoJson
    (applyAll demoJson NewFSM [filamentEntry F1, printerEntry P1, printJobEntry J1,
      statusUpdateEntry "J1" Running, statusUpdateEntry "J1" Done])
    [printJobEntry J2, statusUpdateEntry "J2" Running, statusUpdateEntry "J1" Running,
      statusUpdateEntry "J1" Canceled]
    "J1" { J1 with Status := Done } (by decide) (by decide)

/-- C6 as stated fails: `J1` is Done, and a second create-print-job command
with the id `J1` stores the job anew, Queued. -/
theorem status_monotonic_counterexample :
    (applyAll demoJson NewFSM [filamentEntry F1, printerEntry P1, printJobEntry J1,
      statusUpdateEntry "J1" Running, statusUpdateEntry "J1" Done]).printJobs.lookup "J1" =
      some { J1 with Status := Done } ∧
    (applyAll demoJson NewFSM [filamentEntry F1, printerEntry P1, printJobEntry J1,
      statusUpdateEntry "J1" Running, statusUpdateEntry "J1" Done,
      printJobEntry J1]).printJobs.lookup "J1" = some { J1 with Status := Queued } := by
  constructor <;> decide

/-! ### The remaining weight of one filament -/

/-- An update-job-status entry is one that carries a command. -/
theorem statusUpdateOf_iff {js : Json} {data : Bytes} {cmd : StatusUpdate} :
    IsStatusUpdate js data cmd ↔ statusUpdateOf js data = some cmd := by
  unfold IsStatusUpdate statusUpdateOf
  by_cases h : hasTag data "statusupdate:" = true
  · cases hu : js.unmarshalStatusUpdate (afterTag data "statusupdate:") <;>
      simp [h, hu, Except.toOption]
  · simp [h]

/-- C7, as amended: for every FSM state, every filament id present in the
filament table and every log entry that is not a create-filament command for
that id and, when it is an update-job-status command, names a job whose print
weight is not negative: the filament stored under the id after Apply is the
one before but for its remaining weight, which is less than or equal to the
value before, and differs only when the entry is a Done transition that
returned nil, of a Running job that references the filament, in which case it
went down by the job's print weight. -/
theorem remaining_only_decreases (js : Json) (f : FSM) (data : Bytes) (id : String)
    (fl : Filament) (hfil : f.filaments.lookup id = some fl)
    (hnew : ∀ created ∈ filamentOf js data, created.ID ≠ id)
    (hw : ∀ cmd ∈ statusUpdateOf js data, ∀ pj ∈ f.printJobs.lookup cmd.JobID,
      0 ≤ pj.PrintWeightInGrams.val) :
    ∃ fl', (Apply js f data).1.filaments.lookup id = some fl' ∧
      fl' = { fl with RemainingWeightInGrams := fl'.RemainingWeightInGrams } ∧
      fl'.RemainingWeightInGrams.val ≤ fl.RemainingWeightInGrams.val ∧
      (fl'.RemainingWeightInGrams ≠ fl.RemainingWeightInGrams →
        ∃ jobID pj, IsStatusUpdate js data ⟨jobID, Done⟩ ∧
          f.printJobs.lookup jobID = some pj ∧ pj.FilamentID = id ∧ pj.Status = Running ∧
          (Apply js f data).2 = none ∧
          fl'.RemainingWeightInGrams.val =
            fl.RemainingWeightInGrams.val - pj.PrintWeightInGrams.val) := by
  have same : ∀ t : FSM × Option ApplyError, t.1.filaments = f.filaments →
      ∃ fl', t.1.filaments.lookup id = some fl' ∧
        fl' = { fl with RemainingWeightInGrams := fl'.RemainingWeightInGrams } ∧
        fl'.RemainingWeightInGrams.val ≤ fl.RemainingWeightInGrams.val ∧
        (fl'.RemainingWeightInGrams ≠ fl.RemainingWeightInGrams →
          ∃ jobID pj, IsStatusUpdate js data ⟨jobID, Done⟩ ∧
            f.printJobs.lookup jobID = some pj ∧ pj.FilamentID = id ∧ pj.Status = Running ∧
            t.2 = none ∧
            fl'.RemainingWeightInGrams.val =
              fl.RemainingWeightInGrams.val - pj.PrintWeightInGrams.val) := by
    intro t ht
    exact ⟨fl, by rw [ht]; exact hfil, rfl, le_refl _, fun hne => absurd rfl hne⟩
  rcases Apply_cases js f data with h | ⟨p, _, h⟩ | ⟨fl₀, hfl₀, h⟩ | ⟨cmd, hcmd, h⟩ | ⟨pj₀, _, h⟩
  · exact same _ (by rw [h])
  · exact same _ (by rw [h])
  · have hk : id ≠ fl₀.ID := fun e => hnew fl₀ (filamentOf_iff.mp hfl₀) e.symm
    rw [h]
    exact ⟨fl, by
      show Finmap.lookup id (Finmap.insert fl₀.ID fl₀ f.filaments) = _
      rw [Finmap.lookup_insert_of_ne _ hk]; exact hfil, rfl, le_refl _,
      fun hne => absurd rfl hne⟩
  · rcases applyStatusUpdate_cases f cmd with ⟨e, he⟩ | ⟨x, _, _, he⟩ |
      ⟨pj, hjob, hd, hrun, hge, he⟩
    · exact same _ (by rw [h, he])
    · exact same _ (by rw [h, he])
    · by_cases hk : id = pj.FilamentID
      · subst hk
        rw [hfil, Option.getD_some] at he hge
        have hpos : 0 ≤ pj.PrintWeightInGrams.val :=
          hw cmd (statusUpdateOf_iff.mp hcmd) pj hjob
        have hsub := GoInt.sub_val fl.RemainingWeightInGrams
          pj.PrintWeightInGrams (by unfold minInt; omega)
          (by have := fl.RemainingWeightInGrams.property.2; omega)
        rw [h, he]
        refine ⟨_, Finmap.lookup_insert _, rfl, ?_, fun _ => ⟨cmd.JobID, pj, ?_, hjob, rfl, hrun,
          rfl, hsub⟩⟩
        · show (fl.RemainingWeightInGrams.sub pj.PrintWeightInGrams).val ≤ _
          rw [hsub]; omega
        · have hc : cmd = ⟨cmd.JobID, Done⟩ := by
            cases cmd; simp only [StatusUpdate.mk.injEq, true_and]; exact hd
          rw [← hc]; exact hcmd
      · rw [h, he]
        exact ⟨fl, by
          show Finmap.lookup id (Finmap.insert pj.FilamentID _ f.filaments) = _
          rw [Finmap.lookup_insert_of_ne _ hk]; exact hfil, rfl, le_refl _,
          fun hne => absurd rfl hne⟩
  · rcases applyPrintJob_cases f pj₀ with he | ⟨_, _, he⟩
    · exact same _ (by rw [h, he])
    · exact same _ (by rw [h, he])

/-- The amended C7 on the Done transition of `J1` in the spec's scenario: `F1`
goes from 1000 g to 600 g. -/
theorem remaining_only_decreases_witness :
    ∃ fl', (Apply demoJson
        (applyAll demoJson NewFSM [filamentEntry F1, printerEntry P1, printJobEntry J1,
          statusUpdateEntry "J1" Running])
        (statusUpdateEntry "J1" Done)).1.filaments.lookup "F1" = some fl' ∧
      fl' = { F1 with RemainingWeightInGrams := fl'.RemainingWeightInGrams } ∧
      fl'.RemainingWeightInGrams.val ≤ F1.RemainingWeightInGrams.val ∧
      (fl'.RemainingWeightInGrams ≠ F1.RemainingWeightInGrams →
        ∃ jobID pj, IsStatusUpdate demoJson (statusUpdateEntry "J1" Done) ⟨jobID, Done⟩ ∧
          (applyAll demoJson NewFSM [filamentEntry F1, printerEntry P1, printJobEntry J1,
            statusUpdateEntry "J1" Running]).printJobs.lookup jobID = some pj ∧
          pj.FilamentID = "F1" ∧ pj.Status = Running ∧
          (Apply demoJson
            (applyAll demoJson NewFSM [filamentEntry F1, printerEntry P1, printJobEntry J1,
              statusUpdateEntry "J1" Running])
            (statusUpdateEntry "J1" Done)).2 = none ∧
          fl'.RemainingWeightInGrams.val =
            F1.RemainingWeightInGrams.val - pj.PrintWeightInGrams.val) :=
  remaining_only_decreases demoJson
    (applyAll demoJson NewFSM [filamentEntry F1, printerEntry P1, printJobEntry J1,
      statusUpdateEntry "J1" Running])
    (statusUpdateEntry "J1" Done) "F1" F1 (by decide) (by decide) (by decide)

/-- C7 as stated fails on two entries. In the spec's scenario `F1` has 600 g
left, and a second create-filament command for `F1` stores it with 1000 g left.
And the Done transition of `J4`, whose print weight is -5, raises what is left
of `F1` from 1000 g to 1005 g. -/
theorem remaining_only_decreases_counterexample :
    (scenario.filaments.lookup "F1" = some { F1 with RemainingWeightInGrams := 600 } ∧
      (Apply demoJson scenario (filamentEntry F1)).1.filaments.lookup "F1" =
        some { F1 with RemainingWeightInGrams := 1000 } ∧
      statusUpdateOf demoJson (filamentEntry F1) = none) ∧
    ((applyAll demoJson NewFSM [filamentEntry F1, printerEntry P1, printJobEntry J4,
        statusUpdateEntry "J4" Running]).filaments.lookup "F1" =
        some { F1 with RemainingWeightInGrams := 1000 } ∧
      (Apply demoJson
        (applyAll demoJson NewFSM [filamentEntry F1, printerEntry P1, printJobEntry J4,
          statusUpdateEntry "J4" Running])
        (statusUpdateEntry "J4" Done)).1.filaments.lookup "F1" =
        some { F1 with RemainingWeightInGrams := 1005 }) := by
  refine ⟨⟨?_, ?_, ?_⟩, ?_, ?_⟩ <;> decide

/-! ### Apply on maps that may be nil -/

/-- An assignment to a map that is not nil stores the entry. -/
theorem assign_some {V : Type} (entries : GoMap V) (key : String) (v : V) :
    assign (some entries) key v = some (some (entries.insert key v)) := rfl

/-- On maps that are not nil the transition switch is `applyStatusUpdate`. -/
theorem applyStatusUpdate_ofTables (f : FSM) (cmd : StatusUpdate) :
    Maps.applyStatusUpdate (Maps.ofTables f) cmd =
      some (Maps.ofTables (applyStatusUpdate f cmd).1, (applyStatusUpdate f cmd).2) := by
  unfold Maps.applyStatusUpdate applyStatusUpdate
  simp only [Maps.ofTables, entriesOf, Option.getD_some]
  cases f.printJobs.lookup cmd.JobID with
  | none => rfl
  | some pj =>
    simp only [Maps.storeStatus, storeStatus, assign]
    split_ifs <;> rfl

/-- On maps that are not nil the `printjob:` case is `applyPrintJob`. -/
theorem applyPrintJob_ofTables (f : FSM) (pj : PrintJob) :
    Maps.applyPrintJob (Maps.ofTables f) pj =
      some (Maps.ofTables (applyPrintJob f pj).1, (applyPrintJob f pj).2) := by
  unfold Maps.applyPrintJob applyPrintJob
  simp only [Maps.ofTables, entriesOf, Option.getD_some, assign]
  split_ifs <;> rfl

/-- On maps that are not nil, `Maps.Apply` returns, and it returns what `Apply`
gives: the maps stay not nil and hold the tables of `Apply`. -/
theorem Apply_ofTables (js : Json) (f : FSM) (data : Bytes) :
    Maps.Apply js (Maps.ofTables f) data =
      some (Maps.ofTables (Apply js f data).1, (Apply js f data).2) := by
  unfold Maps.Apply Apply
  split_ifs
  · cases js.unmarshalPrinter (afterTag data "printer:") <;> rfl
  · cases js.unmarshalFilament (afterTag data "filament:") <;> rfl
  · cases js.unmarshalStatusUpdate (afterTag data "statusupdate:") with
    | error e => rfl
    | ok cmd => exact applyStatusUpdate_ofTables f cmd
  · cases js.unmarshalPrintJob (afterTag data "printjob:") with
    | error e => rfl
    | ok pj => exact applyPrintJob_ofTables f pj
  · rfl

/-- Maps that are not nil hold the tables they were made of. -/
theorem tables_ofTables (f : FSM) : (Maps.ofTables f).tables = f := rfl

/-- An assignment that does not panic is one to a map that is not nil, and it
stores the entry. -/
theorem assign_eq_some {V : Type} {m m' : Option (GoMap V)} {key : String} {v : V}
    (h : assign m key v = some m') :
    ∃ entries, m = some entries ∧ m' = some (entries.insert key v) := by
  cases m with
  | none => cases h
  | some entries =>
    rw [assign_some] at h
    cases h
    exact ⟨entries, rfl, rfl⟩

/-- When the last two statements of the `statusupdate:` case do not panic, the
tables afterwards and the returned value are those of `storeStatus`. -/
theorem storeStatus_returns {s : Maps} {cmd : StatusUpdate} {pj : PrintJob}
    {r : Maps × Option ApplyError} (h : Maps.storeStatus s cmd pj = some r) :
    r.1.tables = (storeStatus s.tables cmd pj).1 ∧ r.2 = (storeStatus s.tables cmd pj).2 := by
  obtain ⟨sp, sf, sj⟩ := s
  cases sj with
  | none => simp [Maps.storeStatus, assign] at h
  | some jobs =>
    simp only [Maps.storeStatus, assign, Option.some.injEq] at h
    subst h
    exact ⟨rfl, rfl⟩

/-- When the transition switch does not panic, the tables afterwards and the
returned value are those of `applyStatusUpdate`. -/
theorem applyStatusUpdate_returns {s : Maps} {cmd : StatusUpdate}
    {r : Maps × Option ApplyError} (h : Maps.applyStatusUpdate s cmd = some r) :
    r.1.tables = (applyStatusUpdate s.tables cmd).1 ∧ r.2 = (applyStatusUpdate s.tables cmd).2 := by
  obtain ⟨qr, qd, qc, rd, rc, dc⟩ := status_distinct
  have dr : ¬ Done = Running := rd.symm
  have cr : ¬ Canceled = Running := rc.symm
  have cd : ¬ Canceled = Done := dc.symm
  unfold Maps.applyStatusUpdate at h
  unfold applyStatusUpdate
  rw [show s.tables.printJobs = entriesOf s.printJobs from rfl,
    show s.tables.filaments = entriesOf s.filaments from rfl]
  cases hl : (entriesOf s.printJobs).lookup cmd.JobID with
  | none => rw [hl] at h; cases h; exact ⟨rfl, rfl⟩
  | some pj =>
    rw [hl] at h
    by_cases hr : cmd.NewStatus = Running
    · by_cases hq : pj.Status = Queued
      · simp only [hr, if_true, hq, ne_eq, not_true_eq_false, if_false] at h ⊢
        have := storeStatus_returns h
        simpa [hr] using this
      · simp only [hr, if_true, hq, ne_eq, not_false_eq_true] at h ⊢
        cases h; exact ⟨rfl, rfl⟩
    · by_cases hd : cmd.NewStatus = Done
      · by_cases hq : pj.Status = Running
        · by_cases hw : (((entriesOf s.filaments).lookup pj.FilamentID).getD
              zeroFilament).RemainingWeightInGrams.val < pj.PrintWeightInGrams.val
          · simp only [dr, if_false, hd, if_true, hq, ne_eq, not_true_eq_false, hw] at h ⊢
            cases h; exact ⟨rfl, rfl⟩
          · simp only [dr, if_false, hd, if_true, hq, ne_eq, not_true_eq_false, hw] at h ⊢
            obtain ⟨sp, sf, sj⟩ := s
            cases sf with
            | none => simp [assign] at h
            | some fils =>
              simp only [assign] at h
              have := storeStatus_returns h
              simpa [hd, Maps.tables, entriesOf] using this
        · simp only [dr, if_false, hd, if_true, hq, ne_eq, not_false_eq_true] at h ⊢
          cases h; exact ⟨rfl, rfl⟩
      · by_cases hc : cmd.NewStatus = Canceled
        · by_cases hq : pj.Status = Queued ∨ pj.Status = Running
          · simp only [cr, cd, if_false, hc, if_true, hq, not_true_eq_false] at h ⊢
            have := storeStatus_returns h
            simpa [hc] using this
          · simp only [cr, cd, if_false, hc, if_true, hq, not_false_eq_true] at h ⊢
            cases h; exact ⟨rfl, rfl⟩
        · simp only [hr, hd, hc, if_false] at h ⊢
          cases h; exact ⟨rfl, rfl⟩

/-- When the `printjob:` case does not panic, the tables afterwards and the
returned value are those of `applyPrintJob`. -/
theorem applyPrintJob_returns {s : Maps} {pj : PrintJob} {r : Maps × Option ApplyError}
    (h : Maps.applyPrintJob s pj = some r) :
    r.1.tables = (applyPrintJob s.tables pj).1 ∧ r.2 = (applyPrintJob s.tables pj).2 := by
  unfold Maps.applyPrintJob at h
  unfold applyPrintJob
  rw [show s.tables.printers = entriesOf s.printers from rfl,
    show s.tables.filaments = entriesOf s.filaments from rfl]
  by_cases hp : pj.PrinterID ∈ entriesOf s.printers
  · by_cases hf : pj.FilamentID ∈ entriesOf s.filaments
    · simp only [hp, hf, not_true_eq_false, if_false] at h ⊢
      obtain ⟨sp, sf, sj⟩ := s
      cases sj with
      | none => simp [assign] at h
      | some jobs =>
        simp only [assign, Option.some.injEq] at h
        subst h
        exact ⟨rfl, rfl⟩
    · simp only [hp, hf, not_true_eq_false, if_false, not_false_eq_true, if_true] at h ⊢
      cases h; exact ⟨rfl, rfl⟩
  · simp only [hp, not_false_eq_true, if_true] at h ⊢
    cases h; exact ⟨rfl, rfl⟩

/-- Whenever `Maps.Apply` returns, on maps of which any may be nil, the tables
afterwards and the returned value are those of `Apply` on the tables before. -/
theorem Apply_returns (js : Json) (s : Maps) (data : Bytes) (r : Maps × Option ApplyError)
    (h : Maps.Apply js s data = some r) :
    r.1.tables = (Apply js s.tables data).1 ∧ r.2 = (Apply js s.tables data).2 := by
  unfold Maps.Apply at h
  unfold Apply
  cases h₁ : hasTag data "printer:" with
  | true =>
    simp only [h₁, if_true] at h ⊢
    cases hu : js.unmarshalPrinter (afterTag data "printer:") with
    | error e => rw [hu] at h; cases h; exact ⟨rfl, rfl⟩
    | ok p =>
      rw [hu] at h
      obtain ⟨sp, sf, sj⟩ := s
      cases sp with
      | none => simp [assign] at h
      | some printers =>
        simp only [assign, Option.some.injEq] at h
        subst h
        exact ⟨rfl, rfl⟩
  | false =>
    cases h₂ : hasTag data "filament:" with
    | true =>
      simp only [h₁, h₂, if_true, Bool.false_eq_true, if_false] at h ⊢
      cases hu : js.unmarshalFilament (afterTag data "filament:") with
      | error e => rw [hu] at h; cases h; exact ⟨rfl, rfl⟩
      | ok fl =>
        rw [hu] at h
        obtain ⟨sp, sf, sj⟩ := s
        cases sf with
        | none => simp [assign] at h
        | some filaments =>
          simp only [assign, Option.some.injEq] at h
          subst h
          exact ⟨rfl, rfl⟩
    | false =>
      cases h₃ : hasTag data "statusupdate:" with
      | true =>
        simp only [h₁, h₂, h₃, if_true, Bool.false_eq_true, if_false] at h ⊢
        cases hu : js.unmarshalStatusUpdate (afterTag data "statusupdate:") with
        | error e => rw [hu] at h; cases h; exact ⟨rfl, rfl⟩
        | ok cmd => rw [hu] at h; exact applyStatusUpdate_returns h
      | false =>
        cases h₄ : hasTag data "printjob:" with
        | true =>
          simp only [h₁, h₂, h₃, h₄, if_true, Bool.false_eq_true, if_false] at h ⊢
          cases hu : js.unmarshalPrintJob (afterTag data "printjob:") with
          | error e => rw [hu] at h; cases h; exact ⟨rfl, rfl⟩
          | ok pj => rw [hu] at h; exact applyPrintJob_returns h
        | false =>
          simp only [h₁, h₂, h₃, h₄, Bool.false_eq_true, if_false] at h ⊢
          cases h; exact ⟨rfl, rfl⟩

/-! ### The snapshot stream: what is written is read back -/

/-- The bytes of a character are read back as the character, whatever follows. -/
theorem DecodeRune_EncodeRune (c : Char) (rest : Bytes) :
    DecodeRune (EncodeRune c ++ rest) = (c.toNat, (EncodeRune c).length) := by
  have hv : c.toNat < 55296 ∨ (57343 < c.toNat ∧ c.toNat < 1114112) := c.valid
  unfold EncodeRune
  generalize c.toNat = n at hv ⊢
  by_cases h1 : n < 128
  · simp [DecodeRune, h1]
  by_cases h2 : n < 2048
  · simp only [h1, h2, if_false, if_true, List.cons_append, List.nil_append, DecodeRune]
    rw [if_neg (by omega), if_pos (by omega), if_pos (by omega)]
    simp only [List.length_cons, List.length_nil, Prod.mk.injEq]
    exact ⟨by omega, trivial⟩
  by_cases h3 : n < 65536
  · simp only [h1, h2, h3, if_false, if_true, List.cons_append, List.nil_append, DecodeRune]
    rw [if_neg (by omega), if_neg (by omega), if_pos (by omega), if_pos (by split_ifs <;> omega)]
    simp only [List.length_cons, List.length_nil, Prod.mk.injEq]
    exact ⟨by omega, trivial⟩
  · simp only [h1, h2, h3, if_false, List.cons_append, List.nil_append, DecodeRune]
    rw [if_neg (by omega), if_neg (by omega), if_neg (by omega), if_pos (by omega),
      if_pos (by split_ifs <;> omega)]
    simp only [List.length_cons, List.length_nil, Prod.mk.injEq]
    exact ⟨by omega, trivial⟩

/-- The bytes of a character are at least one byte. -/
theorem EncodeRune_ne_nil (c : Char) : EncodeRune c ≠ [] := by
  unfold EncodeRune
  split_ifs <;> simp

/-- A text has no more characters than bytes. -/
theorem length_le_length_utf8 (text : List Char) : text.length ≤ (utf8 text).length := by
  induction text with
  | nil => simp
  | cons c cs ih =>
    have h := List.length_pos.2 (EncodeRune_ne_nil c)
    simp only [utf8, List.flatMap_cons, List.length_append, List.length_cons] at ih ⊢
    omega

/-- The bytes of a text are read back as the text. -/
theorem decodeRunes_utf8 (text : List Char) :
    ∀ fuel, text.length ≤ fuel → decodeRunes fuel (utf8 text) = text := by
  induction text with
  | nil => intro fuel _; cases fuel <;> simp [utf8, decodeRunes]
  | cons c cs ih =>
    intro fuel h
    obtain ⟨fuel, rfl⟩ : ∃ k, fuel = k + 1 := ⟨fuel - 1, by simp at h; omega⟩
    have hne := EncodeRune_ne_nil c
    have hd := DecodeRune_EncodeRune c (utf8 cs)
    have hu : utf8 (c :: cs) = EncodeRune c ++ utf8 cs := by simp [utf8]
    rw [hu]
    cases hb : EncodeRune c with
    | nil => exact absurd hb hne
    | cons b bs =>
      rw [hb] at hd
      simp only [List.cons_append] at hd ⊢
      rw [decodeRunes, hd]
      simp only [Char.ofNat_toNat, List.length_cons]
      have : (b :: (bs ++ utf8 cs)).drop (bs.length + 1) = utf8 cs := by simp
      rw [this, ih fuel (by simp at h; omega)]

/-- A character is the character of its code point. -/
theorem char_eq_of_toNat {c : Char} {n : Nat} (h : c.toNat = n) : c = Char.ofNat n := by
  rw [← h, Char.ofNat_toNat]

/-- What `escapeRune` writes for a character is read back as the character. -/
theorem readRune_escapeRune (c : Char) (rest : List Char) :
    readRune (escapeRune c ++ rest) = some (c, rest) := by
  by_cases hs : c.toNat < 93 ∨ c.toNat = 8232 ∨ c.toNat = 8233
  · generalize hn : c.toNat = n at hs
    obtain rfl := char_eq_of_toNat hn
    rcases hs with hs | rfl | rfl
    · interval_cases n <;> rfl
    · rfl
    · rfl
  · have h : escapeRune c = [c] := by
      unfold escapeRune
      repeat rw [if_neg (by omega)]
    rw [h]
    simp only [List.cons_append, List.nil_append, readRune]
    rw [if_neg (by omega), if_neg (by omega)]

/-- What `escapeRune` writes starts with a character other than the quotation mark. -/
theorem escapeRune_head (c : Char) :
    ∃ d tail, escapeRune c = d :: tail ∧ d.toNat ≠ 34 := by
  by_cases hs : c.toNat < 93 ∨ c.toNat = 8232 ∨ c.toNat = 8233
  · generalize hn : c.toNat = n at hs
    obtain rfl := char_eq_of_toNat hn
    rcases hs with hs | rfl | rfl
    · interval_cases n <;> exact ⟨_, _, rfl, by decide⟩
    · exact ⟨_, _, rfl, by decide⟩
    · exact ⟨_, _, rfl, by decide⟩
  · have h : escapeRune c = [c] := by
      unfold escapeRune
      repeat rw [if_neg (by omega)]
    exact ⟨c, [], h, by omega⟩

/-- The characters `appendString` writes between the quotation marks are read
back up to the closing mark. -/
theorem unquoteBody_escape (cs : List Char) (rest : List Char) :
    ∀ fuel, cs.length < fuel →
      unquoteBody fuel (cs.flatMap escapeRune ++ Char.ofNat 34 :: rest) = some (cs, rest) := by
  induction cs with
  | nil =>
    intro fuel h
    obtain ⟨fuel, rfl⟩ : ∃ k, fuel = k + 1 := ⟨fuel - 1, by omega⟩
    rfl
  | cons c cs ih =>
    intro fuel h
    obtain ⟨fuel, rfl⟩ : ∃ k, fuel = k + 1 := ⟨fuel - 1, by omega⟩
    obtain ⟨d, tail, hd, hq⟩ := escapeRune_head c
    have hr := readRune_escapeRune c (cs.flatMap escapeRune ++ Char.ofNat 34 :: rest)
    simp only [List.flatMap_cons, List.append_assoc]
    rw [hd] at hr ⊢
    simp only [List.cons_append] at hr ⊢
    rw [unquoteBody, if_neg hq, hr]
    simp only
    rw [ih fuel (by simp at h; omega)]

/-- A text is at least as long as the string it is the JSON string of. -/
theorem length_lt_length_appendString (s : String) :
    s.toList.length + 2 ≤ (appendString s).length := by
  have h : ∀ cs : List Char, cs.length ≤ (cs.flatMap escapeRune).length := by
    intro cs
    induction cs with
    | nil => simp
    | cons c cs ih =>
      obtain ⟨d, tail, hd, _⟩ := escapeRune_head c
      simp only [List.flatMap_cons, List.length_append, List.length_cons, hd]
      omega
  have := h s.toList
  simp only [appendString, List.length_cons, List.length_append, List.length_nil]
  omega

/-- What `appendString` writes for a string is read back as the string. -/
theorem unquote_appendString (s : String) (rest : List Char) (fuel : Nat)
    (h : (appendString s).length ≤ fuel) :
    unquote fuel (appendString s ++ rest) = some (s, rest) := by
  have hl := length_lt_length_appendString s
  have hb := unquoteBody_escape s.toList rest fuel (by omega)
  simp only [appendString, List.cons_append, List.append_assoc, List.nil_append, unquote]
  rw [if_pos (by rfl), hb]
  rfl

/-- The character of a decimal digit has the code point of the digit. -/
theorem toNat_digitChar : ∀ d, d < 10 → (Nat.digitChar d).toNat = 48 + d := by decide

/-- Core `Nat.toDigitsCore` writes the decimal digits of a positive number, the
most significant first. -/
theorem toDigitsCore_eq_digits :
    ∀ fuel n ds, n < fuel → 0 < n →
      Nat.toDigitsCore 10 fuel n ds = ((Nat.digits 10 n).reverse.map Nat.digitChar) ++ ds := by
  intro fuel
  induction fuel with
  | zero => intro n ds h; omega
  | succ fuel ih =>
    intro n ds h hn
    rw [Nat.toDigitsCore, Nat.digits_def' (by decide) hn]
    by_cases h0 : n / 10 = 0
    · simp [h0]
    · simp only [h0, if_false]
      rw [ih (n / 10) _ (by omega) (by omega)]
      simp

/-- The decimal digits of a positive number. -/
theorem toDigits_eq_digits (n : Nat) (hn : 0 < n) :
    Nat.toDigits 10 n = (Nat.digits 10 n).reverse.map Nat.digitChar := by
  rw [Nat.toDigits, toDigitsCore_eq_digits (n + 1) n [] (by omega) hn, List.append_nil]

/-- A run of digits is read up to the first character that is not a digit. -/
theorem readDigits_map (ds : List Nat) (rest : List Char)
    (hrest : ∀ c ∈ rest.head?, ¬ (48 ≤ c.toNat ∧ c.toNat ≤ 57)) :
    ∀ n, (∀ d ∈ ds, d < 10) →
      readDigits (ds.map Nat.digitChar ++ rest) n =
        (ds.foldl (fun a d => a * 10 + d) n, rest) := by
  induction ds with
  | nil =>
    intro n _
    cases rest with
    | nil => rfl
    | cons c rest =>
      have := hrest c (by simp)
      simp only [List.map_nil, List.nil_append, readDigits, List.foldl_nil]
      rw [if_neg this]
  | cons d ds ih =>
    intro n h
    have hd := h d (by simp)
    have ht := toNat_digitChar d hd
    simp only [List.map_cons, List.cons_append, List.foldl_cons]
    rw [readDigits, if_pos (by omega), ih _ (fun e he => h e (by simp [he])), ht]
    congr 2
    omega

/-- The decimal digits of a number, read from the most significant, give the number. -/
theorem foldl_digits (n : Nat) :
    (Nat.digits 10 n).reverse.foldl (fun a d => a * 10 + d) 0 = n := by
  rw [List.foldl_reverse]
  have h := Nat.ofDigits_digits 10 n
  rw [Nat.ofDigits_eq_foldr] at h
  simp only [Nat.cast_id] at h
  have hf : (fun (x y : Nat) => y * 10 + x) = fun x y => x + 10 * y := by
    funext x y
    omega
  rw [hf]
  exact h

/-- What core `Nat.toDigits` writes for a number is read back as the number. -/
theorem readNat_toDigits (n : Nat) (rest : List Char)
    (hrest : ∀ c ∈ rest.head?, ¬ (48 ≤ c.toNat ∧ c.toNat ≤ 57)) :
    readNat (Nat.toDigits 10 n ++ rest) = some (n, rest) := by
  by_cases hn : n = 0
  · subst hn
    have h0 : Nat.toDigits 10 0 = [Char.ofNat 48] := rfl
    rw [h0]
    simp only [List.cons_append, List.nil_append, readNat]
    have e48 : (Char.ofNat 48).toNat = 48 := rfl
    rw [if_pos]
    · cases rest with
      | nil => simp [readDigits, e48]
      | cons c rest =>
        have := hrest c (by simp)
        simp only [readDigits, e48]
        simp [this]
    · refine ⟨by omega, by omega, ?_⟩
      rintro ⟨_, e, he, hd⟩
      exact hrest e he hd
  · have hpos : 0 < n := Nat.pos_of_ne_zero hn
    rw [toDigits_eq_digits n hpos]
    have hne : Nat.digits 10 n ≠ [] := Nat.digits_ne_nil_iff_ne_zero.2 hn
    have hlast := Nat.getLast_digit_ne_zero 10 hn
    have hlt : ∀ d ∈ (Nat.digits 10 n).reverse, d < 10 := fun d hd =>
      Nat.digits_lt_base (by decide) (List.mem_reverse.1 hd)
    have hread := readDigits_map (Nat.digits 10 n).reverse rest hrest 0 hlt
    rw [foldl_digits] at hread
    cases hrev : (Nat.digits 10 n).reverse with
    | nil => exact absurd (List.reverse_eq_nil_iff.1 hrev) hne
    | cons d ds =>
      have hd : d = (Nat.digits 10 n).getLast hne := by
        have := List.head_reverse (l := Nat.digits 10 n) (by simpa using hne)
        simp only [hrev, List.head_cons] at this
        exact this
      have hd0 : d ≠ 0 := hd ▸ hlast
      have hd10 : d < 10 := hlt d (by simp [hrev])
      have ht := toNat_digitChar d hd10
      rw [hrev] at hread
      simp only [List.map_cons, List.cons_append] at hread ⊢
      rw [readNat, if_pos, hread]
      exact ⟨by omega, by omega, fun h => by omega⟩

/-- What `AppendInt` writes for a Go `int` is read back as that `int`, when the
next character is not a digit. -/
theorem readInt_AppendInt (i : GoInt) (rest : List Char)
    (hrest : ∀ c ∈ rest.head?, ¬ (48 ≤ c.toNat ∧ c.toNat ≤ 57)) :
    readInt (AppendInt i.val ++ rest) = some (i, rest) := by
  have hnat := readNat_toDigits i.val.natAbs rest hrest
  unfold AppendInt
  by_cases hneg : i.val < 0
  · rw [if_pos hneg]
    simp only [List.cons_append, readInt]
    rw [if_pos (by rfl), hnat]
    have hv : -((i.val.natAbs : Nat) : Int) = i.val := by omega
    simp only [Option.map_some', hv]
    rw [dif_pos i.property]
  · rw [if_neg hneg]
    have hv : ((i.val.natAbs : Nat) : Int) = i.val := by omega
    cases hd : Nat.toDigits 10 i.val.natAbs ++ rest with
    | nil => rw [hd] at hnat; simp [readNat] at hnat
    | cons c more =>
      rw [hd] at hnat
      have hc : c.toNat ≠ 45 := by
        intro h45
        simp only [readNat] at hnat
        rw [if_neg (by omega)] at hnat
        exact absurd hnat (by simp)
      simp only [readInt]
      rw [if_neg hc, hnat]
      simp only [Option.map_some', hv]
      rw [dif_pos i.property]

/-- A literal text at the start of the input is taken off. -/
theorem expect_append (literal rest : List Char) :
    expect literal (literal ++ rest) = some rest := by
  simp [expect, List.isPrefixOf_iff_prefix]

/-- A literal text that starts with another character than the input is not
taken off. -/
theorem expect_of_ne (literal input : List Char) (a b : Char) (l m : List Char)
    (hl : literal = a :: l) (hi : input = b :: m) (hab : a ≠ b) (rest : List Char) :
    expect literal (input ++ rest) = none := by
  subst hl hi
  simp [expect, List.isPrefixOf, hab]

/-- A text that starts with a character that is no digit, followed by anything. -/
theorem head_not_digit (literal : List Char) (a : Char) (l : List Char) (hl : literal = a :: l)
    (ha : ¬ (48 ≤ a.toNat ∧ a.toNat ≤ 57)) (rest : List Char) :
    ∀ c ∈ (literal ++ rest).head?, ¬ (48 ≤ c.toNat ∧ c.toNat ≤ 57) := by
  subst hl
  intro c hc
  simp only [List.cons_append, List.head?_cons, Option.mem_def, Option.some.injEq] at hc
  exact hc ▸ ha

/-- The object `encodePrinter` writes is read back as the printer. -/
theorem decodePrinter_encodePrinter (p : Printer) (rest : List Char) (fuel : Nat)
    (h : (encodePrinter p).length ≤ fuel) :
    decodePrinter fuel (encodePrinter p ++ rest) = some (p, rest) := by
  simp only [encodePrinter, List.length_append] at h
  simp only [encodePrinter, decodePrinter, List.append_assoc, expect_append,
    unquote_appendString p.ID _ fuel (by omega),
    unquote_appendString p.Company _ fuel (by omega),
    unquote_appendString p.Model _ fuel (by omega)]

/-- The object `encodeFilament` writes is read back as the filament. -/
theorem decodeFilament_encodeFilament (fl : Filament) (rest : List Char) (fuel : Nat)
    (h : (encodeFilament fl).length ≤ fuel) :
    decodeFilament fuel (encodeFilament fl ++ rest) = some (fl, rest) := by
  simp only [encodeFilament, List.length_append] at h
  simp only [encodeFilament, decodeFilament, List.append_assoc, expect_append,
    unquote_appendString fl.ID _ fuel (by omega),
    unquote_appendString fl.Type_ _ fuel (by omega),
    unquote_appendString fl.Color _ fuel (by omega),
    readInt_AppendInt fl.TotalWeightInGrams _
      (head_not_digit ",\"remaining_weight_in_grams\":".toList (Char.ofNat 44) _ rfl
        (by decide) _),
    readInt_AppendInt fl.RemainingWeightInGrams _
      (head_not_digit "\x7d".toList (Char.ofNat 125) _ rfl (by decide) _)]

/-- The object `encodePrintJob` writes is read back as the print job. -/
theorem decodePrintJob_encodePrintJob (pj : PrintJob) (rest : List Char) (fuel : Nat)
    (h : (encodePrintJob pj).length ≤ fuel) :
    decodePrintJob fuel (encodePrintJob pj ++ rest) = some (pj, rest) := by
  simp only [encodePrintJob, List.length_append] at h
  by_cases hs : pj.Status = ""
  · simp only [encodePrintJob, decodePrintJob, List.append_assoc, expect_append, hs, if_true,
      List.nil_append,
      unquote_appendString pj.ID _ fuel (by omega),
      unquote_appendString pj.PrinterID _ fuel (by omega),
      unquote_appendString pj.FilamentID _ fuel (by omega),
      unquote_appendString pj.File _ fuel (by omega),
      readInt_AppendInt pj.PrintWeightInGrams _
        (head_not_digit "\x7d".toList (Char.ofNat 125) _ rfl (by decide) _)]
    rw [← hs]
  · simp only [hs, if_false, List.length_append] at h
    simp only [encodePrintJob, decodePrintJob, List.append_assoc, expect_append, hs, if_false,
      unquote_appendString pj.ID _ fuel (by omega),
      unquote_appendString pj.PrinterID _ fuel (by omega),
      unquote_appendString pj.FilamentID _ fuel (by omega),
      unquote_appendString pj.File _ fuel (by omega),
      readInt_AppendInt pj.PrintWeightInGrams _
        (head_not_digit ",\"status\":".toList (Char.ofNat 44) _ rfl (by decide) _),
      expect_of_ne "\x7d".toList ",\"status\":".toList (Char.ofNat 125) (Char.ofNat 44) _ _ rfl rfl
        (by decide),
      unquote_appendString pj.Status _ fuel (by omega)]

/-- The sorted keys of a map are its keys. -/
theorem mem_sortedKeys {V : Type} (m : GoMap V) (key : String) :
    key ∈ sortedKeys m ↔ key ∈ m := by
  induction m using Finmap.induction_on with
  | H s =>
    have h : sortedKeys (AList.toFinmap s) = List.insertionSort keyLE s.keys := rfl
    rw [h, (List.perm_insertionSort keyLE s.keys).mem_iff]
    exact AList.mem_keys

/-- Storing the sorted entries of `m` for the keys `keys`, one after the other:
what is found under a key afterwards. -/
theorem lookup_foldl_insert {V : Type} (m : GoMap V) (key : String) (keys : List String) :
    ∀ acc : GoMap V,
      ((keys.filterMap fun k => (m.lookup k).map fun v => (k, v)).foldl
        (fun acc e => acc.insert e.1 e.2) acc).lookup key =
        if key ∈ keys ∧ key ∈ m then m.lookup key else acc.lookup key := by
  induction keys with
  | nil => intro acc; simp
  | cons k keys ih =>
    intro acc
    cases hk : m.lookup k with
    | none =>
      have hkm : k ∉ m := Finmap.lookup_eq_none.1 hk
      simp only [List.filterMap_cons, hk, Option.map_none']
      rw [ih acc]
      by_cases h : key ∈ keys ∧ key ∈ m
      · rw [if_pos h, if_pos ⟨List.mem_cons_of_mem _ h.1, h.2⟩]
      · rw [if_neg h, if_neg]
        rintro ⟨h1, h2⟩
        rcases List.mem_cons.1 h1 with rfl | h1
        · exact hkm h2
        · exact h ⟨h1, h2⟩
    | some v =>
      simp only [List.filterMap_cons, hk, Option.map_some', List.foldl_cons]
      rw [ih (acc.insert k v)]
      by_cases h : key ∈ keys ∧ key ∈ m
      · rw [if_pos h, if_pos ⟨List.mem_cons_of_mem _ h.1, h.2⟩]
      · rw [if_neg h]
        by_cases hkey : key = k
        · subst hkey
          have hm : key ∈ m := Finmap.lookup_isSome.1 (by simp [hk])
          rw [if_pos ⟨List.mem_cons_self _ _, hm⟩, Finmap.lookup_insert, hk]
        · rw [Finmap.lookup_insert_of_ne _ hkey, if_neg]
          rintro ⟨h1, h2⟩
          rcases List.mem_cons.1 h1 with rfl | h1
          · exact hkey rfl
          · exact h ⟨h1, h2⟩

/-- Storing the sorted entries of a map into an empty map gives the map. -/
theorem foldl_insert_sortedEntries {V : Type} (m : GoMap V) :
    (sortedEntries m).foldl (fun acc e => acc.insert e.1 e.2) ∅ = m := by
  apply Finmap.ext_lookup
  intro key
  rw [sortedEntries, lookup_foldl_insert m key (sortedKeys m) ∅]
  by_cases h : key ∈ m
  · rw [if_pos ⟨(mem_sortedKeys m key).2 h, h⟩]
  · rw [if_neg (fun hh => h hh.2), Finmap.lookup_empty, Finmap.lookup_eq_none.2 h]

/-- The members `encodeEntries` writes start with a quotation mark. -/
theorem encodeEntries_head {V : Type} (encode : V → List Char) (e : String × V)
    (es : List (String × V)) :
    ∃ tail, encodeEntries encode (e :: es) = Char.ofNat 34 :: tail := by
  cases es with
  | nil => exact ⟨_, rfl⟩
  | cons next more => exact ⟨_, rfl⟩

/-- The members `encodeEntries` writes, closed by a brace, are read back and
stored in order. -/
theorem decodeEntries_encodeEntries {V : Type} (encode : V → List Char)
    (decode : Nat → List Char → Option (V × List Char))
    (hd : ∀ v rest fuel, (encode v).length ≤ fuel → decode fuel (encode v ++ rest) = some (v, rest))
    (rest : List Char) (es : List (String × V)) :
    ∀ (e : String × V) (m : GoMap V) (fuel : Nat),
      (encodeEntries encode (e :: es)).length < fuel →
      decodeEntries decode fuel (encodeEntries encode (e :: es) ++ Char.ofNat 125 :: rest) m =
        some ((e :: es).foldl (fun acc e => acc.insert e.1 e.2) m, rest) := by
  induction es with
  | nil =>
    intro e m fuel h
    obtain ⟨fuel, rfl⟩ : ∃ k, fuel = k + 1 := ⟨fuel - 1, by omega⟩
    simp only [encodeEntries, List.length_append, List.length_cons] at h
    simp only [encodeEntries, List.append_assoc, List.cons_append, decodeEntries,
      unquote_appendString e.1 _ fuel (by omega), hd e.2 _ fuel (by omega)]
    rw [if_pos (by rfl), if_neg (by decide), if_pos (by rfl)]
    rfl
  | cons next more ih =>
    intro e m fuel h
    obtain ⟨fuel, rfl⟩ : ∃ k, fuel = k + 1 := ⟨fuel - 1, by omega⟩
    simp only [encodeEntries, List.length_append, List.length_cons] at h
    have hrec := ih next (m.insert e.1 e.2) fuel (by omega)
    simp only [encodeEntries, List.append_assoc, List.cons_append, decodeEntries,
      unquote_appendString e.1 _ fuel (by omega), hd e.2 _ fuel (by omega)]
    rw [if_pos (by rfl), if_pos (by rfl)]
    simp only [List.append_assoc, List.cons_append] at hrec
    rw [hrec]
    rfl

/-- What `encodeMap` writes for a map is read back, into a nil field, as the
map: nil as nil, and a map that is not nil as a map with the same entries. -/
theorem decodeMap_encodeMap {V : Type} (encode : V → List Char)
    (decode : Nat → List Char → Option (V × List Char))
    (hd : ∀ v rest fuel, (encode v).length ≤ fuel → decode fuel (encode v ++ rest) = some (v, rest))
    (m : Option (GoMap V)) (rest : List Char) (fuel : Nat)
    (h : (encodeMap encode m).length ≤ fuel) :
    decodeMap decode fuel none (encodeMap encode m ++ rest) = some (m, rest) := by
  cases m with
  | none => simp only [encodeMap, decodeMap, expect_append]
  | some m =>
    have hnull : ∀ tail : List Char,
        expect "null".toList (Char.ofNat 123 :: tail) = none := fun tail => rfl
    simp only [encodeMap, List.length_cons, List.length_append, List.length_nil] at h
    simp only [encodeMap, decodeMap, List.cons_append, List.append_assoc, hnull]
    rw [if_pos (by rfl)]
    have hm := foldl_insert_sortedEntries m
    cases hes : sortedEntries m with
    | nil =>
      rw [hes] at hm
      simp only [List.foldl_nil] at hm
      simp only [encodeEntries, List.nil_append]
      rw [if_pos (by rfl), ← hm]
      rfl
    | cons e es =>
      rw [hes] at hm h
      obtain ⟨tail, ht⟩ := encodeEntries_head encode e es
      have hrec := decodeEntries_encodeEntries encode decode hd rest es e ∅ fuel (by omega)
      rw [ht] at hrec ⊢
      simp only [List.cons_append, List.nil_append] at hrec ⊢
      rw [if_neg (by decide), Option.getD_none, hrec, hm]

/-- The three members `encodeMaps` writes, closed by a brace, are read back into
the three fields. -/
theorem decodeMembers_encode (s : Maps) (tail : List Char) (fuel : Nat)
    (h : (appendString "Printers").length + (encodeMap encodePrinter s.printers).length +
        (appendString "Filaments").length + (encodeMap encodeFilament s.filaments).length +
        (appendString "PrintJobs").length + (encodeMap encodePrintJob s.printJobs).length + 3 ≤
      fuel) :
    decodeMembers fuel
      (appendString "Printers" ++ Char.ofNat 58 :: (encodeMap encodePrinter s.printers ++
        Char.ofNat 44 :: (appendString "Filaments" ++ Char.ofNat 58 ::
          (encodeMap encodeFilament s.filaments ++
            Char.ofNat 44 :: (appendString "PrintJobs" ++ Char.ofNat 58 ::
              (encodeMap encodePrintJob s.printJobs ++ Char.ofNat 125 :: tail))))))
      ⟨none, none, none⟩ = some s := by
  obtain ⟨fuel, rfl⟩ : ∃ k, fuel = k + 3 := ⟨fuel - 3, by omega⟩
  have e58 : (Char.ofNat 58).toNat = 58 := rfl
  have e44 : (Char.ofNat 44).toNat = 44 := rfl
  have e125 : (Char.ofNat 125).toNat = 125 := rfl
  have n1 : ¬ "Filaments" = "Printers" := by decide
  have n2 : ¬ "PrintJobs" = "Printers" := by decide
  have n3 : ¬ "PrintJobs" = "Filaments" := by decide
  rw [decodeMembers, unquote_appendString "Printers" _ (fuel + 2) (by omega)]
  simp only [e58, if_true,
    decodeMap_encodeMap encodePrinter decodePrinter decodePrinter_encodePrinter s.printers _
      (fuel + 2) (by omega), Option.map_some', e44]
  rw [decodeMembers, unquote_appendString "Filaments" _ (fuel + 1) (by omega)]
  simp only [e58, if_true, n1, if_false,
    decodeMap_encodeMap encodeFilament decodeFilament decodeFilament_encodeFilament s.filaments _
      (fuel + 1) (by omega), Option.map_some', e44]
  rw [decodeMembers, unquote_appendString "PrintJobs" _ fuel (by omega)]
  simp only [e58, if_true, n2, n3, if_false,
    decodeMap_encodeMap encodePrintJob decodePrintJob decodePrintJob_encodePrintJob s.printJobs _
      fuel (by omega), Option.map_some', e125]
  rfl

/-- The text `encodeMaps` writes for three maps is read back as the three maps. -/
theorem decodeMaps_encodeMaps (s : Maps) : decodeMaps (encodeMaps s) = some s := by
  have h1 : "\x7b\"Printers\":".toList =
      Char.ofNat 123 :: (appendString "Printers" ++ [Char.ofNat 58]) := rfl
  have h2 : ",\"Filaments\":".toList =
      Char.ofNat 44 :: (appendString "Filaments" ++ [Char.ofNat 58]) := rfl
  have h3 : ",\"PrintJobs\":".toList =
      Char.ofNat 44 :: (appendString "PrintJobs" ++ [Char.ofNat 58]) := rfl
  have h4 : "\x7d\n".toList = [Char.ofNat 125, Char.ofNat 10] := rfl
  have hq : ∀ (name : String) (tail : List Char),
      appendString name ++ tail = Char.ofNat 34 :: (name.toList.flatMap escapeRune ++
        [Char.ofNat 34] ++ tail) := fun _ _ => rfl
  have he : encodeMaps s =
      Char.ofNat 123 :: (appendString "Printers" ++ Char.ofNat 58 ::
        (encodeMap encodePrinter s.printers ++
          Char.ofNat 44 :: (appendString "Filaments" ++ Char.ofNat 58 ::
            (encodeMap encodeFilament s.filaments ++
              Char.ofNat 44 :: (appendString "PrintJobs" ++ Char.ofNat 58 ::
                (encodeMap encodePrintJob s.printJobs ++
                  Char.ofNat 125 :: [Char.ofNat 10])))))) := by
    simp only [encodeMaps, h1, h2, h3, h4, List.cons_append, List.append_assoc,
      List.nil_append]
  have hm := decodeMembers_encode s [Char.ofNat 10] (encodeMaps s).length (by
    rw [he]
    simp only [List.length_cons, List.length_append, List.length_nil]
    omega)
  rw [he] at hm ⊢
  rw [hq] at hm ⊢
  simp only [decodeMaps]
  rw [if_pos (by rfl), if_neg (by decide)]
  exact hm

/-- The stream `Encode` writes for three maps is decoded to the three maps. -/
theorem Decode_Encode (s : Maps) : Decode (Encode s) = .ok s := by
  unfold Decode Encode
  rw [decodeRunes_utf8 _ _ (length_le_length_utf8 _), decodeMaps_encodeMaps]

/-- The UTF-8 bytes of U+00E9, U+20AC and U+1F600. -/
theorem EncodeRune_examples :
    EncodeRune (Char.ofNat 233) = [195, 169] ∧ EncodeRune (Char.ofNat 8364) = [226, 130, 172] ∧
      EncodeRune (Char.ofNat 128512) = [240, 159, 152, 128] := by
  decide

/-- A string with a quotation mark, a backslash, `<` and a line feed, as
`appendString` writes it. -/
theorem appendString_example :
    appendString "a\"b\\c<\n" = "\"a\\\"b\\\\c\\u003c\\n\"".toList := by
  decide

set_option maxRecDepth 100000 in
/-- The stream `Encode` writes for the state of the spec's scenario, in which
`J1` is Done, `J2` is Running and 600 g of `F1` are left. -/
theorem Encode_scenario :
    Encode (Maps.ofTables scenario) =
      bytesOf (snapshotText [P1] [{ F1 with RemainingWeightInGrams := 600 }]
        [{ J1 with Status := Done }, { J2 with Status := Running }]) := by
  decide

set_option maxRecDepth 100000 in
/-- The maps `Decode` builds from streams that leave members out: none from the
empty object, and no print-job map from `noJobsText`. -/
theorem Decode_examples :
    Decode (bytesOf (object [])) = .ok ⟨none, none, none⟩ ∧
    Decode (bytesOf noJobsText) =
      .ok ⟨(tablesOf [P1] [F1] []).printers, (tablesOf [P1] [F1] []).filaments, none⟩ := by
  constructor <;> decide

/-! ### Snapshot, Persist, Restore -/

/-- Reading the references of a fresh allocation gives the allocated contents. -/
theorem Store.tables_alloc (st : Store) (t : FSM) : (st.alloc t).1.tables (st.alloc t).2 = t := by
  simp [Store.alloc, Store.tables, Store.read, Store.maps, Maps.tables, entriesOf,
    List.getD_eq_getElem?_getD]

/-- A fresh allocation of one map: the reference leads to the map. -/
theorem allocAt_map {V : Type} (objects : List (GoMap V)) (m : Option (GoMap V)) :
    (allocAt objects m).2.map (fun n => (allocAt objects m).1.getD n ∅) = m := by
  cases m with
  | none => rfl
  | some entries => simp [allocAt, List.getD_eq_getElem?_getD]

/-- Reading the references of a fresh allocation of three maps gives the maps,
nil where they are nil. -/
theorem Store.maps_allocMaps (st : Store) (s : Maps) :
    (st.allocMaps s).1.maps (st.allocMaps s).2.printers (st.allocMaps s).2.filaments
      (st.allocMaps s).2.printJobs = s := by
  unfold Store.maps Store.allocMaps
  simp only [allocAt_map]

/-- At the moment of the call, the snapshot object holds the tables of the FSM. -/
theorem Store.read_Snapshot (st : Store) (f : FSMRef) :
    st.read (Store.Snapshot f).printers (Store.Snapshot f).filaments
      (Store.Snapshot f).printJobs = st.tables f := rfl

/-- The maps behind three allocated references are not nil. -/
theorem Store.maps_allocated (st : Store) (p q r : Nat) :
    st.maps (some p) (some q) (some r) = Maps.ofTables (st.read (some p) (some q) (some r)) := rfl

/-- C8: for every state of the three maps of an FSM, hence for every state
reached from the empty FSM by Apply calls and for the empty state itself:
Persist, called for the snapshot object that Snapshot returns, writes a stream
and returns nil; Restore, fed that stream on this or any other FSM, returns
nil and leaves that FSM with three maps equal to those of the original state
(nil where they were nil), so with printer, filament and print-job tables equal
to the original ones. The stream is the one `encoding/json` writes and reads,
`Encode` and `Decode`. -/
theorem snapshot_round_trip (js : Json) (st : Store) (f : FSMRef) (st₂ : Store) (g : FSMRef) :
    Store.Persist js.withSnapshotStream st (Store.Snapshot f) =
      .ok (Encode (st.maps f.printers f.filaments f.printJobs)) ∧
    (Store.Restore js.withSnapshotStream st₂ g
      (Encode (st.maps f.printers f.filaments f.printJobs))).2.2 = none ∧
    (Store.Restore js.withSnapshotStream st₂ g
      (Encode (st.maps f.printers f.filaments f.printJobs))).1.maps
      (Store.Restore js.withSnapshotStream st₂ g
        (Encode (st.maps f.printers f.filaments f.printJobs))).2.1.printers
      (Store.Restore js.withSnapshotStream st₂ g
        (Encode (st.maps f.printers f.filaments f.printJobs))).2.1.filaments
      (Store.Restore js.withSnapshotStream st₂ g
        (Encode (st.maps f.printers f.filaments f.printJobs))).2.1.printJobs =
      st.maps f.printers f.filaments f.printJobs ∧
    (Store.Restore js.withSnapshotStream st₂ g
      (Encode (st.maps f.printers f.filaments f.printJobs))).1.tables
      (Store.Restore js.withSnapshotStream st₂ g
        (Encode (st.maps f.printers f.filaments f.printJobs))).2.1 = st.tables f := by
  have hd : js.withSnapshotStream.decodeSnapshot
      (Encode (st.maps f.printers f.filaments f.printJobs)) =
      .ok (st.maps f.printers f.filaments f.printJobs) := by
    rw [show js.withSnapshotStream.decodeSnapshot = Decode from rfl]
    exact Decode_Encode _
  refine ⟨?_, ?_, ?_, ?_⟩
  · unfold Store.Persist
    rw [show js.withSnapshotStream.encodeSnapshot = fun s => .ok (Encode s) from rfl]
    rfl
  · unfold Store.Restore
    rw [hd]
  · unfold Store.Restore
    rw [hd]
    exact Store.maps_allocMaps st₂ _
  · unfold Store.Restore
    rw [hd]
    show ((st₂.allocMaps _).1.maps _ _ _).tables = _
    rw [Store.maps_allocMaps]
    rfl

/-- Writing the contents of allocated maps and reading them gives what was written. -/
theorem Store.tables_write (st : Store) (p q r : Nat) (t : FSM)
    (hp : p < st.printers.length) (hq : q < st.filaments.length)
    (hr : r < st.printJobs.length) :
    (st.write ⟨some p, some q, some r⟩ t).tables ⟨some p, some q, some r⟩ = t := by
  simp [Store.write, setAt, Store.tables, Store.read, Store.maps, Maps.tables, entriesOf,
    List.getD_eq_getElem?_getD, hp, hq, hr]

/-- What `Persist` encodes for a snapshot of `f` after a later `Apply` on `f`,
when the three maps of `f` are allocated: the tables as that `Apply` left them,
since the snapshot holds the references of the maps `Apply` writes to. -/
theorem Store.Persist_after_Apply (js : Json) (st : Store) (p q r : Nat) (data : Bytes)
    (hp : p < st.printers.length) (hq : q < st.filaments.length)
    (hr : r < st.printJobs.length) :
    Store.Persist js (Store.Apply js st ⟨some p, some q, some r⟩ data).1
        (Store.Snapshot ⟨some p, some q, some r⟩) =
      match js.encodeSnapshot
        (Maps.ofTables (Raft3d.Apply js (st.tables ⟨some p, some q, some r⟩) data).1) with
      | .error err => .error ("failed to persist snapshot: " ++ err)
      | .ok bytes => .ok bytes := by
  have hw := Store.tables_write st p q r
    (Raft3d.Apply js (st.tables ⟨some p, some q, some r⟩) data).1 hp hq hr
  unfold Store.Persist Store.Apply
  simp only [Store.Snapshot]
  rw [Store.maps_allocated st p q r, Apply_ofTables]
  simp only [tables_ofTables]
  rw [Store.maps_allocated]
  rw [show (st.write ⟨some p, some q, some r⟩
      (Raft3d.Apply js (st.read (some p) (some q) (some r)) data).1).read (some p) (some q)
      (some r) = (Raft3d.Apply js (st.tables ⟨some p, some q, some r⟩) data).1 from hw]

set_option maxRecDepth 100000 in
/-- C9 fails on the code: Snapshot is taken of a new, empty FSM and at that
moment holds its three empty tables; then Apply stores printer `P1`; Persist,
called for the snapshot after that, writes the tables with `P1` in them, where
before the Apply it wrote the empty tables. -/
theorem snapshot_shares_maps :
    Store.empty.NewFSM.1.read (Store.Snapshot Store.empty.NewFSM.2).printers
        (Store.Snapshot Store.empty.NewFSM.2).filaments
        (Store.Snapshot Store.empty.NewFSM.2).printJobs = NewFSM ∧
    Store.Persist demoJson Store.empty.NewFSM.1 (Store.Snapshot Store.empty.NewFSM.2) =
      .ok (bytesOf (snapshotText [] [] [])) ∧
    Store.Persist demoJson
        (Store.Apply demoJson Store.empty.NewFSM.1 Store.empty.NewFSM.2 (printerEntry P1)).1
        (Store.Snapshot Store.empty.NewFSM.2) =
      .ok (bytesOf (snapshotText [P1] [] [])) ∧
    bytesOf (snapshotText [P1] [] []) ≠ bytesOf (snapshotText [] [] []) := by
  refine ⟨?_, ?_, ?_, ?_⟩ <;> decide

/-- C10: when the stream decodes as a snapshot, Restore returns nil and the
three maps of the FSM afterwards are the decoded ones, so its three tables are
the decoded tables, whatever the tables were before; when the stream does not
decode, Restore returns an error, and the store and the references of the FSM,
hence its three tables, are the ones before. -/
theorem restore_wholesale (js : Json) (st : Store) (f : FSMRef) (stream : Bytes) :
    (∀ snapshot, js.decodeSnapshot stream = .ok snapshot →
      (Store.Restore js st f stream).2.2 = none ∧
      (Store.Restore js st f stream).1.maps (Store.Restore js st f stream).2.1.printers
        (Store.Restore js st f stream).2.1.filaments
        (Store.Restore js st f stream).2.1.printJobs = snapshot ∧
      (Store.Restore js st f stream).1.tables (Store.Restore js st f stream).2.1 =
        snapshot.tables) ∧
    (∀ err, js.decodeSnapshot stream = .error err →
      Store.Restore js st f stream = (st, f, some ("failed to decode snapshot: " ++ err)) ∧
      (Store.Restore js st f stream).1.tables (Store.Restore js st f stream).2.1 =
        st.tables f) := by
  constructor
  · intro snapshot h
    unfold Store.Restore
    rw [h]
    refine ⟨rfl, Store.maps_allocMaps st snapshot, ?_⟩
    show ((st.allocMaps snapshot).1.maps _ _ _).tables = _
    rw [Store.maps_allocMaps]
  · intro err h
    unfold Store.Restore
    rw [h]
    exact ⟨rfl, rfl⟩

set_option maxRecDepth 100000 in
/-- C10 on an FSM that holds `P1`, `F1` and `J1`: the stream of the empty state
leaves it with three empty tables, and a stream that is not a snapshot leaves
its tables as they are. -/
theorem restore_wholesale_witness :
    ((Store.Restore demoJson
        (Store.applyAll demoJson Store.empty.NewFSM.1 Store.empty.NewFSM.2
          [filamentEntry F1, printerEntry P1, printJobEntry J1])
        Store.empty.NewFSM.2 (bytesOf (snapshotText [] [] []))).2.2 = none ∧
      (Store.Restore demoJson
        (Store.applyAll demoJson Store.empty.NewFSM.1 Store.empty.NewFSM.2
          [filamentEntry F1, printerEntry P1, printJobEntry J1])
        Store.empty.NewFSM.2 (bytesOf (snapshotText [] [] []))).1.tables
        (Store.Restore demoJson
          (Store.applyAll demoJson Store.empty.NewFSM.1 Store.empty.NewFSM.2
            [filamentEntry F1, printerEntry P1, printJobEntry J1])
          Store.empty.NewFSM.2 (bytesOf (snapshotText [] [] []))).2.1 = tablesOf [] [] []) ∧
    (Store.Restore demoJson
        (Store.applyAll demoJson Store.empty.NewFSM.1 Store.empty.NewFSM.2
          [filamentEntry F1, printerEntry P1, printJobEntry J1])
        Store.empty.NewFSM.2 (bytesOf "not a snapshot") =
      (Store.applyAll demoJson Store.empty.NewFSM.1 Store.empty.NewFSM.2
          [filamentEntry F1, printerEntry P1, printJobEntry J1],
        Store.empty.NewFSM.2, some ("failed to decode snapshot: " ++ "invalid character")) ∧
      (Store.Restore demoJson
        (Store.applyAll demoJson Store.empty.NewFSM.1 Store.empty.NewFSM.2
          [filamentEntry F1, printerEntry P1, printJobEntry J1])
        Store.empty.NewFSM.2 (bytesOf "not a snapshot")).1.tables
        (Store.Restore demoJson
          (Store.applyAll demoJson Store.empty.NewFSM.1 Store.empty.NewFSM.2
            [filamentEntry F1, printerEntry P1, printJobEntry J1])
          Store.empty.NewFSM.2 (bytesOf "not a snapshot")).2.1 =
        (Store.applyAll demoJson Store.empty.NewFSM.1 Store.empty.NewFSM.2
          [filamentEntry F1, printerEntry P1, printJobEntry J1]).tables Store.empty.NewFSM.2) :=
  ⟨⟨((restore_wholesale demoJson
      (Store.applyAll demoJson Store.empty.NewFSM.1 Store.empty.NewFSM.2
        [filamentEntry F1, printerEntry P1, printJobEntry J1])
      Store.empty.NewFSM.2 (bytesOf (snapshotText [] [] []))).1
        (Maps.ofTables (tablesOf [] [] [])) (by decide)).1,
    ((restore_wholesale demoJson
      (Store.applyAll demoJson Store.empty.NewFSM.1 Store.empty.NewFSM.2
        [filamentEntry F1, printerEntry P1, printJobEntry J1])
      Store.empty.NewFSM.2 (bytesOf (snapshotText [] [] []))).1
        (Maps.ofTables (tablesOf [] [] [])) (by decide)).2.2⟩,
   (restore_wholesale demoJson
      (Store.applyAll demoJson Store.empty.NewFSM.1 Store.empty.NewFSM.2
        [filamentEntry F1, printerEntry P1, printJobEntry J1])
      Store.empty.NewFSM.2 (bytesOf "not a snapshot")).2 "invalid character" (by decide)⟩

/-! ### Creation commands -/

/-- A result of `json.Unmarshal` with no value is an error. -/
theorem toOption_eq_none {α : Type} {r : Except String α} (h : r.toOption = none) :
    ∃ err, r = .error err := by
  cases r with
  | error e => exact ⟨e, rfl⟩
  | ok a => simp [Except.toOption] at h

/-- `Maps.Apply` on a create-printer command: one assignment to the printer map. -/
theorem mapsApply_printer {js : Json} {data : Bytes} {p : Printer} (h : IsPrinter js data p)
    (s : Maps) :
    Maps.Apply js s data =
      match assign s.printers p.ID p with
      | none => none
      | some printers => some ({ s with printers := printers }, none) := by
  simp only [Maps.Apply, h.1, h.2, if_true]

/-- `Maps.Apply` on a create-filament command: one assignment to the filament map. -/
theorem mapsApply_filament {js : Json} {data : Bytes} {fl : Filament}
    (h : IsFilament js data fl) (s : Maps) :
    Maps.Apply js s data =
      match assign s.filaments fl.ID fl with
      | none => none
      | some filaments => some ({ s with filaments := filaments }, none) := by
  have h₁ : hasTag data "printer:" = false := hasTag_exclusive h.1 (by decide) (by decide)
  simp only [Maps.Apply, h₁, h.1, h.2, Bool.false_eq_true, if_false, if_true]

/-- `Maps.Apply` on a create-print-job command. -/
theorem mapsApply_printJob {js : Json} {data : Bytes} {pj : PrintJob} (h : IsPrintJob js data pj)
    (s : Maps) : Maps.Apply js s data = Maps.applyPrintJob s pj := by
  have h₁ : hasTag data "printer:" = false := hasTag_exclusive h.1 (by decide) (by decide)
  have h₂ : hasTag data "filament:" = false := hasTag_exclusive h.1 (by decide) (by decide)
  have h₃ : hasTag data "statusupdate:" = false := hasTag_exclusive h.1 (by decide) (by decide)
  simp only [Maps.Apply, h₁, h₂, h₃, h.1, h.2, Bool.false_eq_true, if_false, if_true]

/-- `Maps.Apply` on a creation entry whose payload does not decode: nothing is
assigned, whatever the maps are. -/
theorem mapsApply_malformed {js : Json} {data : Bytes} (h : MalformedCreation js data)
    (s : Maps) : Maps.Apply js s data = some (s, none) := by
  rcases h with ⟨h₁, hu⟩ | ⟨h₂, hu⟩ | ⟨h₄, hu⟩
  · obtain ⟨e, he⟩ := toOption_eq_none hu
    simp [Maps.Apply, h₁, he]
  · obtain ⟨e, he⟩ := toOption_eq_none hu
    have h₁ : hasTag data "printer:" = false := hasTag_exclusive h₂ (by decide) (by decide)
    simp [Maps.Apply, h₁, h₂, he]
  · obtain ⟨e, he⟩ := toOption_eq_none hu
    have h₁ : hasTag data "printer:" = false := hasTag_exclusive h₄ (by decide) (by decide)
    have h₂ : hasTag data "filament:" = false := hasTag_exclusive h₄ (by decide) (by decide)
    have h₃ : hasTag data "statusupdate:" = false :=
      hasTag_exclusive h₄ (by decide) (by decide)
    simp [Maps.Apply, h₁, h₂, h₃, h₄, he]

/-- C11, as amended: for every FSM state and every create-printer entry whose
payload decodes, when the printer map is not nil, and for every
create-filament entry whose payload decodes, when the filament map is not nil:
Apply returns nil, applying the entry a second time gives the maps and the
value of applying it once, and the record is stored under the payload's id and
equals the payload, whether or not the id was a key before. For a creation
entry whose payload does not decode, Apply returns nil and changes nothing, in
every state. -/
theorem creation_idempotent (js : Json) (s : Maps) (data : Bytes) :
    (∀ p printers, IsPrinter js data p → s.printers = some printers →
      Maps.Apply js s data =
        some ({ s with printers := some (printers.insert p.ID p) }, none) ∧
      Maps.Apply js { s with printers := some (printers.insert p.ID p) } data =
        some ({ s with printers := some (printers.insert p.ID p) }, none) ∧
      (printers.insert p.ID p).lookup p.ID = some p) ∧
    (∀ fl filaments, IsFilament js data fl → s.filaments = some filaments →
      Maps.Apply js s data =
        some ({ s with filaments := some (filaments.insert fl.ID fl) }, none) ∧
      Maps.Apply js { s with filaments := some (filaments.insert fl.ID fl) } data =
        some ({ s with filaments := some (filaments.insert fl.ID fl) }, none) ∧
      (filaments.insert fl.ID fl).lookup fl.ID = some fl) ∧
    (MalformedCreation js data → Maps.Apply js s data = some (s, none)) := by
  refine ⟨?_, ?_, fun h => mapsApply_malformed h s⟩
  · intro p printers hp hs
    refine ⟨?_, ?_, Finmap.lookup_insert _⟩
    · rw [mapsApply_printer hp, hs, assign_some]
    · rw [mapsApply_printer hp]
      show (match assign (some (Finmap.insert p.ID p printers)) p.ID p with
        | none => none
        | some m => some (Maps.mk m s.filaments s.printJobs, none)) = _
      rw [assign_some, Finmap.insert_insert]
  · intro fl filaments hfl hs
    refine ⟨?_, ?_, Finmap.lookup_insert _⟩
    · rw [mapsApply_filament hfl, hs, assign_some]
    · rw [mapsApply_filament hfl]
      show (match assign (some (Finmap.insert fl.ID fl filaments)) fl.ID fl with
        | none => none
        | some m => some (Maps.mk s.printers m s.printJobs, none)) = _
      rw [assign_some, Finmap.insert_insert]

/-- The amended C11 on two states: in the spec's scenario `F1`, of which 600 g
are left, is created again; and `P1` is created in a state whose printer map
is empty and whose other two maps are nil. -/
theorem creation_idempotent_witness :
    (Maps.Apply demoJson (Maps.ofTables scenario) (filamentEntry F1) =
        some ({ Maps.ofTables scenario with
          filaments := some (scenario.filaments.insert F1.ID F1) }, none) ∧
      Maps.Apply demoJson { Maps.ofTables scenario with
          filaments := some (scenario.filaments.insert F1.ID F1) } (filamentEntry F1) =
        some ({ Maps.ofTables scenario with
          filaments := some (scenario.filaments.insert F1.ID F1) }, none) ∧
      (scenario.filaments.insert F1.ID F1).lookup F1.ID = some F1) ∧
    (Maps.Apply demoJson ⟨some ∅, none, none⟩ (printerEntry P1) =
        some ({ (⟨some ∅, none, none⟩ : Maps) with
          printers := some ((∅ : GoMap Printer).insert P1.ID P1) }, none) ∧
      Maps.Apply demoJson { (⟨some ∅, none, none⟩ : Maps) with
          printers := some ((∅ : GoMap Printer).insert P1.ID P1) } (printerEntry P1) =
        some ({ (⟨some ∅, none, none⟩ : Maps) with
          printers := some ((∅ : GoMap Printer).insert P1.ID P1) }, none) ∧
      ((∅ : GoMap Printer).insert P1.ID P1).lookup P1.ID = some P1) :=
  ⟨(creation_idempotent demoJson (Maps.ofTables scenario) (filamentEntry F1)).2.1 F1
      scenario.filaments (by decide) rfl,
   (creation_idempotent demoJson ⟨some ∅, none, none⟩ (printerEntry P1)).1 P1 ∅
      (by decide) rfl⟩

set_option maxRecDepth 100000 in
/-- C11 as stated fails: Restore of a stream that is the empty JSON object
returns nil and leaves the FSM with three nil maps; in that state the
create-printer entry of `P1`, whose payload decodes, makes Apply panic on the
assignment to the nil printer map, so nothing is stored and nothing returned. -/
theorem creation_idempotent_counterexample :
    (Store.Restore demoJson Store.empty.NewFSM.1 Store.empty.NewFSM.2
      (bytesOf (object []))).2.2 = none ∧
    (Store.Restore demoJson Store.empty.NewFSM.1 Store.empty.NewFSM.2
      (bytesOf (object []))).1.maps
      (Store.Restore demoJson Store.empty.NewFSM.1 Store.empty.NewFSM.2
        (bytesOf (object []))).2.1.printers
      (Store.Restore demoJson Store.empty.NewFSM.1 Store.empty.NewFSM.2
        (bytesOf (object []))).2.1.filaments
      (Store.Restore demoJson Store.empty.NewFSM.1 Store.empty.NewFSM.2
        (bytesOf (object []))).2.1.printJobs = ⟨none, none, none⟩ ∧
    IsPrinter demoJson (printerEntry P1) P1 ∧
    Maps.Apply demoJson ⟨none, none, none⟩ (printerEntry P1) = none ∧
    (Store.Apply demoJson
      (Store.Restore demoJson Store.empty.NewFSM.1 Store.empty.NewFSM.2
        (bytesOf (object []))).1
      (Store.Restore demoJson Store.empty.NewFSM.1 Store.empty.NewFSM.2
        (bytesOf (object []))).2.1
      (printerEntry P1)).2 = none := by
  refine ⟨?_, ?_, ?_, ?_, ?_⟩ <;> decide

/-- C13, as amended: for a create-print-job entry whose payload decodes to
`pj`: when `pj.printer_id` is not a key of the printer table or
`pj.filament_id` is not a key of the filament table, the maps are as before and
Apply returns nil, in every state; otherwise, when the print-job map is not
nil, Apply returns nil, the job table maps `pj.id` to `pj`, with status Queued
when the status was unset and with the supplied status otherwise, and the
printer map, the filament map and every other job are as before. -/
theorem printJob_validation (js : Json) (s : Maps) (data : Bytes) (pj : PrintJob)
    (hpj : IsPrintJob js data pj) :
    (pj.PrinterID ∉ entriesOf s.printers ∨ pj.FilamentID ∉ entriesOf s.filaments →
      Maps.Apply js s data = some (s, none)) ∧
    (∀ jobs, pj.PrinterID ∈ entriesOf s.printers → pj.FilamentID ∈ entriesOf s.filaments →
      s.printJobs = some jobs →
      Maps.Apply js s data =
        some ({ s with printJobs := some (jobs.insert pj.ID { pj with
          Status := (if pj.Status = "" then Queued else pj.Status) }) }, none) ∧
      (jobs.insert pj.ID { pj with
          Status := (if pj.Status = "" then Queued else pj.Status) }).lookup pj.ID =
        some { pj with Status := (if pj.Status = "" then Queued else pj.Status) } ∧
      ∀ other, other ≠ pj.ID →
        (jobs.insert pj.ID { pj with
          Status := (if pj.Status = "" then Queued else pj.Status) }).lookup other =
          jobs.lookup other) := by
  rw [mapsApply_printJob hpj]
  constructor
  · rintro (h | h)
    · simp [Maps.applyPrintJob, h]
    · by_cases hp : pj.PrinterID ∈ entriesOf s.printers
      · simp [Maps.applyPrintJob, hp, h]
      · simp [Maps.applyPrintJob, hp]
  · intro jobs hp hf hs
    refine ⟨?_, Finmap.lookup_insert _, fun other hne => Finmap.lookup_insert_of_ne _ hne⟩
    by_cases hst : pj.Status = "" <;> simp [Maps.applyPrintJob, hp, hf, hs, hst, assign]

/-- The amended C13 on two states: in the empty FSM the job `J1` is dropped,
and after `F1` and `P1` are created it is stored under `J1`, Queued. -/
theorem printJob_validation_witness :
    Maps.Apply demoJson (Maps.ofTables NewFSM) (printJobEntry J1) =
      some (Maps.ofTables NewFSM, none) ∧
    (Maps.Apply demoJson
        (Maps.ofTables (applyAll demoJson NewFSM [filamentEntry F1, printerEntry P1]))
        (printJobEntry J1) =
      some ({ Maps.ofTables (applyAll demoJson NewFSM [filamentEntry F1, printerEntry P1]) with
        printJobs := some ((∅ : GoMap PrintJob).insert J1.ID { J1 with
          Status := (if J1.Status = "" then Queued else J1.Status) }) }, none) ∧
      ((∅ : GoMap PrintJob).insert J1.ID { J1 with
          Status := (if J1.Status = "" then Queued else J1.Status) }).lookup J1.ID =
        some { J1 with Status := (if J1.Status = "" then Queued else J1.Status) } ∧
      ∀ other, other ≠ J1.ID →
        ((∅ : GoMap PrintJob).insert J1.ID { J1 with
          Status := (if J1.Status = "" then Queued else J1.Status) }).lookup other =
          (∅ : GoMap PrintJob).lookup other) :=
  ⟨(printJob_validation demoJson (Maps.ofTables NewFSM) (printJobEntry J1) J1 (by decide)).1
      (Or.inl (by decide)),
   (printJob_validation demoJson
      (Maps.ofTables (applyAll demoJson NewFSM [filamentEntry F1, printerEntry P1]))
      (printJobEntry J1) J1 (by decide)).2 ∅ (by decide) (by decide) rfl⟩

set_option maxRecDepth 100000 in
/-- C13 as stated fails: Restore of a stream with the members `Printers` (with
`P1`) and `Filaments` (with `F1`) and no member `PrintJobs` returns nil and
leaves the FSM with a nil print-job map; in that state the create-print-job
entry of `J1` passes both existence checks and Apply panics on the assignment
to the nil map, so no job is stored and nothing returned. -/
theorem printJob_validation_counterexample :
    (Store.Restore demoJson Store.empty.NewFSM.1 Store.empty.NewFSM.2
      (bytesOf noJobsText)).2.2 = none ∧
    (Store.Restore demoJson Store.empty.NewFSM.1 Store.empty.NewFSM.2
      (bytesOf noJobsText)).1.maps
      (Store.Restore demoJson Store.empty.NewFSM.1 Store.empty.NewFSM.2
        (bytesOf noJobsText)).2.1.printers
      (Store.Restore demoJson Store.empty.NewFSM.1 Store.empty.NewFSM.2
        (bytesOf noJobsText)).2.1.filaments
      (Store.Restore demoJson Store.empty.NewFSM.1 Store.empty.NewFSM.2
        (bytesOf noJobsText)).2.1.printJobs =
      ⟨(tablesOf [P1] [F1] []).printers, (tablesOf [P1] [F1] []).filaments, none⟩ ∧
    IsPrintJob demoJson (printJobEntry J1) J1 ∧
    J1.PrinterID ∈ (tablesOf [P1] [F1] []).printers ∧
    J1.FilamentID ∈ (tablesOf [P1] [F1] []).filaments ∧
    Maps.Apply demoJson
      ⟨(tablesOf [P1] [F1] []).printers, (tablesOf [P1] [F1] []).filaments, none⟩
      (printJobEntry J1) = none ∧
    (Store.Apply demoJson
      (Store.Restore demoJson Store.empty.NewFSM.1 Store.empty.NewFSM.2
        (bytesOf noJobsText)).1
      (Store.Restore demoJson Store.empty.NewFSM.1 Store.empty.NewFSM.2
        (bytesOf noJobsText)).2.1
      (printJobEntry J1)).2 = none := by
  refine ⟨?_, ?_, ?_, ?_, ?_, ?_, ?_⟩ <;> decide

/-! ### Status updates: retries and unknown jobs -/

/-- C12: when an update-job-status command returns nil, applying the same
command to the resulting state returns an invalid-transition error and leaves
that state as it is; so a second Done command deducts nothing. -/
theorem retried_status_update_fails (js : Json) (f : FSM) (data : Bytes) (cmd : StatusUpdate)
    (hcmd : IsStatusUpdate js data cmd) (hok : (Apply js f data).2 = none) :
    Apply js (Apply js f data).1 data =
      ((Apply js f data).1, some (.invalidTransition cmd.NewStatus cmd.NewStatus)) := by
  obtain ⟨qr, qd, qc, rd, rc, dc⟩ := status_distinct
  rw [Apply_statusUpdate hcmd] at hok ⊢
  rw [Apply_statusUpdate hcmd]
  rcases applyStatusUpdate_cases f cmd with ⟨e, he⟩ | ⟨pj, _, hedge, he⟩ |
    ⟨pj, _, hd, _, _, he⟩
  · rw [he] at hok; cases hok
  · rw [he]
    rcases hedge with ⟨hr, _⟩ | ⟨hr, _⟩
    · simp [applyStatusUpdate, Finmap.lookup_insert, hr, qr.symm]
    · simp [applyStatusUpdate, Finmap.lookup_insert, hr, rc.symm, dc.symm, qc.symm]
  · rw [he]
    simp [applyStatusUpdate, Finmap.lookup_insert, hd, rd.symm]

/-- C12 on the spec's scenario: `J1` goes to Done, 400 g are deducted from `F1`,
and the same command a second time is refused. -/
theorem retried_status_update_fails_witness :
    Apply demoJson
        (Apply demoJson
          (applyAll demoJson NewFSM [filamentEntry F1, printerEntry P1, printJobEntry J1,
            statusUpdateEntry "J1" Running])
          (statusUpdateEntry "J1" Done)).1
        (statusUpdateEntry "J1" Done) =
      ((Apply demoJson
          (applyAll demoJson NewFSM [filamentEntry F1, printerEntry P1, printJobEntry J1,
            statusUpdateEntry "J1" Running])
          (statusUpdateEntry "J1" Done)).1, some (.invalidTransition Done Done)) :=
  retried_status_update_fails demoJson
    (applyAll demoJson NewFSM [filamentEntry F1, printerEntry P1, printJobEntry J1,
      statusUpdateEntry "J1" Running])
    (statusUpdateEntry "J1" Done) ⟨"J1", Done⟩ (by decide) (by decide)

/-- C16: an update-job-status command for a job id that is not a key of the
print-job table returns the not-found error, whatever status it asks for, and
leaves the three tables as they are. -/
theorem unknown_job_rejected (js : Json) (f : FSM) (data : Bytes) (cmd : StatusUpdate)
    (hcmd : IsStatusUpdate js data cmd) (hnew : cmd.JobID ∉ f.printJobs) :
    Apply js f data = (f, some (.jobNotFound cmd.JobID)) := by
  rw [Apply_statusUpdate hcmd]
  have h : f.printJobs.lookup cmd.JobID = none := Finmap.lookup_eq_none.mpr hnew
  simp only [applyStatusUpdate, h]

/-- C16 on the spec's scenario: no job is stored under `J3`. -/
theorem unknown_job_rejected_witness :
    Apply demoJson scenario (statusUpdateEntry "J3" Done) =
      (scenario, some (.jobNotFound "J3")) :=
  unknown_job_rejected demoJson scenario (statusUpdateEntry "J3" Done) ⟨"J3", Done⟩
    (by decide) (by decide)

/-! ### Decode failures -/

/-- C14: for an entry with none of the four tags, and for an entry with one of
the four tags and a payload that does not decode, Apply returns and the
printer, filament and print-job tables are as before. -/
theorem decode_failure_no_mutation (js : Json) (f : FSM) (data : Bytes)
    (h : UnknownTag data ∨ MalformedCreation js data ∨ MalformedStatusUpdate js data) :
    (Apply js f data).1 = f := by
  rcases h with ⟨h₁, h₂, h₃, h₄⟩ | (⟨h₁, hu⟩ | ⟨h₂, hu⟩ | ⟨h₄, hu⟩) | ⟨h₃, hu⟩
  · simp [Apply, h₁, h₂, h₃, h₄]
  · obtain ⟨e, he⟩ := toOption_eq_none hu
    simp [Apply, h₁, he]
  · obtain ⟨e, he⟩ := toOption_eq_none hu
    have h₁ : hasTag data "printer:" = false := hasTag_exclusive h₂ (by decide) (by decide)
    simp [Apply, h₁, h₂, he]
  · obtain ⟨e, he⟩ := toOption_eq_none hu
    have h₁ : hasTag data "printer:" = false := hasTag_exclusive h₄ (by decide) (by decide)
    have h₂ : hasTag data "filament:" = false := hasTag_exclusive h₄ (by decide) (by decide)
    have h₃ : hasTag data "statusupdate:" = false :=
      hasTag_exclusive h₄ (by decide) (by decide)
    simp [Apply, h₁, h₂, h₃, h₄, he]
  · obtain ⟨e, he⟩ := toOption_eq_none hu
    have h₁ : hasTag data "printer:" = false := hasTag_exclusive h₃ (by decide) (by decide)
    have h₂ : hasTag data "filament:" = false := hasTag_exclusive h₃ (by decide) (by decide)
    simp [Apply, h₁, h₂, h₃, he]

/-- C14 on the spec's scenario and an update-job-status entry that is not JSON. -/
theorem decode_failure_no_mutation_witness :
    (Apply demoJson scenario (bytesOf "statusupdate:J1 is done")).1 = scenario :=
  decode_failure_no_mutation demoJson scenario (bytesOf "statusupdate:J1 is done")
    (Or.inr (Or.inr (by decide)))

/-- The first six characters of a text that starts with a constant of six or
more characters. -/
theorem take_six_append (start rest : String) (h : 6 ≤ start.data.length) :
    (start ++ rest).data.take 6 = start.data.take 6 := by
  rw [String.data_append, List.take_append_of_le_length h]

/-- The text of an unmarshal error is the text of no other error of `Apply`. -/
theorem unmarshal_message_ne (err : String) (e : ApplyError)
    (he : ∀ other, e ≠ .unmarshal other) :
    (ApplyError.unmarshal err).message ≠ e.message := by
  have hu : (ApplyError.unmarshal err).message.data.take 6 = "FSM: u".data := by
    unfold ApplyError.message
    rw [take_six_append _ _ (by decide)]
    decide
  intro h
  rw [h] at hu
  cases e with
  | unmarshal other => exact he other rfl
  | jobNotFound jobID =>
    unfold ApplyError.message at hu
    rw [take_six_append _ _ (by
        rw [String.data_append, List.length_append]
        exact Nat.le_add_right_of_le (by decide)),
      take_six_append _ _ (by decide)] at hu
    revert hu; decide
  | invalidTransition current target =>
    unfold ApplyError.message at hu
    rw [take_six_append _ _ (by
        rw [String.data_append, String.data_append, List.length_append, List.length_append]
        exact Nat.le_add_right_of_le (Nat.le_add_right_of_le (by decide))),
      take_six_append _ _ (by
        rw [String.data_append, List.length_append]
        exact Nat.le_add_right_of_le (by decide)),
      take_six_append _ _ (by decide)] at hu
    revert hu; decide
  | insufficientFilament jobID =>
    unfold ApplyError.message at hu
    rw [take_six_append _ _ (by decide)] at hu
    revert hu; decide
  | invalidStatus status =>
    unfold ApplyError.message at hu
    rw [take_six_append _ _ (by decide)] at hu
    revert hu; decide

/-- C15, as amended: for an update-job-status entry whose payload does not
decode, Apply returns an unmarshal error, which is not nil and whose text is
the text of no validation error, and the tables are as before; for an entry
with none of the four tags and for a create-printer, create-filament or
create-print-job entry whose payload does not decode, Apply returns nil, with
the tables as before. -/
theorem decode_failure_outcome (js : Json) (f : FSM) (data : Bytes) :
    (MalformedStatusUpdate js data →
      ∃ err, Apply js f data = (f, some (.unmarshal err)) ∧
        ∀ e : ApplyError, (∀ other, e ≠ .unmarshal other) →
          (ApplyError.unmarshal err).message ≠ e.message) ∧
    (UnknownTag data ∨ MalformedCreation js data → Apply js f data = (f, none)) := by
  constructor
  · rintro ⟨h₃, hu⟩
    obtain ⟨err, he⟩ := toOption_eq_none hu
    have h₁ : hasTag data "printer:" = false := hasTag_exclusive h₃ (by decide) (by decide)
    have h₂ : hasTag data "filament:" = false := hasTag_exclusive h₃ (by decide) (by decide)
    exact ⟨err, by simp [Apply, h₁, h₂, h₃, he], fun e hne => unmarshal_message_ne err e hne⟩
  · rintro (⟨h₁, h₂, h₃, h₄⟩ | ⟨h₁, hu⟩ | ⟨h₂, hu⟩ | ⟨h₄, hu⟩)
    · simp [Apply, h₁, h₂, h₃, h₄]
    · obtain ⟨e, he⟩ := toOption_eq_none hu
      simp [Apply, h₁, he]
    · obtain ⟨e, he⟩ := toOption_eq_none hu
      have h₁ : hasTag data "printer:" = false := hasTag_exclusive h₂ (by decide) (by decide)
      simp [Apply, h₁, h₂, he]
    · obtain ⟨e, he⟩ := toOption_eq_none hu
      have h₁ : hasTag data "printer:" = false := hasTag_exclusive h₄ (by decide) (by decide)
      have h₂ : hasTag data "filament:" = false := hasTag_exclusive h₄ (by decide) (by decide)
      have h₃ : hasTag data "statusupdate:" = false :=
        hasTag_exclusive h₄ (by decide) (by decide)
      simp [Apply, h₁, h₂, h₃, h₄, he]

/-- The amended C15 on the spec's scenario: an update-job-status entry that is
not JSON gives an unmarshal error, a create-filament entry that is not JSON
gives nil. -/
theorem decode_failure_outcome_witness :
    (∃ err, Apply demoJson scenario (bytesOf "statusupdate:J1 is done") =
        (scenario, some (.unmarshal err)) ∧
      ∀ e : ApplyError, (∀ other, e ≠ .unmarshal other) →
        (ApplyError.unmarshal err).message ≠ e.message) ∧
    Apply demoJson scenario (bytesOf "filament:F1") = (scenario, none) :=
  ⟨(decode_failure_outcome demoJson scenario (bytesOf "statusupdate:J1 is done")).1
      (by decide),
   (decode_failure_outcome demoJson scenario (bytesOf "filament:F1")).2
      (Or.inr (by decide))⟩

/-- C15 as stated fails: a create-printer entry whose payload is not JSON and
an entry with no tag both make Apply return nil, which is also what Apply
returns for the create-printer entry of `P1`, which it applies. -/
theorem decode_failure_outcome_counterexample :
    MalformedCreation demoJson (bytesOf "printer:oops") ∧
    (Apply demoJson NewFSM (bytesOf "printer:oops")).2 = none ∧
    UnknownTag (bytesOf "oops") ∧
    (Apply demoJson NewFSM (bytesOf "oops")).2 = none ∧
    IsPrinter demoJson (printerEntry P1) P1 ∧
    (Apply demoJson NewFSM (printerEntry P1)).1.printers.lookup "P1" = some P1 ∧
    (Apply demoJson NewFSM (printerEntry P1)).2 = none := by
  refine ⟨?_, ?_, ?_, ?_, ?_, ?_, ?_⟩ <;> decide

/-! ### Read accessors -/

/-- A loop over a map visits as many values as the map has keys. -/
theorem card_rangeValues {V : Type} (m : GoMap V) :
    Multiset.card (rangeValues m) = m.keys.card := by
  unfold rangeValues Finmap.keys
  simp [Multiset.keys, Finset.card]

/-- A loop over a map visits, for every key once, the value stored under it. -/
theorem rangeValues_eq_lookups {V : Type} (m : GoMap V) :
    (rangeValues m).map some = m.keys.val.map (fun id => m.lookup id) := by
  induction m using Finmap.induction_on with
  | H l =>
    unfold rangeValues
    rw [Finmap.keys_val, AList.toFinmap_entries]
    simp only [Finmap.lookup_toFinmap, Multiset.map_coe, Multiset.coe_eq_coe, AList.keys,
      List.keys, List.map_map]
    apply List.Perm.of_eq
    apply List.map_congr_left
    intro e he
    obtain ⟨k, v⟩ := e
    exact ((List.mem_dlookup_iff l.nodupKeys).mpr he).symm

/-- C17: GetAllPrinters, GetAllPrintJobs and GetAllFilaments each return, in
some order, the values of their table, the value under every key once, so as
many as the table has keys; GetFilamentByID returns the filament stored under
the id when the id is a key and an error otherwise; and after each of the four
the tables are the ones before. -/
theorem read_accessors (f : FSM) :
    ((GetAllPrinters f).1 = f ∧
      Multiset.card (GetAllPrinters f).2 = f.printers.keys.card ∧
      (GetAllPrinters f).2.map some = f.printers.keys.val.map (fun id => f.printers.lookup id)) ∧
    ((GetAllPrintJobs f).1 = f ∧
      Multiset.card (GetAllPrintJobs f).2 = f.printJobs.keys.card ∧
      (GetAllPrintJobs f).2.map some =
        f.printJobs.keys.val.map (fun id => f.printJobs.lookup id)) ∧
    ((GetAllFilaments f).1 = f ∧
      Multiset.card (GetAllFilaments f).2 = f.filaments.keys.card ∧
      (GetAllFilaments f).2.map some =
        f.filaments.keys.val.map (fun id => f.filaments.lookup id)) ∧
    ∀ id, (GetFilamentByID f id).1 = f ∧
      (∀ fl, f.filaments.lookup id = some fl → (GetFilamentByID f id).2 = .ok fl) ∧
      (id ∉ f.filaments → (GetFilamentByID f id).2 = .error "filament not found") := by
  refine ⟨⟨rfl, card_rangeValues _, rangeValues_eq_lookups _⟩,
    ⟨rfl, card_rangeValues _, rangeValues_eq_lookups _⟩,
    ⟨rfl, card_rangeValues _, rangeValues_eq_lookups _⟩, fun id => ⟨?_, ?_, ?_⟩⟩
  · unfold GetFilamentByID
    cases f.filaments.lookup id <;> rfl
  · intro fl h
    unfold GetFilamentByID
    rw [h]
  · intro h
    unfold GetFilamentByID
    rw [Finmap.lookup_eq_none.mpr h]

/-- C17 on the spec's scenario: one printer, two jobs, and the filament `F1`
with 600 g left; no filament is stored under `F9`. -/
theorem read_accessors_witness :
    Multiset.card (GetAllPrinters scenario).2 = 1 ∧
    Multiset.card (GetAllPrintJobs scenario).2 = 2 ∧
    (GetFilamentByID scenario "F1").2 = .ok { F1 with RemainingWeightInGrams := 600 } ∧
    (GetFilamentByID scenario "F9").2 = .error "filament not found" :=
  ⟨(read_accessors scenario).1.2.1.trans (by decide),
   (read_accessors scenario).2.1.2.1.trans (by decide),
   ((read_accessors scenario).2.2.2 "F1").2.1 _ (by decide),
   ((read_accessors scenario).2.2.2 "F9").2.2 (by decide)⟩

/-! ### Commands of the write gateway -/

/-- An entry that passes the checks of the gateway keeps stock sound. -/
theorem GatewayShaped.stockSound {js : Json} {data : Bytes} (h : GatewayShaped js data) :
    StockSound js data := by
  refine ⟨fun fl hfl => ?_, fun pj hpj => le_of_lt (h.2.1 pj hpj).1⟩
  obtain ⟨hpos, heq⟩ := h.1 fl hfl
  unfold Filament.InStock
  rw [heq]
  exact ⟨le_of_lt hpos, le_refl _⟩

/-- C18: in every state reached from the empty FSM by Apply of entries that
pass the checks of the write gateway (a filament with total weight above zero
and all of it left, a job with print weight above zero and status Queued, a
status command for Running, Done or Canceled), every filament satisfies
0 <= remaining_weight_grams <= total_weight_grams. -/
theorem gateway_stock_invariant (js : Json) (entries : List Bytes)
    (h : ∀ data ∈ entries, GatewayShaped js data) :
    StockInvariant (applyAll js NewFSM entries) := by
  refine (stock_run js entries NewFSM (fun data hd => (h data hd).stockSound) ?_ ?_).1
  · intro id fl hl
    rw [show NewFSM.filaments = ∅ from rfl, Finmap.lookup_empty] at hl
    cases hl
  · intro id pj hl
    rw [show NewFSM.printJobs = ∅ from rfl, Finmap.lookup_empty] at hl
    cases hl

/-- C18 on the log of the spec's scenario, followed by the refused Done of `J2`. -/
theorem gateway_stock_invariant_witness :
    StockInvariant (applyAll demoJson NewFSM
      [filamentEntry F1, printerEntry P1, printJobEntry J1, statusUpdateEntry "J1" Running,
        statusUpdateEntry "J1" Done, printJobEntry J2, statusUpdateEntry "J2" Running,
        statusUpdateEntry "J2" Done]) :=
  gateway_stock_invariant demoJson
    [filamentEntry F1, printerEntry P1, printJobEntry J1, statusUpdateEntry "J1" Running,
      statusUpdateEntry "J1" Done, printJobEntry J2, statusUpdateEntry "J2" Running,
      statusUpdateEntry "J2" Done]
    (by decide)

/-! ### Referential integrity -/

/-- No call of `Apply` removes a key from a table. -/
theorem keysKept_step (js : Json) (f : FSM) (data : Bytes) : KeysKept f (Apply js f data).1 := by
  have same : ∀ g : FSM, g = f → KeysKept f g := by
    intro g hg; rw [hg]; exact ⟨fun _ h => h, fun _ h => h, fun _ h => h⟩
  rcases Apply_cases js f data with h | ⟨p, _, h⟩ | ⟨fl, _, h⟩ | ⟨cmd, _, h⟩ | ⟨pj, _, h⟩
  · exact same _ h
  · rw [h]
    exact ⟨fun id hid => Finmap.mem_insert.mpr (Or.inr hid), fun _ hid => hid, fun _ hid => hid⟩
  · rw [h]
    exact ⟨fun _ hid => hid, fun id hid => Finmap.mem_insert.mpr (Or.inr hid), fun _ hid => hid⟩
  · rw [h]
    rcases applyStatusUpdate_cases f cmd with ⟨e, he⟩ | ⟨x, _, _, he⟩ | ⟨x, _, _, _, _, he⟩
    · rw [he]; exact same _ rfl
    · rw [he]
      exact ⟨fun _ hid => hid, fun _ hid => hid,
        fun id hid => Finmap.mem_insert.mpr (Or.inr hid)⟩
    · rw [he]
      exact ⟨fun _ hid => hid, fun id hid => Finmap.mem_insert.mpr (Or.inr hid),
        fun id hid => Finmap.mem_insert.mpr (Or.inr hid)⟩
  · rw [h]
    rcases applyPrintJob_cases f pj with he | ⟨_, _, he⟩
    · rw [he]; exact same _ rfl
    · rw [he]
      exact ⟨fun _ hid => hid, fun _ hid => hid,
        fun id hid => Finmap.mem_insert.mpr (Or.inr hid)⟩

/-- Referential integrity carries over to tables that keep the printer and
filament keys and whose jobs name the printer and filament of a job stored
before, or a printer and a filament stored now. -/
theorem refIntegrity_of {f g : FSM} (hf : RefIntegrity f)
    (hp : ∀ id, id ∈ f.printers → id ∈ g.printers)
    (hfl : ∀ id, id ∈ f.filaments → id ∈ g.filaments)
    (hj : ∀ id pj, g.printJobs.lookup id = some pj →
      (∃ key old, f.printJobs.lookup key = some old ∧ old.PrinterID = pj.PrinterID ∧
        old.FilamentID = pj.FilamentID) ∨
      (pj.PrinterID ∈ g.printers ∧ pj.FilamentID ∈ g.filaments)) :
    RefIntegrity g := by
  intro id pj hl
  rcases hj id pj hl with ⟨key, old, hold, h₁, h₂⟩ | h
  · obtain ⟨hp', hf'⟩ := hf key old hold
    rw [h₁] at hp'; rw [h₂] at hf'
    exact ⟨hp _ hp', hfl _ hf'⟩
  · exact h

/-- The jobs of a table with one more job: the new one, or one stored before. -/
theorem lookup_insert_cases {V : Type} (m : GoMap V) (key : String) (v : V) (id : String)
    (x : V) (h : (m.insert key v).lookup id = some x) :
    (id = key ∧ x = v) ∨ m.lookup id = some x := by
  by_cases hk : id = key
  · subst hk
    rw [Finmap.lookup_insert] at h
    cases h; exact Or.inl ⟨rfl, rfl⟩
  · rw [Finmap.lookup_insert_of_ne _ hk] at h
    exact Or.inr h

/-- One step keeps referential integrity. -/
theorem refIntegrity_step (js : Json) (f : FSM) (data : Bytes) (hf : RefIntegrity f) :
    RefIntegrity (Apply js f data).1 := by
  have hk := keysKept_step js f data
  rcases Apply_cases js f data with h | ⟨p, _, h⟩ | ⟨fl, _, h⟩ | ⟨cmd, _, h⟩ | ⟨pj, _, h⟩
  · rw [h]; exact hf
  · rw [h] at hk ⊢
    exact refIntegrity_of hf hk.1 hk.2.1 (fun id x hl => Or.inl ⟨id, x, hl, rfl, rfl⟩)
  · rw [h] at hk ⊢
    exact refIntegrity_of hf hk.1 hk.2.1 (fun id x hl => Or.inl ⟨id, x, hl, rfl, rfl⟩)
  · rw [h] at hk ⊢
    rcases applyStatusUpdate_cases f cmd with ⟨e, he⟩ | ⟨x, hx, _, he⟩ | ⟨x, hx, _, _, _, he⟩
    · rw [he]; exact hf
    · rw [he] at hk ⊢
      refine refIntegrity_of hf hk.1 hk.2.1 (fun id y hl => Or.inl ?_)
      rcases lookup_insert_cases _ _ _ _ _ hl with ⟨_, hy⟩ | hl'
      · exact ⟨cmd.JobID, x, hx, by rw [hy], by rw [hy]⟩
      · exact ⟨id, y, hl', rfl, rfl⟩
    · rw [he] at hk ⊢
      refine refIntegrity_of hf hk.1 hk.2.1 (fun id y hl => Or.inl ?_)
      rcases lookup_insert_cases _ _ _ _ _ hl with ⟨_, hy⟩ | hl'
      · exact ⟨cmd.JobID, x, hx, by rw [hy], by rw [hy]⟩
      · exact ⟨id, y, hl', rfl, rfl⟩
  · rw [h] at hk ⊢
    rcases applyPrintJob_cases f pj with he | ⟨hp, hfl, he⟩
    · rw [he]; exact hf
    · rw [he] at hk ⊢
      refine refIntegrity_of hf hk.1 hk.2.1 (fun id y hl => ?_)
      rcases lookup_insert_cases _ _ _ _ _ hl with ⟨_, hy⟩ | hl'
      · right; rw [hy]; exact ⟨hp, hfl⟩
      · exact Or.inl ⟨id, y, hl', rfl, rfl⟩

/-- A log keeps referential integrity. -/
theorem refIntegrity_run (js : Json) (entries : List Bytes) :
    ∀ f : FSM, RefIntegrity f → RefIntegrity (applyAll js f entries) := by
  induction entries with
  | nil => intro f hf; exact hf
  | cons data rest ih => intro f hf; exact ih _ (refIntegrity_step js f data hf)

/-- The empty FSM has referential integrity: it has no job. -/
theorem refIntegrity_NewFSM : RefIntegrity NewFSM := by
  intro id pj hl
  rw [show NewFSM.printJobs = ∅ from rfl, Finmap.lookup_empty] at hl
  cases hl

/-- C19: in every state reached from the empty FSM by Apply calls, every job of
the print-job table names a printer that is a key of the printer table and a
filament that is a key of the filament table; no Apply removes a key from any
of the three tables; and so for every stored job the filament lookup of the
Done transition finds a stored filament. -/
theorem referential_integrity (js : Json) (entries : List Bytes) :
    RefIntegrity (applyAll js NewFSM entries) ∧
    (∀ (f : FSM) (data : Bytes), KeysKept f (Apply js f data).1) ∧
    (∀ id pj, (applyAll js NewFSM entries).printJobs.lookup id = some pj →
      ∃ fl, (applyAll js NewFSM entries).filaments.lookup pj.FilamentID = some fl) := by
  have hr := refIntegrity_run js entries NewFSM refIntegrity_NewFSM
  exact ⟨hr, fun f data => keysKept_step js f data,
    fun id pj hl => Finmap.mem_iff.mp (hr id pj hl).2⟩

/-- C19 on the spec's scenario: the filament of the stored job `J2` is stored. -/
theorem referential_integrity_witness :
    ∃ fl, scenario.filaments.lookup ({ J2 with Status := Running } : PrintJob).FilamentID =
      some fl :=
  (referential_integrity demoJson
    [filamentEntry F1, printerEntry P1, printJobEntry J1, statusUpdateEntry "J1" Running,
      statusUpdateEntry "J1" Done, printJobEntry J2, statusUpdateEntry "J2" Running]).2.2
    "J2" { J2 with Status := Running } (by decide)

/-! ### Stock conservation -/

/-- The weight deducted from a filament, as a sum over the keys of the job table. -/
theorem doneWeight_eq_sum (jobs : GoMap PrintJob) (filamentID : String) :
    doneWeight jobs filamentID = ∑ id ∈ jobs.keys, doneShare filamentID (jobs.lookup id) := by
  unfold doneWeight
  have h := congrArg (Multiset.map (doneShare filamentID)) (rangeValues_eq_lookups jobs)
  rw [Multiset.map_map, Multiset.map_map] at h
  rw [Finset.sum_eq_multiset_sum]
  exact congrArg Multiset.sum h

/-- The keys of a map with one more entry. -/
theorem keys_insert {V : Type} (m : GoMap V) (key : String) (v : V) :
    (m.insert key v).keys = insert key m.keys := by
  ext id
  rw [Finmap.mem_keys, Finmap.mem_insert, Finset.mem_insert, Finmap.mem_keys]

/-- Storing a job changes the weight deducted from a filament by the share of
the new job less the share of the job it replaces. -/
theorem doneWeight_insert (jobs : GoMap PrintJob) (key : String) (pj : PrintJob)
    (filamentID : String) :
    doneWeight (jobs.insert key pj) filamentID =
      doneWeight jobs filamentID - doneShare filamentID (jobs.lookup key) +
        doneShare filamentID (some pj) := by
  rw [doneWeight_eq_sum, doneWeight_eq_sum, keys_insert]
  have hrest : ∀ S : Finset String, key ∉ S →
      ∑ id ∈ S, doneShare filamentID ((jobs.insert key pj).lookup id) =
        ∑ id ∈ S, doneShare filamentID (jobs.lookup id) := by
    intro S hS
    apply Finset.sum_congr rfl
    intro id hid
    have hne : id ≠ key := fun e => hS (e ▸ hid)
    rw [Finmap.lookup_insert_of_ne _ hne]
  by_cases hk : key ∈ jobs.keys
  · rw [Finset.insert_eq_of_mem hk, ← Finset.add_sum_erase _ _ hk,
      ← Finset.add_sum_erase jobs.keys (fun id => doneShare filamentID (jobs.lookup id)) hk,
      hrest _ (Finset.not_mem_erase _ _), Finmap.lookup_insert]
    ring
  · rw [Finset.sum_insert hk, hrest _ hk, Finmap.lookup_insert,
      Finmap.lookup_eq_none.mpr (fun h => hk (Finmap.mem_keys.mpr h))]
    simp only [doneShare]
    ring

/-- Nothing was deducted from a filament that no stored job names. -/
theorem doneWeight_eq_zero (jobs : GoMap PrintJob) (filamentID : String)
    (h : ∀ id pj, jobs.lookup id = some pj → pj.FilamentID ≠ filamentID) :
    doneWeight jobs filamentID = 0 := by
  rw [doneWeight_eq_sum]
  apply Finset.sum_eq_zero
  intro id _
  cases hl : jobs.lookup id with
  | none => rfl
  | some pj => simp [doneShare, h id pj hl]

/-- The entries of a map with one more entry: the new one under its key, or one
stored before under another key. -/
theorem lookup_insert_cases_ne {V : Type} (m : GoMap V) (key : String) (v : V) (id : String)
    (x : V) (h : (m.insert key v).lookup id = some x) :
    (id = key ∧ x = v) ∨ (id ≠ key ∧ m.lookup id = some x) := by
  by_cases hk : id = key
  · subst hk
    rw [Finmap.lookup_insert] at h
    cases h; exact Or.inl ⟨rfl, rfl⟩
  · rw [Finmap.lookup_insert_of_ne _ hk] at h
    exact Or.inr ⟨hk, h⟩

/-- A job that is not Done has no share in what was deducted. -/
theorem doneShare_of_not_done (filamentID : String) (pj : PrintJob) (h : pj.Status ≠ Done) :
    doneShare filamentID (some pj) = 0 := by
  simp [doneShare, h]

/-- Wrapping a difference whose first term was wrapped is wrapping the exact
difference. -/
theorem wrapInt_sub_wrapInt (a w : Int) : wrapInt (wrapInt a - w) = wrapInt (a - w) := by
  unfold wrapInt
  omega

/-- A value of the range of a Go `int` is not changed by the wrap. -/
theorem wrapInt_of_inRange (x : Int) (hlo : minInt ≤ x) (hhi : x ≤ maxInt) : wrapInt x = x := by
  unfold minInt at hlo
  unfold maxInt at hhi
  unfold wrapInt
  omega

/-- One step on a conserving entry that creates no filament and no job under a
stored id keeps stock conserved. -/
theorem conserved_step (js : Json) (f : FSM) (data : Bytes) (hc : Conserved f)
    (hr : RefIntegrity f) (he : ConservingEntry js data)
    (hnf : ∀ fl ∈ filamentOf js data, fl.ID ∉ f.filaments)
    (hnj : ∀ pj ∈ printJobOf js data, pj.ID ∉ f.printJobs) :
    Conserved (Apply js f data).1 := by
  obtain ⟨qr, qd, qc, rd, rc, dc⟩ := status_distinct
  rcases Apply_cases js f data with h | ⟨p, _, h⟩ | ⟨fl, hfl, h⟩ | ⟨cmd, _, h⟩ | ⟨pj, hpj, h⟩
  · rw [h]; exact hc
  · rw [h]; exact hc
  · rw [h]
    intro id x hl
    rcases lookup_insert_cases_ne _ _ _ _ _ hl with ⟨hid, hx⟩ | ⟨_, hl'⟩
    · subst hid; subst hx
      refine ⟨rfl, ?_⟩
      have hz : doneWeight f.printJobs x.ID = 0 := by
        apply doneWeight_eq_zero
        intro key pj hj hcontra
        exact hnf x (filamentOf_iff.mp hfl) (hcontra ▸ (hr key pj hj).2)
      show x.RemainingWeightInGrams.val =
        wrapInt (x.TotalWeightInGrams.val - doneWeight f.printJobs x.ID)
      rw [hz, he.1 x (filamentOf_iff.mp hfl), sub_zero,
        wrapInt_of_inRange _ x.TotalWeightInGrams.property.1 x.TotalWeightInGrams.property.2]
    · exact hc id x hl'
  · rw [h]
    rcases applyStatusUpdate_cases f cmd with ⟨e, he'⟩ | ⟨pj, hjob, hedge, he'⟩ |
      ⟨pj, hjob, hd, hrun, hge, he'⟩
    · rw [he']; exact hc
    · rw [he']
      intro id x hl
      obtain ⟨hid, hrem⟩ := hc id x hl
      refine ⟨hid, ?_⟩
      show x.RemainingWeightInGrams.val = wrapInt (x.TotalWeightInGrams.val -
        doneWeight (f.printJobs.insert cmd.JobID { pj with Status := cmd.NewStatus }) id)
      have hold : doneShare id (some pj) = 0 := by
        apply doneShare_of_not_done
        rcases hedge with ⟨_, hq⟩ | ⟨_, hq | hq⟩
        · rw [hq]; exact qd
        · rw [hq]; exact qd
        · rw [hq]; exact rd
      have hnew : doneShare id (some { pj with Status := cmd.NewStatus }) = 0 := by
        apply doneShare_of_not_done
        rcases hedge with ⟨hs, _⟩ | ⟨hs, _⟩
        · show cmd.NewStatus ≠ Done
          rw [hs]; exact rd
        · show cmd.NewStatus ≠ Done
          rw [hs]; exact dc.symm
      rw [doneWeight_insert, hjob, hold, hnew, sub_zero, add_zero]
      exact hrem
    · rw [he']
      obtain ⟨fil, hfil⟩ := Finmap.mem_iff.mp (hr _ pj hjob).2
      rw [hfil, Option.getD_some] at hge ⊢
      have hold : ∀ id, doneShare id (some pj) = 0 := fun id =>
        doneShare_of_not_done id pj (by rw [hrun]; exact rd)
      have hnew : ∀ id, doneShare id (some { pj with Status := cmd.NewStatus }) =
          if pj.FilamentID = id then pj.PrintWeightInGrams.val else 0 := by
        intro id
        simp [doneShare, hd]
      have hdw : ∀ id, doneWeight
          (f.printJobs.insert cmd.JobID { pj with Status := cmd.NewStatus }) id =
          doneWeight f.printJobs id +
            (if pj.FilamentID = id then pj.PrintWeightInGrams.val else 0) := by
        intro id
        rw [doneWeight_insert, hjob, hold, hnew]
        ring
      intro id x hl
      show x.ID = id ∧ x.RemainingWeightInGrams.val = wrapInt (x.TotalWeightInGrams.val -
        doneWeight (f.printJobs.insert cmd.JobID { pj with Status := cmd.NewStatus }) id)
      rw [hdw]
      rcases lookup_insert_cases_ne _ _ _ _ _ hl with ⟨hid, hx⟩ | ⟨hne, hl'⟩
      · obtain ⟨hfid, hrem⟩ := hc _ fil hfil
        subst hx
        refine ⟨hfid.trans hid.symm, ?_⟩
        show wrapInt (fil.RemainingWeightInGrams.val - pj.PrintWeightInGrams.val) =
          wrapInt (fil.TotalWeightInGrams.val - (doneWeight f.printJobs id +
            (if pj.FilamentID = id then pj.PrintWeightInGrams.val else 0)))
        rw [hrem, wrapInt_sub_wrapInt, if_pos hid.symm, hid]
        congr 1
        ring
      · obtain ⟨hfid, hrem⟩ := hc id x hl'
        refine ⟨hfid, ?_⟩
        rw [if_neg (fun e => hne e.symm), add_zero]
        exact hrem
  · rw [h]
    rcases applyPrintJob_cases f pj with he' | ⟨_, _, he'⟩
    · rw [he']; exact hc
    · rw [he']
      intro id x hl
      obtain ⟨hid, hrem⟩ := hc id x hl
      refine ⟨hid, ?_⟩
      show x.RemainingWeightInGrams.val = wrapInt (x.TotalWeightInGrams.val -
        doneWeight (f.printJobs.insert pj.ID { pj with
          Status := (if pj.Status = "" then Queued else pj.Status) }) id)
      have hnew : doneShare id (some { pj with
          Status := (if pj.Status = "" then Queued else pj.Status) }) = 0 := by
        apply doneShare_of_not_done
        show (if pj.Status = "" then Queued else pj.Status) ≠ Done
        rcases he.2 pj (printJobOf_iff.mp hpj) with hs | hs
        · rw [if_pos hs]; exact qd
        · by_cases hs' : pj.Status = ""
          · rw [if_pos hs']; exact qd
          · rw [if_neg hs', hs]; exact qd
      have hold : doneShare id (f.printJobs.lookup pj.ID) = 0 := by
        rw [Finmap.lookup_eq_none.mpr (hnj pj (printJobOf_iff.mp hpj))]
        rfl
      rw [doneWeight_insert, hnew, hold, sub_zero, add_zero]
      exact hrem

/-- A key of the filament table or of the job table after a step was a key
before, or is the id the entry creates a filament or a job under. -/
theorem new_keys (js : Json) (f : FSM) (data : Bytes) (hr : RefIntegrity f) :
    (∀ id, id ∈ (Apply js f data).1.filaments →
      id ∈ f.filaments ∨ ∃ fl ∈ filamentOf js data, fl.ID = id) ∧
    (∀ id, id ∈ (Apply js f data).1.printJobs →
      id ∈ f.printJobs ∨ ∃ pj ∈ printJobOf js data, pj.ID = id) := by
  rcases Apply_cases js f data with h | ⟨p, _, h⟩ | ⟨fl, hfl, h⟩ | ⟨cmd, _, h⟩ | ⟨pj, hpj, h⟩
  · rw [h]; exact ⟨fun _ hid => Or.inl hid, fun _ hid => Or.inl hid⟩
  · rw [h]; exact ⟨fun _ hid => Or.inl hid, fun _ hid => Or.inl hid⟩
  · rw [h]
    refine ⟨fun id hid => ?_, fun _ hid => Or.inl hid⟩
    rcases Finmap.mem_insert.mp hid with hk | hk
    · exact Or.inr ⟨fl, filamentOf_iff.mp hfl, hk.symm⟩
    · exact Or.inl hk
  · rw [h]
    rcases applyStatusUpdate_cases f cmd with ⟨e, he'⟩ | ⟨pj, hjob, _, he'⟩ |
      ⟨pj, hjob, _, _, _, he'⟩
    · rw [he']; exact ⟨fun _ hid => Or.inl hid, fun _ hid => Or.inl hid⟩
    · rw [he']
      refine ⟨fun _ hid => Or.inl hid, fun id hid => Or.inl ?_⟩
      rcases Finmap.mem_insert.mp hid with hk | hk
      · rw [hk]; exact Finmap.mem_of_lookup_eq_some hjob
      · exact hk
    · rw [he']
      refine ⟨fun id hid => Or.inl ?_, fun id hid => Or.inl ?_⟩
      · rcases Finmap.mem_insert.mp hid with hk | hk
        · rw [hk]; exact (hr _ pj hjob).2
        · exact hk
      · rcases Finmap.mem_insert.mp hid with hk | hk
        · rw [hk]; exact Finmap.mem_of_lookup_eq_some hjob
        · exact hk
  · rw [h]
    rcases applyPrintJob_cases f pj with he' | ⟨_, _, he'⟩
    · rw [he']; exact ⟨fun _ hid => Or.inl hid, fun _ hid => Or.inl hid⟩
    · rw [he']
      refine ⟨fun _ hid => Or.inl hid, fun id hid => ?_⟩
      rcases Finmap.mem_insert.mp hid with hk | hk
      · exact Or.inr ⟨pj, printJobOf_iff.mp hpj, hk.symm⟩
      · exact Or.inl hk

/-- The filament ids a log creates: the one of its first entry, if it carries a
filament, and those of the rest. -/
theorem createdFilaments_cons (js : Json) (data : Bytes) (rest : List Bytes) :
    createdFilaments js (data :: rest) =
      (match filamentOf js data with
        | some fl => [fl.ID]
        | none => []) ++ createdFilaments js rest := by
  unfold createdFilaments
  cases h : filamentOf js data <;> simp [List.filterMap_cons, h]

/-- The job ids a log creates: the one of its first entry, if it carries a job,
and those of the rest. -/
theorem createdJobs_cons (js : Json) (data : Bytes) (rest : List Bytes) :
    createdJobs js (data :: rest) =
      (match printJobOf js data with
        | some pj => [pj.ID]
        | none => []) ++ createdJobs js rest := by
  unfold createdJobs
  cases h : printJobOf js data <;> simp [List.filterMap_cons, h]

/-- Conserving entries that create every filament and every job under a new id
keep stock conserved along a whole log. -/
theorem conserved_run (js : Json) (entries : List Bytes) :
    ∀ f : FSM, Conserved f → RefIntegrity f →
      (∀ data ∈ entries, ConservingEntry js data) →
      (createdFilaments js entries).Nodup → (createdJobs js entries).Nodup →
      (∀ id ∈ createdFilaments js entries, id ∉ f.filaments) →
      (∀ id ∈ createdJobs js entries, id ∉ f.printJobs) →
      Conserved (applyAll js f entries) := by
  induction entries with
  | nil => intro f hc _ _ _ _ _ _; exact hc
  | cons data rest ih =>
    intro f hc hr he hnd₁ hnd₂ hf₁ hf₂
    rw [createdFilaments_cons] at hnd₁ hf₁
    rw [createdJobs_cons] at hnd₂ hf₂
    have hentry := he data (List.mem_cons_self _ _)
    have hnf : ∀ fl ∈ filamentOf js data, fl.ID ∉ f.filaments := by
      intro fl hfl
      apply hf₁
      rw [Option.mem_def.mp hfl]
      simp
    have hnj : ∀ pj ∈ printJobOf js data, pj.ID ∉ f.printJobs := by
      intro pj hpj
      apply hf₂
      rw [Option.mem_def.mp hpj]
      simp
    have hkeys := new_keys js f data hr
    refine ih (Apply js f data).1 (conserved_step js f data hc hr hentry hnf hnj)
      (refIntegrity_step js f data hr)
      (fun d hd => he d (List.mem_cons_of_mem _ hd))
      (List.Nodup.of_append_right hnd₁) (List.Nodup.of_append_right hnd₂) ?_ ?_
    · intro id hid hmem
      rcases hkeys.1 id hmem with hold | ⟨fl, hfl, hflid⟩
      · exact hf₁ id (List.mem_append_right _ hid) hold
      · rw [Option.mem_def.mp hfl] at hnd₁
        have := (List.nodup_cons.mp hnd₁).1
        exact this (hflid ▸ hid)
    · intro id hid hmem
      rcases hkeys.2 id hmem with hold | ⟨pj, hpj, hpjid⟩
      · exact hf₂ id (List.mem_append_right _ hid) hold
      · rw [Option.mem_def.mp hpj] at hnd₂
        have := (List.nodup_cons.mp hnd₂).1
        exact this (hpjid ▸ hid)

/-- C20, as amended: for every sequence of Apply calls from the empty FSM in
which every create-filament payload has remaining = total, every
create-print-job payload has status unset or Queued, and no two create-filament
commands and no two create-print-job commands carry the same id, in every
resulting state each filament has left what a 64-bit Go int holds for its
total weight minus the sum of the print weights of the jobs of the job table
that name it and are Done; so the filament has left exactly that difference if
and only if the difference lies within the range of a Go int. -/
theorem stock_conservation (js : Json) (entries : List Bytes)
    (he : ∀ data ∈ entries, ConservingEntry js data)
    (hf : (createdFilaments js entries).Nodup) (hj : (createdJobs js entries).Nodup) :
    ∀ id fl, (applyAll js NewFSM entries).filaments.lookup id = some fl →
      fl.RemainingWeightInGrams.val =
        wrapInt (fl.TotalWeightInGrams.val -
          doneWeight (applyAll js NewFSM entries).printJobs fl.ID) ∧
      (fl.RemainingWeightInGrams.val =
          fl.TotalWeightInGrams.val -
            doneWeight (applyAll js NewFSM entries).printJobs fl.ID ↔
        minInt ≤ fl.TotalWeightInGrams.val -
            doneWeight (applyAll js NewFSM entries).printJobs fl.ID ∧
          fl.TotalWeightInGrams.val -
            doneWeight (applyAll js NewFSM entries).printJobs fl.ID ≤ maxInt) := by
  have hc : Conserved (applyAll js NewFSM entries) := by
    refine conserved_run js entries NewFSM ?_ refIntegrity_NewFSM he hf hj ?_ ?_
    · intro id fl hl
      rw [show NewFSM.filaments = ∅ from rfl, Finmap.lookup_empty] at hl
      cases hl
    · intro id _; exact Finmap.not_mem_empty
    · intro id _; exact Finmap.not_mem_empty
  intro id fl hl
  obtain ⟨hid, hrem⟩ := hc id fl hl
  rw [hid]
  exact ⟨hrem, fun h => h ▸ fl.RemainingWeightInGrams.property,
    fun h => by rw [hrem, wrapInt_of_inRange _ h.1 h.2]⟩

set_option maxRecDepth 100000 in
/-- The amended C20 on a log with a job of negative print weight: `J4`, of
weight -5, is Done on `F1`, and `F1` has 1005 g left, its 1000 g less the sum
-5; the difference is within the range of a Go int. -/
theorem stock_conservation_witness :
    ({ F1 with RemainingWeightInGrams := 1005 } : Filament).RemainingWeightInGrams.val =
      ({ F1 with RemainingWeightInGrams := 1005 } : Filament).TotalWeightInGrams.val -
        doneWeight (applyAll demoJson NewFSM
          [filamentEntry F1, printerEntry P1, printJobEntry J4, statusUpdateEntry "J4" Running,
            statusUpdateEntry "J4" Done]).printJobs
          ({ F1 with RemainingWeightInGrams := 1005 } : Filament).ID :=
  (stock_conservation demoJson
    [filamentEntry F1, printerEntry P1, printJobEntry J4, statusUpdateEntry "J4" Running,
      statusUpdateEntry "J4" Done]
    (by decide) (by decide) (by decide) "F1" { F1 with RemainingWeightInGrams := 1005 }
    (by decide)).2.2 ⟨by decide, by decide⟩

set_option maxRecDepth 100000 in
/-- C20 as stated fails: the log creates `F3` with all of its
9223372036854775807 g left and the job `J3`, Queued, with print weight -1, each
under an id of its own; after the Done transition of `J3` the sum of the print
weights of the Done jobs on `F3` is -1, so total minus sum is
9223372036854775808, and `F3` has -9223372036854775808 g left. -/
theorem stock_conservation_counterexample :
    (∀ data ∈ [filamentEntry F3, printerEntry P1, printJobEntry J3,
        statusUpdateEntry "J3" Running, statusUpdateEntry "J3" Done],
      (∀ fl ∈ filamentOf demoJson data, fl.RemainingWeightInGrams = fl.TotalWeightInGrams) ∧
      (∀ pj ∈ printJobOf demoJson data, pj.Status = "" ∨ pj.Status = Queued)) ∧
    (createdFilaments demoJson [filamentEntry F3, printerEntry P1, printJobEntry J3,
      statusUpdateEntry "J3" Running, statusUpdateEntry "J3" Done]).Nodup ∧
    (createdJobs demoJson [filamentEntry F3, printerEntry P1, printJobEntry J3,
      statusUpdateEntry "J3" Running, statusUpdateEntry "J3" Done]).Nodup ∧
    (applyAll demoJson NewFSM [filamentEntry F3, printerEntry P1, printJobEntry J3,
      statusUpdateEntry "J3" Running, statusUpdateEntry "J3" Done]).filaments.lookup "F3" =
      some { F3 with RemainingWeightInGrams := GoInt.ofInt (-9223372036854775808) } ∧
    doneWeight (applyAll demoJson NewFSM [filamentEntry F3, printerEntry P1, printJobEntry J3,
      statusUpdateEntry "J3" Running, statusUpdateEntry "J3" Done]).printJobs "F3" = -1 ∧
    (GoInt.ofInt (-9223372036854775808)).val ≠ F3.TotalWeightInGrams.val - (-1) := by
  refine ⟨?_, ?_, ?_, ?_, ?_, ?_⟩ <;> decide

end Raft3d
